import Mathlib

/-!
# qdlog: a shallow embedding of `src/log.c`

The logger of `src/log.c` is embedded as pure functions over an explicit
state: the logger record, the file system and the bytes sent to standard
output.  The current local time (`time` + `localtime`) is an argument of every
operation that reads the clock.

Conventions
* A C string is the list of its bytes before the terminating NUL; a byte is a
  natural number (0..255), a `char*` that may be `NULL` is an `Option`.
* `int`/`int64_t` values are integers; the counters of this program
  (`current_size`, `written`) are far from the 64-bit range and are not wrapped.
* `snprintf(buf, 1024, ...)` keeps the first 1023 bytes of the formatted text.
* A `FILE*` is the inode it is open on (`none` is the `NULL` stream).  All
  file streams are flushed at the end of each logging call, so a write to a
  stream is an append to the inode.  Writes to an open stream succeed.
* `fclose(NULL)` has undefined behaviour: operations return `none` there.
-/

namespace Qdlog

/-! ## Bytes and the `printf` conversions used by the source -/

/-- The bytes of an ASCII literal. -/
def ascii (s : String) : List Nat := s.data.map Char.toNat

/-- The character of a digit `0..15`, lower case as printed by `%d` and `%x`. -/
def digitChar (d : Nat) : Nat := if d < 10 then 48 + d else 87 + d

/-- Digits of `n` in base `b`, most significant first; `fuel` bounds the
number of digits. -/
def natDigits (b : Nat) : Nat → Nat → List Nat
  | 0, _ => []
  | fuel + 1, n =>
    if n < b then [digitChar n] else natDigits b fuel (n / b) ++ [digitChar (n % b)]

/-- Unsigned conversion of `n` in base `b` (`%u`, `%x` without flags). -/
def fmt_u (b n : Nat) : List Nat := natDigits b (n + 1) n

/-- Flag `0` with a minimum field width: zeros on the left, never a truncation. -/
def zero_pad (width : Nat) (ds : List Nat) : List Nat :=
  List.replicate (width - ds.length) 48 ++ ds

/-- Conversion `%0<width>d`: the sign counts in the field width. -/
def fmt_d (width : Nat) (n : Int) : List Nat :=
  if n < 0 then 45 :: zero_pad (width - 1) (fmt_u 10 n.natAbs)
  else zero_pad width (fmt_u 10 n.toNat)

/-- Conversion `%lld`. -/
def fmt_lld (n : Int) : List Nat := fmt_d 0 n

/-- Conversion `%04x` of an `unsigned char` value. -/
def fmt_04x (n : Nat) : List Nat := zero_pad 4 (fmt_u 16 n)

/-- Conversion `%-<width>s`: blanks on the right, never a truncation. -/
def fmt_left_s (width : Nat) (s : List Nat) : List Nat :=
  s ++ List.replicate (width - s.length) 32

/-- What `snprintf(buf, bufsize, ...)` leaves in `buf` when the formatted text
is `s`: at most `bufsize - 1` bytes. -/
def snprintf (bufsize : Nat) (s : List Nat) : List Nat := s.take (bufsize - 1)

/-! ## Enumerations of `log.h` -/

/-- Type `qdlog_level_t`. -/
inductive qdlog_level_t where
  | DEBUG | INFO | WARN | ERROR | OFF
  deriving DecidableEq, Repr

/-- The integer value of a level (`DEBUG = 0` .. `OFF = 4`). -/
def qdlog_level_t.toNat : qdlog_level_t → Nat
  | .DEBUG => 0 | .INFO => 1 | .WARN => 2 | .ERROR => 3 | .OFF => 4

/-- Type `qdlog_format_t`. -/
inductive qdlog_format_t where
  | TEXT | JSON
  deriving DecidableEq, Repr

/-- Type `qdlog_rotate_t`. -/
inductive qdlog_rotate_t where
  | NONE | SIZE | DAILY | HOURLY
  deriving DecidableEq, Repr

/-- Error code `QDLOG_OK`. -/
def QDLOG_OK : Int := 0
/-- Error code `QDLOG_ERR_ALLOC`. -/
def QDLOG_ERR_ALLOC : Int := 2
/-- Error code `QDLOG_ERR_FILE`. -/
def QDLOG_ERR_FILE : Int := 3
/-- Error code `QDLOG_ERR_INVALID`. -/
def QDLOG_ERR_INVALID : Int := 4

/-- Constant `MAX_FILE_OUTPUTS`. -/
def MAX_FILE_OUTPUTS : Nat := 8

/-- Table `level_names`. -/
def level_names : qdlog_level_t → List Nat
  | .DEBUG => ascii "DEBUG"
  | .INFO => ascii "INFO"
  | .WARN => ascii "WARN"
  | .ERROR => ascii "ERROR"
  | .OFF => ascii "OFF"

/-- Table `level_names_lower`. -/
def level_names_lower : qdlog_level_t → List Nat
  | .DEBUG => ascii "debug"
  | .INFO => ascii "info"
  | .WARN => ascii "warn"
  | .ERROR => ascii "error"
  | .OFF => ascii "off"

/-- The fields of `struct tm` read by the source (the result of
`localtime(time(NULL))`). -/
structure tm where
  tm_sec : Int
  tm_min : Int
  tm_hour : Int
  tm_mday : Int
  tm_mon : Int
  tm_year : Int
  tm_yday : Int
  deriving DecidableEq, Repr

/-! ## Formatter : `write_json_string`, `write_log_entry` -/

/-- The `switch` of `write_json_string` for one byte `c` of the string. -/
def write_json_char (c : Nat) : List Nat :=
  if c = 34 then [92, 34]
  else if c = 92 then [92, 92]
  else if c = 10 then [92, 110]
  else if c = 13 then [92, 114]
  else if c = 9 then [92, 116]
  else if c < 32 then [92, 117] ++ fmt_04x c
  else [c]

/-- The loop of `write_json_string` over the bytes of the string. -/
def write_json_chars : List Nat → List Nat
  | [] => []
  | c :: p => write_json_char c ++ write_json_chars p

/-- Function `write_json_string`: the bytes sent to the stream. -/
def write_json_string (str : List Nat) : List Nat :=
  [34] ++ write_json_chars str ++ [34]

/-- The text of `"%04d-%02d-%02dT%02d:%02d:%02d"` for the time `t`. -/
def timestamp (t : tm) : List Nat :=
  fmt_d 4 (t.tm_year + 1900) ++ [45] ++ fmt_d 2 (t.tm_mon + 1) ++ [45] ++ fmt_d 2 t.tm_mday
    ++ [84] ++ fmt_d 2 t.tm_hour ++ [58] ++ fmt_d 2 t.tm_min ++ [58] ++ fmt_d 2 t.tm_sec

/-- The pair loop of the JSON branch of `write_log_entry`: a pair with a null
key or value is skipped.  None of these bytes is added to `written`. -/
def json_pairs : List (Option (List Nat) × Option (List Nat)) → List Nat
  | [] => []
  | (some key, some val) :: rest =>
    [44] ++ write_json_string key ++ [58] ++ write_json_string val ++ json_pairs rest
  | _ :: rest => json_pairs rest

/-- The pair loop of the text branch of `write_log_entry` (`" %s=%s"`). -/
def text_pairs : List (Option (List Nat) × Option (List Nat)) → List Nat
  | [] => []
  | (some key, some val) :: rest => [32] ++ key ++ [61] ++ val ++ text_pairs rest
  | _ :: rest => text_pairs rest

/-- First `fprintf` of the JSON branch. -/
def json_head_time (now : tm) : List Nat :=
  ascii "\x7b\"time\":\"" ++ timestamp now ++ ascii "\","

/-- Second `fprintf` of the JSON branch. -/
def json_head_level (level : qdlog_level_t) : List Nat :=
  ascii "\"level\":\"" ++ level_names_lower level ++ ascii "\",\"msg\":"

/-- First `fprintf` of the text branch. -/
def text_head (now : tm) (level : qdlog_level_t) (message : List Nat) : List Nat :=
  timestamp now ++ ascii " [" ++ fmt_left_s 5 (level_names level) ++ ascii "] " ++ message

/-- Function `write_log_entry`: the bytes sent to the stream and the value of
`written` that is returned.  `written` adds up the results of the `fprintf`
calls only. -/
def write_log_entry (now : tm) (format : qdlog_format_t) (level : qdlog_level_t)
    (message : List Nat) (pairs : List (Option (List Nat) × Option (List Nat))) :
    List Nat × Int :=
  match format with
  | .JSON =>
    (json_head_time now ++ json_head_level level ++ write_json_string message
        ++ json_pairs pairs ++ ascii "\x7d\n",
      ((json_head_time now).length : Int) + (json_head_level level).length
        + (ascii "\x7d\n").length)
  | .TEXT =>
    (text_head now level message ++ text_pairs pairs ++ ascii "\n",
      ((text_head now level message).length : Int) + (text_pairs pairs).length
        + (ascii "\n").length)

/-! ## The file system seen by the logger -/

/-- The files of the host: `names` is the directory (path to inode), `data`
the content of each inode, `next` the first inode never used, and `openable`
tells whether `fopen(path, "a")` succeeds on a path (permissions, missing
directories, descriptor limits).  An inode that lost its last name keeps its
content while a stream is open on it. -/
structure FS where
  names : List Nat → Option Nat
  data : Nat → List Nat
  next : Nat
  openable : List Nat → Bool

/-- Call `fopen(path, "a")`: the empty path and a path that is not openable
give `NULL`; an existing file is opened as it is, a missing one is created
empty. -/
def fopen (path : List Nat) (fs : FS) : Option Nat × FS :=
  if path = [] ∨ fs.openable path = false then (none, fs)
  else
    match fs.names path with
    | some i => (some i, fs)
    | none =>
      (some fs.next,
        { fs with
          names := fun p => if p = path then some fs.next else fs.names p
          data := fun i => if i = fs.next then [] else fs.data i
          next := fs.next + 1 })

/-- Call `unlink(path)`. -/
def unlink (path : List Nat) (fs : FS) : FS :=
  { fs with names := fun p => if p = path then none else fs.names p }

/-- Call `rename(old, new)`: fails without effect when `old` does not exist,
does nothing when both names are the same file, replaces `new` otherwise. -/
def rename (old new : List Nat) (fs : FS) : FS :=
  match fs.names old with
  | none => fs
  | some i =>
    if fs.names new = some i then fs
    else { fs with names := fun p => if p = new then some i else if p = old then none else fs.names p }

/-- Bytes `bytes` written to the stream open on inode `h` and flushed. -/
def fwrite (h : Nat) (bytes : List Nat) (fs : FS) : FS :=
  { fs with data := fun i => if i = h then fs.data i ++ bytes else fs.data i }

/-- The content of the file named `path`, if there is one. -/
def FS.content (fs : FS) (path : List Nat) : Option (List Nat) :=
  (fs.names path).map fs.data

/-- Function `get_file_size`: `st_size` of the file, 0 when `stat` fails. -/
def get_file_size (path : List Nat) (fs : FS) : Int :=
  match fs.names path with
  | some i => ((fs.data i).length : Int)
  | none => 0

/-! ## Logger state -/

/-- Type `qdlog_file_t`. -/
structure qdlog_file_t where
  file : Option Nat
  path : List Nat
  rotate_mode : qdlog_rotate_t
  max_size : Int
  max_files : Int
  current_size : Int
  last_rotate_day : Int
  last_rotate_hour : Int

/-- Type `struct qdlog_logger`: `files` holds the first `file_count` slots of
the array, so `file_count` is `files.length`. -/
structure qdlog_logger where
  level : qdlog_level_t
  format : qdlog_format_t
  stdout_enabled : Bool
  files : List qdlog_file_t

/-- Field `file_count`. -/
def qdlog_logger.file_count (logger : qdlog_logger) : Nat := logger.files.length

/-- What the logger acts on: the file system and the bytes written to
`stdout` so far. -/
structure World where
  fs : FS
  out : List Nat

/-- Function `qdlog_new`. -/
def qdlog_new : qdlog_logger :=
  { level := .INFO, format := .TEXT, stdout_enabled := true, files := [] }

/-- Function `qdlog_set_level`. -/
def qdlog_set_level (logger : qdlog_logger) (level : qdlog_level_t) : qdlog_logger :=
  { logger with level := level }

/-- Function `qdlog_get_level`. -/
def qdlog_get_level (logger : qdlog_logger) : qdlog_level_t := logger.level

/-- Function `qdlog_set_format`. -/
def qdlog_set_format (logger : qdlog_logger) (format : qdlog_format_t) : qdlog_logger :=
  { logger with format := format }

/-- Function `qdlog_disable_stdout`. -/
def qdlog_disable_stdout (logger : qdlog_logger) : qdlog_logger :=
  { logger with stdout_enabled := false }

/-- Function `qdlog_enable_stdout`. -/
def qdlog_enable_stdout (logger : qdlog_logger) : qdlog_logger :=
  { logger with stdout_enabled := true }

/-! ## Rotation : `rotate_files`, `get_time_rotated_path`, `check_and_rotate` -/

/-- The text of `snprintf(buf, 1024, "%s.%lld", base_path, i)`. -/
def numbered_path (base_path : List Nat) (i : Int) : List Nat :=
  snprintf 1024 (base_path ++ [46] ++ fmt_lld i)

/-- The loop `for (i = start; i >= 1; i--) rename(path.i, path.(i+1))` of
`rotate_files`, by the value of `i`. -/
def rotate_loop (base_path : List Nat) : Nat → FS → FS
  | 0, fs => fs
  | i + 1, fs =>
    rotate_loop base_path i
      (rename (numbered_path base_path ((i + 1 : Nat) : Int))
        (numbered_path base_path (((i + 1 : Nat) : Int) + 1)) fs)

/-- Function `rotate_files`. -/
def rotate_files (base_path : List Nat) (max_files : Int) (fs : FS) : FS :=
  let fs1 := if max_files > 0 then unlink (numbered_path base_path max_files) fs else fs
  let start : Int := if max_files > 0 then max_files - 1 else 99
  let fs2 := rotate_loop base_path start.toNat fs1
  rename base_path (snprintf 1024 (base_path ++ ascii ".1")) fs2

/-- Function `get_time_rotated_path`. -/
def get_time_rotated_path (bufsize : Nat) (base_path : List Nat) (mode : qdlog_rotate_t)
    (t : tm) : List Nat :=
  match mode with
  | .DAILY =>
    snprintf bufsize (base_path ++ [46] ++ fmt_d 4 (t.tm_year + 1900) ++ fmt_d 2 (t.tm_mon + 1)
      ++ fmt_d 2 t.tm_mday)
  | .HOURLY =>
    snprintf bufsize (base_path ++ [46] ++ fmt_d 4 (t.tm_year + 1900) ++ fmt_d 2 (t.tm_mon + 1)
      ++ fmt_d 2 t.tm_mday ++ fmt_d 2 t.tm_hour)
  | _ => snprintf bufsize base_path

/-- The value of the local `need_rotate` of `check_and_rotate` when the
rotation block is reached. -/
def need_rotate (f : qdlog_file_t) (now : tm) : Bool :=
  match f.rotate_mode with
  | .NONE => false
  | .SIZE => decide (f.max_size > 0 ∧ f.current_size ≥ f.max_size)
  | .DAILY => decide (now.tm_yday ≠ f.last_rotate_day)
  | .HOURLY => decide (now.tm_hour ≠ f.last_rotate_hour ∨ now.tm_yday ≠ f.last_rotate_day)

/-- The block `if (need_rotate) { ... }` of `check_and_rotate` for a sink whose
stream is open. -/
def do_rotate (now : tm) (f : qdlog_file_t) (fs : FS) : qdlog_file_t × FS :=
  let r :=
    if f.rotate_mode = .SIZE then fopen f.path (rotate_files f.path f.max_files fs)
    else fopen (get_time_rotated_path 1024 f.path f.rotate_mode now) fs
  ({ f with
      file := r.1
      current_size := 0
      last_rotate_day := now.tm_yday
      last_rotate_hour := now.tm_hour }, r.2)

/-- Function `check_and_rotate`.  The rotation block starts with
`fclose(f->file)`, which is undefined for a sink without stream. -/
def check_and_rotate (now : tm) (f : qdlog_file_t) (fs : FS) : Option (qdlog_file_t × FS) :=
  if f.rotate_mode = .NONE then some (f, fs)
  else if need_rotate f now then
    match f.file with
    | none => none
    | some _ => some (do_rotate now f fs)
  else some (f, fs)

/-- The loop of `qdlog_check_rotate` over the sinks, in order. -/
def check_rotate_files (now : tm) : List qdlog_file_t → FS → Option (List qdlog_file_t × FS)
  | [], fs => some ([], fs)
  | f :: rest, fs =>
    match check_and_rotate now f fs with
    | none => none
    | some (f1, fs1) =>
      match check_rotate_files now rest fs1 with
      | none => none
      | some (rest1, fs2) => some (f1 :: rest1, fs2)

/-- Function `qdlog_check_rotate`. -/
def qdlog_check_rotate (now : tm) (logger : qdlog_logger) (fs : FS) :
    Option (qdlog_logger × FS) :=
  match check_rotate_files now logger.files fs with
  | none => none
  | some (files, fs1) => some ({ logger with files := files }, fs1)

/-! ## Registration : `qdlog_add_file_rotate` -/

/-- Function `qdlog_add_file_rotate`; `path = none` is the null pointer and
`strdup_ok` tells whether `strdup(path)` succeeds. -/
def qdlog_add_file_rotate (now : tm) (strdup_ok : Bool) (logger : qdlog_logger) (fs : FS)
    (path : Option (List Nat)) (mode : qdlog_rotate_t) (max_size max_files : Int) :
    Int × qdlog_logger × FS :=
  match path with
  | none => (QDLOG_ERR_INVALID, logger, fs)
  | some path =>
    if logger.file_count ≥ MAX_FILE_OUTPUTS then (QDLOG_ERR_INVALID, logger, fs)
    else
      let actual_path :=
        if mode = .DAILY ∨ mode = .HOURLY then get_time_rotated_path 1024 path mode now
        else snprintf 1024 path
      match fopen actual_path fs with
      | (none, _) => (QDLOG_ERR_FILE, logger, fs)
      | (some file, fs1) =>
        if strdup_ok = false then (QDLOG_ERR_ALLOC, logger, fs1)
        else
          let f : qdlog_file_t :=
            { file := some file
              path := path
              rotate_mode := mode
              max_size := max_size
              max_files := max_files
              current_size := get_file_size actual_path fs1
              last_rotate_day := now.tm_yday
              last_rotate_hour := now.tm_hour }
          (QDLOG_OK, { logger with files := logger.files ++ [f] }, fs1)

/-- Function `qdlog_add_file`. -/
def qdlog_add_file (now : tm) (strdup_ok : Bool) (logger : qdlog_logger) (fs : FS)
    (path : Option (List Nat)) : Int × qdlog_logger × FS :=
  qdlog_add_file_rotate now strdup_ok logger fs path .NONE 0 0

/-! ## Logging : `qdlog_log_kv`, `qdlog_log`, `qdlog_flush` -/

/-- The loop "write to files" of `qdlog_log_kv`: every sink with a stream gets
the entry and adds the returned count to `current_size`. -/
def write_files (now : tm) (format : qdlog_format_t) (level : qdlog_level_t)
    (message : List Nat) (pairs : List (Option (List Nat) × Option (List Nat))) :
    List qdlog_file_t → FS → List qdlog_file_t × FS
  | [], fs => ([], fs)
  | f :: rest, fs =>
    match f.file with
    | some h =>
      let e := write_log_entry now format level message pairs
      let r := write_files now format level message pairs rest (fwrite h e.1 fs)
      ({ f with current_size := f.current_size + e.2 } :: r.1, r.2)
    | none =>
      let r := write_files now format level message pairs rest fs
      (f :: r.1, r.2)

/-- Function `qdlog_log_kv`; `message = none` is the null pointer, `pairs` the
`pairs_count` pairs of the array. -/
def qdlog_log_kv (now : tm) (logger : qdlog_logger) (w : World) (level : qdlog_level_t)
    (message : Option (List Nat)) (pairs : List (Option (List Nat) × Option (List Nat))) :
    Option (qdlog_logger × World) :=
  match message with
  | none => some (logger, w)
  | some msg =>
    if level.toNat < logger.level.toNat then some (logger, w)
    else
      match qdlog_check_rotate now logger w.fs with
      | none => none
      | some (logger1, fs1) =>
        let out1 :=
          if logger1.stdout_enabled then
            w.out ++ (write_log_entry now logger1.format level msg pairs).1
          else w.out
        let r := write_files now logger1.format level msg pairs logger1.files fs1
        some ({ logger1 with files := r.1 }, { fs := r.2, out := out1 })

/-- Function `qdlog_log`. -/
def qdlog_log (now : tm) (logger : qdlog_logger) (w : World) (level : qdlog_level_t)
    (message : Option (List Nat)) : Option (qdlog_logger × World) :=
  qdlog_log_kv now logger w level message []

/-- Function `qdlog_flush`: the streams hold no pending bytes here. -/
def qdlog_flush (logger : qdlog_logger) (w : World) : qdlog_logger × World := (logger, w)

/-- Number of sinks of `files` whose stream is open on inode `i`. -/
def sinks_on (i : Nat) (files : List qdlog_file_t) : Nat :=
  files.countP (fun f => decide (f.file = some i))

/-! ## Sequences of calls -/

/-- One call of the public interface of `log.h`, with what it reads from its
environment (clock, result of `strdup`). -/
inductive Op where
  | set_level (level : qdlog_level_t)
  | set_format (format : qdlog_format_t)
  | enable_stdout
  | disable_stdout
  | add_file (now : tm) (strdup_ok : Bool) (path : Option (List Nat))
  | add_file_rotate (now : tm) (strdup_ok : Bool) (path : Option (List Nat))
      (mode : qdlog_rotate_t) (max_size max_files : Int)
  | log (now : tm) (level : qdlog_level_t) (message : Option (List Nat))
  | log_kv (now : tm) (level : qdlog_level_t) (message : Option (List Nat))
      (pairs : List (Option (List Nat) × Option (List Nat)))
  | flush
  | check_rotate (now : tm)

/-- The effect of one call on the logger and its world. -/
def Op.step (op : Op) (s : qdlog_logger × World) : Option (qdlog_logger × World) :=
  match op with
  | .set_level level => some (qdlog_set_level s.1 level, s.2)
  | .set_format format => some (qdlog_set_format s.1 format, s.2)
  | .enable_stdout => some (qdlog_enable_stdout s.1, s.2)
  | .disable_stdout => some (qdlog_disable_stdout s.1, s.2)
  | .add_file now ok path =>
    let r := qdlog_add_file now ok s.1 s.2.fs path
    some (r.2.1, { s.2 with fs := r.2.2 })
  | .add_file_rotate now ok path mode max_size max_files =>
    let r := qdlog_add_file_rotate now ok s.1 s.2.fs path mode max_size max_files
    some (r.2.1, { s.2 with fs := r.2.2 })
  | .log now level message => qdlog_log now s.1 s.2 level message
  | .log_kv now level message pairs => qdlog_log_kv now s.1 s.2 level message pairs
  | .flush => some (qdlog_flush s.1 s.2)
  | .check_rotate now =>
    match qdlog_check_rotate now s.1 s.2.fs with
    | none => none
    | some (logger, fs) => some (logger, { s.2 with fs := fs })

/-- A sequence of calls, first call first. -/
def run : List Op → qdlog_logger × World → Option (qdlog_logger × World)
  | [], s => some s
  | op :: ops, s =>
    match op.step s with
    | none => none
    | some s1 => run ops s1

/-- Calls that register a sink. -/
def Op.adds_sink : Op → Bool
  | .add_file _ _ _ => true
  | .add_file_rotate _ _ _ _ _ _ => true
  | _ => false

/-! ## Definitions that follow the words of the specification -/

/-- Escaping of one byte as the specification words it: a backslash and the
letter for the five named bytes, `\u00XX` for every other byte below 0x20,
the byte itself otherwise. -/
def json_escape_spec (c : Nat) : List Nat :=
  if c = 34 then ascii "\\\""
  else if c = 92 then ascii "\\\\"
  else if c = 10 then ascii "\\n"
  else if c = 13 then ascii "\\r"
  else if c = 9 then ascii "\\t"
  else if c < 32 then ascii "\\u00" ++ [digitChar (c / 16), digitChar (c % 16)]
  else [c]

/-- No double quote outside an escape: a backslash takes the byte after it
along, a double quote met otherwise is bare. -/
def no_bare_quote : List Nat → Bool
  | [] => true
  | [c] => decide (c ≠ 34)
  | c :: d :: rest =>
    if c = 92 then no_bare_quote rest
    else if c = 34 then false
    else no_bare_quote (d :: rest)

/-- Rule `shouldRotate(sink, now)` of the specification. -/
def shouldRotate (sink : qdlog_file_t) (now : tm) : Prop :=
  match sink.rotate_mode with
  | .NONE => False
  | .SIZE => sink.max_size > 0 ∧ sink.current_size ≥ sink.max_size
  | .DAILY => now.tm_yday ≠ sink.last_rotate_day
  | .HOURLY => now.tm_hour ≠ sink.last_rotate_hour ∨ now.tm_yday ≠ sink.last_rotate_day

/-- The name `base.j` of the `j`-th backup of `base`. -/
def backup_path (base : List Nat) (j : Nat) : List Nat := base ++ [46] ++ fmt_u 10 j

/-- The value of a decimal numeral. -/
def undec (ds : List Nat) : Nat := ds.foldl (fun a c => 10 * a + (c - 48)) 0

/-- The specification's view of one SIZE sink on `base` (§4.2, §6): `cur` is
the content of the active file (`none` once the sink has lost its file after a
failed reopen), `size` the running byte count, `hist` the contents of the
files rotated away so far, most recent first; `level` and `format` are the
logger's settings. -/
structure RollingLog where
  cur : Option (List Nat)
  size : Int
  hist : List (List Nat)
  level : qdlog_level_t
  format : qdlog_format_t

/-- Rotation check of the specification for a SIZE sink with threshold `M`:
when due, the active content becomes the newest backup and a new empty file is
started (`reopen` tells whether the reopen of `base` succeeds). -/
def RollingLog.check (M : Int) (reopen : Bool) (a : RollingLog) : RollingLog :=
  if M > 0 ∧ a.size ≥ M then
    match a.cur with
    | some c => { a with cur := if reopen then some [] else none, size := 0, hist := c :: a.hist }
    | none => a
  else a

/-- One record of the specification: dropped below the minimum level;
otherwise the rotation check comes first and the rendered line goes to the
active file, `size` growing by the count the write reports. -/
def RollingLog.emit (M : Int) (reopen : Bool) (now : tm) (level : qdlog_level_t)
    (msg : List Nat) (pairs : List (Option (List Nat) × Option (List Nat)))
    (a : RollingLog) : RollingLog :=
  if level.toNat < a.level.toNat then a
  else
    let b := a.check M reopen
    match b.cur with
    | some c =>
      { b with
        cur := some (c ++ (write_log_entry now b.format level msg pairs).1)
        size := b.size + (write_log_entry now b.format level msg pairs).2 }
    | none => b

/-- The effect of one call on the rolling log. -/
def RollingLog.step (M : Int) (reopen : Bool) (op : Op) (a : RollingLog) : RollingLog :=
  match op with
  | .set_level level => { a with level := level }
  | .set_format format => { a with format := format }
  | .log now level (some msg) => a.emit M reopen now level msg []
  | .log_kv now level (some msg) pairs => a.emit M reopen now level msg pairs
  | .check_rotate _ => a.check M reopen
  | _ => a

/-- A sequence of calls on the rolling log, first call first. -/
def RollingLog.run (M : Int) (reopen : Bool) : List Op → RollingLog → RollingLog
  | [], a => a
  | op :: ops, a => RollingLog.run M reopen ops (a.step M reopen op)

/-- The pairs of a call that have both a key and a value. -/
def present_pairs :
    List (Option (List Nat) × Option (List Nat)) → List (List Nat × List Nat)
  | [] => []
  | (some key, some val) :: rest => (key, val) :: present_pairs rest
  | _ :: rest => present_pairs rest

/-! ## JSON texts: unescaping, compact objects of strings, UTF-8 -/

/-- The value of a hexadecimal digit. -/
def hex_val (c : Nat) : Option Nat :=
  if 48 ≤ c ∧ c ≤ 57 then some (c - 48)
  else if 97 ≤ c ∧ c ≤ 102 then some (c - 87)
  else if 65 ≤ c ∧ c ≤ 70 then some (c - 55)
  else none

/-- The code point of the four hexadecimal digits of a `\u` escape. -/
def hex4 (a b c d : Nat) : Option Nat :=
  match hex_val a, hex_val b, hex_val c, hex_val d with
  | some x, some y, some z, some t => some (4096 * x + 256 * y + 16 * z + t)
  | _, _, _, _ => none

/-- The byte a two-character JSON escape stands for. -/
def simple_escape (e : Nat) : Option Nat :=
  if e = 34 then some 34
  else if e = 92 then some 92
  else if e = 47 then some 47
  else if e = 98 then some 8
  else if e = 102 then some 12
  else if e = 110 then some 10
  else if e = 114 then some 13
  else if e = 116 then some 9
  else none

/-- UTF-8 bytes of a code point of the basic plane outside the surrogates;
`none` for a surrogate (pairs of `\u` escapes are not decoded here). -/
def utf8_encode (v : Nat) : Option (List Nat) :=
  if v < 128 then some [v]
  else if v < 2048 then some [192 + v / 64, 128 + v % 64]
  else if 55296 ≤ v ∧ v < 57344 then none
  else some [224 + v / 4096, 128 + v / 64 % 64, 128 + v % 64]

/-- JSON unescaping of a string literal read after its opening quote: the
decoded bytes and the text after the closing quote.  A raw byte below 0x20
and an unknown escape are errors; raw bytes from 0x20 on stand for
themselves. -/
def json_string_body : List Nat → Option (List Nat × List Nat)
  | [] => none
  | c :: rest =>
    if c = 34 then some ([], rest)
    else if c = 92 then
      match rest with
      | [] => none
      | e :: rest1 =>
        if e = 117 then
          match rest1 with
          | a :: b :: c1 :: d :: rest2 =>
            match hex4 a b c1 d with
            | some v =>
              match utf8_encode v, json_string_body rest2 with
              | some bs, some r => some (bs ++ r.1, r.2)
              | _, _ => none
            | none => none
          | _ => none
        else
          match simple_escape e, json_string_body rest1 with
          | some x, some r => some (x :: r.1, r.2)
          | _, _ => none
    else if c < 32 then none
    else
      match json_string_body rest with
      | some r => some (c :: r.1, r.2)
      | none => none

/-- JSON unescaping of the text between the quotes of a string literal. -/
def json_unescape (body : List Nat) : Option (List Nat) :=
  match json_string_body (body ++ [34]) with
  | some (s, []) => some s
  | _ => none

/-- The members `"key":"value"` of a compact JSON object of strings, read at
the opening quote of a key up to the closing brace: the unescaped pairs in
order and the text after the brace.  `fuel` bounds the number of members. -/
def parse_members : Nat → List Nat → Option (List (List Nat × List Nat) × List Nat)
  | 0, _ => none
  | fuel + 1, input =>
    match input with
    | 34 :: input1 =>
      match json_string_body input1 with
      | some (key, 58 :: 34 :: input2) =>
        match json_string_body input2 with
        | some (val, 44 :: input3) =>
          match parse_members fuel input3 with
          | some r => some ((key, val) :: r.1, r.2)
          | none => none
        | some (val, 125 :: input3) => some ([(key, val)], input3)
        | _ => none
      | _ => none
    | _ => none

/-- A JSON line of the specification: one compact JSON object whose values
are strings, then a newline and nothing more; the result is the unescaped
members in order. -/
def parse_json_line (line : List Nat) : Option (List (List Nat × List Nat)) :=
  match line with
  | 123 :: input =>
    match parse_members input.length input with
    | some (members, [10]) => some members
    | _ => none
  | _ => none

/-- One step of the UTF-8 recogniser (RFC 3629).  A state `(need, lo, hi)`
waits for `need` continuation bytes, the next one within `lo..hi`; `none` is
the error state. -/
def utf8_step (st : Option (Nat × Nat × Nat)) (b : Nat) : Option (Nat × Nat × Nat) :=
  match st with
  | none => none
  | some (0, _, _) =>
    if b < 128 then some (0, 128, 191)
    else if 194 ≤ b ∧ b ≤ 223 then some (1, 128, 191)
    else if b = 224 then some (2, 160, 191)
    else if (225 ≤ b ∧ b ≤ 236) ∨ b = 238 ∨ b = 239 then some (2, 128, 191)
    else if b = 237 then some (2, 128, 159)
    else if b = 240 then some (3, 144, 191)
    else if 241 ≤ b ∧ b ≤ 243 then some (3, 128, 191)
    else if b = 244 then some (3, 128, 143)
    else none
  | some (n + 1, lo, hi) => if lo ≤ b ∧ b ≤ hi then some (n, 128, 191) else none

/-- The bytes are well-formed UTF-8. -/
def validUTF8 (s : List Nat) : Bool :=
  decide (s.foldl utf8_step (some (0, 128, 191)) = some (0, 128, 191))

/-- A valid JSON line: a JSON object followed by a newline, encoded in
UTF-8. -/
def valid_json_line (line : List Nat) : Bool :=
  (parse_json_line line).isSome && validUTF8 line

/-! ## Invariants used in the proofs -/

/-- A file system without hard links whose inodes in use are below `next`. -/
def FS.wf (fs : FS) : Prop :=
  (∀ p q i, fs.names p = some i → fs.names q = some i → p = q)
  ∧ (∀ p i, fs.names p = some i → i < fs.next)

/-- The sink `f` and the file system `fs` realise the rolling log
`(cur, size, hist)` of a SIZE sink on `base` bounded to `N` backups with
threshold `M`. -/
def SinkInv (base : List Nat) (N : Nat) (M : Int) (reopen : Bool) (f : qdlog_file_t) (fs : FS)
    (cur : Option (List Nat)) (size : Int) (hist : List (List Nat)) : Prop :=
  f.rotate_mode = .SIZE ∧ f.path = base ∧ f.max_files = (N : Int) ∧ f.max_size = M
  ∧ f.current_size = size ∧ fs.wf
  ∧ decide (base ≠ [] ∧ fs.openable base = true) = reopen
  ∧ (match cur with
      | some c => ∃ h, f.file = some h ∧ fs.names base = some h ∧ fs.data h = c
      | none => f.file = none ∧ fs.names base = none ∧ size = 0 ∧ M > 0)
  ∧ ∀ j, 1 ≤ j → fs.content (backup_path base j) = if j ≤ N then hist[j - 1]? else none

/-- The logger with its world realises the rolling log `a`. -/
def LoggerInv (base : List Nat) (N : Nat) (M : Int) (reopen : Bool)
    (s : qdlog_logger × World) (a : RollingLog) : Prop :=
  s.1.level = a.level ∧ s.1.format = a.format
  ∧ ∃ f, s.1.files = [f] ∧ SinkInv base N M reopen f s.2.fs a.cur a.size a.hist

/-! ## Concrete inputs -/

/-- Midnight of 1 January 1970. -/
def tm0 : tm :=
  { tm_sec := 0, tm_min := 0, tm_hour := 0, tm_mday := 1, tm_mon := 0, tm_year := 70,
    tm_yday := 0 }

/-- Day 2 of 1970, at midnight. -/
def tm1 : tm :=
  { tm_sec := 0, tm_min := 0, tm_hour := 0, tm_mday := 2, tm_mon := 0, tm_year := 70,
    tm_yday := 1 }

/-- A file system without files in which every path can be opened. -/
def emptyFS : FS :=
  { names := fun _ => none, data := fun _ => [], next := 0, openable := fun _ => true }

/-- An empty file system and nothing written to `stdout`. -/
def emptyWorld : World := { fs := emptyFS, out := [] }

/-- A file system whose only file is `path`, on inode 0, with content `c`. -/
def oneFileFS (path c : List Nat) : FS :=
  { names := fun p => if p = path then some 0 else none
    data := fun i => if i = 0 then c else []
    next := 1
    openable := fun _ => true }

/-- A file system with the active file `a` and its backups `a.99` and
`a.100`. -/
def backupsFS : FS :=
  { names := fun p =>
      if p = ascii "a" then some 0
      else if p = ascii "a.99" then some 1
      else if p = ascii "a.100" then some 2
      else none
    data := fun i =>
      if i = 0 then ascii "new"
      else if i = 1 then ascii "old99"
      else if i = 2 then ascii "old100"
      else []
    next := 3
    openable := fun _ => true }

/-- A sink of mode `mode` on `path`, open on inode 0, with thresholds
`max_size` and `max_files`, counter `size` and stamps of `tm0`. -/
def sink0 (path : List Nat) (mode : qdlog_rotate_t) (max_size max_files size : Int) :
    qdlog_file_t :=
  { file := some 0, path := path, rotate_mode := mode, max_size := max_size,
    max_files := max_files, current_size := size, last_rotate_day := 0, last_rotate_hour := 0 }

/-- A logger in JSON format, `stdout` disabled, with one sink without rotation
on the file `a` (inode 0). -/
def jsonLogger : qdlog_logger :=
  { level := .INFO, format := .JSON, stdout_enabled := false,
    files := [sink0 (ascii "a") .NONE 0 0 0] }

/-- A logger with minimum level OFF and no file sink. -/
def offLogger : qdlog_logger :=
  { level := .OFF, format := .TEXT, stdout_enabled := true, files := [] }

/-- A logger holding 8 sinks. -/
def fullLogger : qdlog_logger :=
  { level := .INFO, format := .TEXT, stdout_enabled := true,
    files := List.replicate 8 (sink0 (ascii "a") .NONE 0 0 0) }

/-- A logger with one DAILY sink on `a`, stamped on day 0. -/
def dailyLogger : qdlog_logger :=
  { level := .INFO, format := .TEXT, stdout_enabled := false,
    files := [sink0 (ascii "a") .DAILY 0 0 0] }

/-- A logger whose only sink is `f`, with `stdout` disabled. -/
def oneSinkLogger (f : qdlog_file_t) : qdlog_logger :=
  { level := .INFO, format := .TEXT, stdout_enabled := false, files := [f] }

/-- A path of 1023 bytes: 511 times `./`, then `a`. -/
def longPath : List Nat := (List.replicate 511 [46, 47]).flatten ++ [97]

/-- The text of an INFO record with message `msg` at `tm0`. -/
def infoLine (msg : String) : List Nat := ascii "1970-01-01T00:00:00 [INFO ] " ++ ascii msg ++ [10]

/-- Four INFO records `r1` .. `r4` logged at `tm0`. -/
def fourRecords : List Op :=
  [.log tm0 .INFO (some (ascii "r1")), .log tm0 .INFO (some (ascii "r2")),
    .log tm0 .INFO (some (ascii "r3")), .log tm0 .INFO (some (ascii "r4"))]

/-! ## The layouts of the specification -/

/-- A calendar time as `localtime` gives it for a clock within the years 0 to
9999: every field in its range of `struct tm`. -/
def tm.calendar (t : tm) : Prop :=
  0 ≤ t.tm_sec ∧ t.tm_sec ≤ 60 ∧ 0 ≤ t.tm_min ∧ t.tm_min ≤ 59
  ∧ 0 ≤ t.tm_hour ∧ t.tm_hour ≤ 23 ∧ 1 ≤ t.tm_mday ∧ t.tm_mday ≤ 31
  ∧ 0 ≤ t.tm_mon ∧ t.tm_mon ≤ 11 ∧ 0 ≤ t.tm_year + 1900 ∧ t.tm_year + 1900 ≤ 9999
  ∧ 0 ≤ t.tm_yday ∧ t.tm_yday ≤ 365

/-- Two decimal digits of a number below 100, zero-padded. -/
def digits2 (n : Int) : List Nat := [48 + n.toNat / 10, 48 + n.toNat % 10]

/-- Four decimal digits of a number below 10000, zero-padded. -/
def digits4 (n : Int) : List Nat :=
  [48 + n.toNat / 1000, 48 + n.toNat / 100 % 10, 48 + n.toNat / 10 % 10, 48 + n.toNat % 10]

/-- The timestamp `YYYY-MM-DDTHH:MM:SS` of the specification. -/
def timestamp_spec (t : tm) : List Nat :=
  digits4 (t.tm_year + 1900) ++ ascii "-" ++ digits2 (t.tm_mon + 1) ++ ascii "-"
    ++ digits2 t.tm_mday ++ ascii "T" ++ digits2 t.tm_hour ++ ascii ":" ++ digits2 t.tm_min
    ++ ascii ":" ++ digits2 t.tm_sec

/-- The upper-case level name in its field of 5 characters. -/
def level_field : qdlog_level_t → List Nat
  | .DEBUG => ascii "DEBUG"
  | .INFO => ascii "INFO "
  | .WARN => ascii "WARN "
  | .ERROR => ascii "ERROR"
  | .OFF => ascii "OFF  "

/-- The text of one pair of the TEXT format: a space, then `key=value`. -/
def text_pair (p : List Nat × List Nat) : List Nat := ascii " " ++ p.1 ++ ascii "=" ++ p.2

/-- The TEXT line of the specification (§4.1, §6). -/
def text_line_spec (now : tm) (level : qdlog_level_t) (msg : List Nat)
    (pairs : List (List Nat × List Nat)) : List Nat :=
  timestamp_spec now ++ ascii " [" ++ level_field level ++ ascii "] " ++ msg
    ++ (pairs.map text_pair).flatten ++ ascii "\n"

/-- The text of one pair of the JSON format: a comma, the key and the value as
escaped strings with a colon between them. -/
def json_pair (p : List Nat × List Nat) : List Nat :=
  ascii "," ++ write_json_string p.1 ++ ascii ":" ++ write_json_string p.2

/-- The lower-case letter of an upper-case ASCII letter. -/
def to_lower (c : Nat) : Nat := if 65 ≤ c ∧ c ≤ 90 then c + 32 else c

/-- The JSON line of the specification (§4.1, §6): keys `time`, `level`,
`msg` in this order, then the pairs. -/
def json_line_spec (now : tm) (level : qdlog_level_t) (msg : List Nat)
    (pairs : List (List Nat × List Nat)) : List Nat :=
  ascii "\x7b\"time\":\"" ++ timestamp now ++ ascii "\",\"level\":\""
    ++ (level_names level).map to_lower ++ ascii "\",\"msg\":" ++ write_json_string msg
    ++ (pairs.map json_pair).flatten ++ ascii "\x7d\n"

/-- The pair list without the pairs that have a null key or a null value. -/
def drop_null_pairs (pairs : List (Option (List Nat) × Option (List Nat))) :
    List (Option (List Nat) × Option (List Nat)) :=
  pairs.filter (fun p => p.1.isSome && p.2.isSome)

/-- The configuration of a sink: base path, rotation mode, `max_size` and
`max_files`. -/
def sink_config (f : qdlog_file_t) : List Nat × qdlog_rotate_t × Int × Int :=
  (f.path, f.rotate_mode, f.max_size, f.max_files)

/-! ## More concrete inputs -/

/-- Day 3 of 1970, at midnight. -/
def tm2 : tm :=
  { tm_sec := 0, tm_min := 0, tm_hour := 0, tm_mday := 3, tm_mon := 0, tm_year := 70,
    tm_yday := 2 }

/-- Midnight of 1 January 1971: the day of the year of `tm0`, one year later. -/
def tmNextYear : tm :=
  { tm_sec := 0, tm_min := 0, tm_hour := 0, tm_mday := 1, tm_mon := 0, tm_year := 71,
    tm_yday := 0 }

/-- A SIZE sink on `path` that has lost its stream in a rotation. -/
def degradedSink (path : List Nat) (max_size max_files : Int) : qdlog_file_t :=
  { file := none, path := path, rotate_mode := .SIZE, max_size := max_size,
    max_files := max_files, current_size := 0, last_rotate_day := 0, last_rotate_hour := 0 }

/-! ## The names of time-stamped files in the specification -/

/-- The stamp of a time-rotated file: `YYYYMMDD` for DAILY, `YYYYMMDDHH` for
HOURLY, from the local date (and hour) of `t`. -/
def time_suffix (mode : qdlog_rotate_t) (t : tm) : List Nat :=
  match mode with
  | .DAILY => digits4 (t.tm_year + 1900) ++ digits2 (t.tm_mon + 1) ++ digits2 t.tm_mday
  | .HOURLY =>
    digits4 (t.tm_year + 1900) ++ digits2 (t.tm_mon + 1) ++ digits2 t.tm_mday ++ digits2 t.tm_hour
  | _ => []

/-- The name `base.YYYYMMDD` (`base.YYYYMMDDHH`) of the file of a DAILY
(HOURLY) sink at time `t`. -/
def stamped_path (base : List Nat) (mode : qdlog_rotate_t) (t : tm) : List Nat :=
  base ++ ascii "." ++ time_suffix mode t

/-- The name of the active file of a new sink: the path itself for NONE and
SIZE, the time-stamped path for DAILY and HOURLY. -/
def sink_file_name (path : List Nat) (mode : qdlog_rotate_t) (t : tm) : List Nat :=
  if mode = .DAILY ∨ mode = .HOURLY then stamped_path path mode t else path

/-! ## Scenarios -/

/-- Second `s` of the first minute of 1 January 1970. -/
def tmSec (s : Int) : tm := { tm0 with tm_sec := s }

/-- The scenario of the specification: a new logger, a SIZE sink on
`/tmp/app.log` with `max_size` 50 and `max_files` 1, then the INFO record
`hello` five times, one second apart. -/
def helloOps : List Op :=
  [.add_file_rotate tm0 true (some (ascii "/tmp/app.log")) .SIZE 50 1,
    .log (tmSec 1) .INFO (some (ascii "hello")), .log (tmSec 2) .INFO (some (ascii "hello")),
    .log (tmSec 3) .INFO (some (ascii "hello")), .log (tmSec 4) .INFO (some (ascii "hello")),
    .log (tmSec 5) .INFO (some (ascii "hello"))]

/-- A SIZE sink on `a` with `max_size` 100 and `max_files` 1, then the INFO
record `x` (30 bytes) five times, one second apart. -/
def xOps : List Op :=
  [.add_file_rotate tm0 true (some (ascii "a")) .SIZE 100 1,
    .log (tmSec 1) .INFO (some (ascii "x")), .log (tmSec 2) .INFO (some (ascii "x")),
    .log (tmSec 3) .INFO (some (ascii "x")), .log (tmSec 4) .INFO (some (ascii "x")),
    .log (tmSec 5) .INFO (some (ascii "x"))]

/-- An empty file system in which every path can be opened except
`a.19700102`. -/
def noReopenFS : FS :=
  { names := fun _ => none, data := fun _ => [], next := 0,
    openable := fun p => decide (p ≠ ascii "a.19700102") }

/-- A DAILY sink on `a` and a sink without rotation on `b`, registered on
1 January 1970. -/
def twoSinkOps : List Op :=
  [.add_file_rotate tm0 true (some (ascii "a")) .DAILY 0 0, .add_file tm0 true (some (ascii "b"))]

/-- The DAILY sink on `a` after the reopen of 2 January 1970 failed: no stream,
`current_size` 0, stamps of that day. -/
def degradedDailySink : qdlog_file_t :=
  { file := none, path := ascii "a", rotate_mode := .DAILY, max_size := 0, max_files := 0,
    current_size := 0, last_rotate_day := 1, last_rotate_hour := 0 }

/-! # Theorems -/

/-! ## Escaping -/

theorem fmt_04x_lt_32 (c : Nat) (h : c < 32) :
    fmt_04x c = [48, 48, digitChar (c / 16), digitChar (c % 16)] := by
  interval_cases c <;> rfl

theorem write_json_char_eq_spec (c : Nat) : write_json_char c = json_escape_spec c := by
  unfold write_json_char json_escape_spec
  split_ifs with h1 h2 h3 h4 h5 h6
  · rfl
  · rfl
  · rfl
  · rfl
  · rfl
  · rw [fmt_04x_lt_32 c h6]; rfl
  · rfl

theorem digitChar_ge (d : Nat) : 48 ≤ digitChar d := by
  unfold digitChar; split_ifs <;> omega

theorem write_json_char_ge (c b : Nat) (hb : b ∈ write_json_char c) : 32 ≤ b := by
  rw [write_json_char_eq_spec] at hb
  unfold json_escape_spec at hb
  have h48 := digitChar_ge (c / 16)
  have h48b := digitChar_ge (c % 16)
  split_ifs at hb <;> simp [ascii] at hb <;> omega

theorem write_json_chars_eq_spec (str : List Nat) :
    write_json_chars str = (str.map json_escape_spec).flatten := by
  induction str with
  | nil => rfl
  | cons c p ih => simp [write_json_chars, ih, write_json_char_eq_spec]

theorem write_json_chars_ge (str : List Nat) (b : Nat) (hb : b ∈ write_json_chars str) :
    32 ≤ b := by
  induction str with
  | nil => simp [write_json_chars] at hb
  | cons c p ih =>
    simp only [write_json_chars, List.mem_append] at hb
    rcases hb with hb | hb
    · exact write_json_char_ge c b hb
    · exact ih hb

theorem digitChar_lt_16 (d : Nat) (h : d < 16) : digitChar d ≠ 34 ∧ digitChar d ≠ 92 := by
  interval_cases d <;> decide

theorem no_bare_quote_cons_of_ne (c : Nat) (rest : List Nat) (h1 : c ≠ 92) (h2 : c ≠ 34)
    (hr : no_bare_quote rest = true) : no_bare_quote (c :: rest) = true := by
  cases rest with
  | nil => simp [no_bare_quote, h2]
  | cons d r => simp [no_bare_quote, h1, h2, hr]

theorem no_bare_quote_escape (d : Nat) (rest : List Nat)
    (hr : no_bare_quote rest = true) : no_bare_quote (92 :: d :: rest) = true := by
  simp [no_bare_quote, hr]

theorem no_bare_quote_write_json_chars (str : List Nat) :
    no_bare_quote (write_json_chars str) = true := by
  induction str with
  | nil => rfl
  | cons c p ih =>
    simp only [write_json_chars, write_json_char_eq_spec]
    unfold json_escape_spec
    split_ifs with h1 h2 h3 h4 h5 h6
    · exact no_bare_quote_escape _ _ ih
    · exact no_bare_quote_escape _ _ ih
    · exact no_bare_quote_escape _ _ ih
    · exact no_bare_quote_escape _ _ ih
    · exact no_bare_quote_escape _ _ ih
    · have ha := digitChar_lt_16 (c / 16) (by omega)
      have hb := digitChar_lt_16 (c % 16) (by omega)
      show no_bare_quote (92 :: 117 :: 48 :: 48 :: digitChar (c / 16) :: digitChar (c % 16)
        :: write_json_chars p) = true
      apply no_bare_quote_escape
      apply no_bare_quote_cons_of_ne _ _ (by decide) (by decide)
      apply no_bare_quote_cons_of_ne _ _ (by decide) (by decide)
      apply no_bare_quote_cons_of_ne _ _ ha.2 ha.1
      exact no_bare_quote_cons_of_ne _ _ hb.2 hb.1 ih
    · exact no_bare_quote_cons_of_ne _ _ h2 h1 ih

/-- C4: `write_json_string` sends a double quote, the escape of every byte
in order (backslash forms for the double quote, the backslash, newline,
carriage return and tab, `\u00XX` for the other bytes below 0x20, the byte
itself from 0x20 on) and a closing double quote; the bytes between the two
quotes are all at least 0x20 and hold no double quote outside an escape. -/
theorem write_json_string_spec (str : List Nat) :
    write_json_string str = [34] ++ (str.map json_escape_spec).flatten ++ [34]
    ∧ (∀ b ∈ write_json_chars str, 32 ≤ b)
    ∧ no_bare_quote (write_json_chars str) = true
    ∧ write_json_string str = [34] ++ write_json_chars str ++ [34] :=
  ⟨by rw [write_json_string, write_json_chars_eq_spec],
    write_json_chars_ge str, no_bare_quote_write_json_chars str, rfl⟩

/-! ## Rotation decision -/

theorem need_rotate_iff (f : qdlog_file_t) (now : tm) :
    need_rotate f now = true ↔ shouldRotate f now := by
  unfold need_rotate shouldRotate
  cases f.rotate_mode <;> simp

theorem do_rotate_ne (now : tm) (f : qdlog_file_t) (fs : FS) (h : need_rotate f now = true) :
    (do_rotate now f fs).1 ≠ f := by
  intro heq
  have h1 : (do_rotate now f fs).1.current_size = f.current_size := by rw [heq]
  have h2 : (do_rotate now f fs).1.last_rotate_day = f.last_rotate_day := by rw [heq]
  have h3 : (do_rotate now f fs).1.last_rotate_hour = f.last_rotate_hour := by rw [heq]
  simp only [do_rotate] at h1 h2 h3
  unfold need_rotate at h
  cases hm : f.rotate_mode <;> simp [hm] at h
  · omega
  · exact h h2
  · rcases h with h | h
    · exact h h3
    · exact h h2

set_option maxRecDepth 100000 in
/-- C5: for every sink state and every time, `check_and_rotate` leaves the
sink and the files as they are exactly when rotation is not due by the rule of
the specification (never due for NONE; SIZE: `max_size > 0` and
`current_size >= max_size`; DAILY: another day of the year; HOURLY: another
hour or another day of the year).  For a sink with a stream it rotates exactly
when rotation is due.  For a sink without stream it rotates never: exactly
when rotation is due it reaches `fclose` on the null stream and has no defined
result.  The DAILY sink left without stream by the failed reopen of 2 January
1970 is such a state: on 3 January rotation is due and `check_and_rotate` has
no result on any file system. -/
theorem check_and_rotate_rule (now : tm) (f : qdlog_file_t) (fs : FS) :
    (check_and_rotate now f fs = some (f, fs) ↔ ¬ shouldRotate f now)
    ∧ (∀ h : Nat, f.file = some h →
        (shouldRotate f now ↔
          check_and_rotate now f fs = some (do_rotate now f fs)
            ∧ check_and_rotate now f fs ≠ some (f, fs)))
    ∧ (f.file = none → (shouldRotate f now ↔ check_and_rotate now f fs = none))
    ∧ (run (twoSinkOps ++ [Op.log tm1 .INFO (some (ascii "x"))])
          (qdlog_new, { fs := noReopenFS, out := [] })).map (fun s => s.1.files.head?)
        = some (some degradedDailySink)
    ∧ shouldRotate degradedDailySink tm2
    ∧ (∀ fs0 : FS, check_and_rotate tm2 degradedDailySink fs0 = none)
    ∧ (∀ fs0 : FS, check_and_rotate tm2 degradedDailySink fs0
        ≠ some (do_rotate tm2 degradedDailySink fs0)) := by
  have key : check_and_rotate now f fs =
      if need_rotate f now = true then f.file.map (fun _ => do_rotate now f fs)
      else some (f, fs) := by
    unfold check_and_rotate
    by_cases hm : f.rotate_mode = .NONE
    · simp [hm, need_rotate]
    · simp only [hm, if_false]
      split_ifs with h
      · cases f.file <;> rfl
      · rfl
  have hne : need_rotate f now = true →
      f.file.map (fun _ => do_rotate now f fs) ≠ some (f, fs) := by
    intro h heq
    cases hf : f.file with
    | none => simp [hf] at heq
    | some i =>
      simp only [hf, Option.map_some', Option.some.injEq] at heq
      exact do_rotate_ne now f fs h (congrArg Prod.fst heq)
  have hdue : ∀ fs0 : FS, check_and_rotate tm2 degradedDailySink fs0 = none := fun _ => rfl
  refine ⟨?_, ?_, ?_, rfl, by simp [shouldRotate, degradedDailySink, tm2], hdue, ?_⟩
  · rw [← need_rotate_iff, key]
    by_cases h : need_rotate f now = true
    · simp only [h, if_true, not_true_eq_false, iff_false]
      exact hne h
    · simp [h]
  · intro k hk
    rw [← need_rotate_iff, key]
    by_cases h : need_rotate f now = true
    · have := hne h
      simp only [hk, Option.map_some'] at this
      simp [h, hk, this]
    · simp only [h, if_false]
      constructor
      · intro h1; exact absurd h1 (by simp)
      · intro h1; exact absurd rfl h1.2
  · intro hf
    rw [← need_rotate_iff, key]
    by_cases h : need_rotate f now = true
    · simp [h, hf]
    · simp [h]
  · intro fs0
    rw [hdue fs0]
    simp

/-! ## Idempotence of the rotation check -/

theorem check_and_rotate_not_due (now : tm) (f : qdlog_file_t) (fs : FS)
    (h : need_rotate f now = false) : check_and_rotate now f fs = some (f, fs) := by
  unfold check_and_rotate
  split_ifs <;> simp_all

theorem check_and_rotate_settles (now : tm) (f f1 : qdlog_file_t) (fs fs1 : FS)
    (h : check_and_rotate now f fs = some (f1, fs1)) : need_rotate f1 now = false := by
  unfold check_and_rotate at h
  by_cases hm : f.rotate_mode = .NONE
  · simp only [hm, if_true, Option.some.injEq, Prod.mk.injEq] at h
    rw [← h.1]; simp [need_rotate, hm]
  · simp only [hm, if_false] at h
    by_cases hn : need_rotate f now = true
    · simp only [hn, if_true] at h
      cases hf : f.file with
      | none => simp [hf] at h
      | some i =>
        simp only [hf, Option.some.injEq] at h
        have h1 : f1 = (do_rotate now f fs).1 := by rw [h]
        subst h1
        unfold need_rotate at hn ⊢
        simp only [do_rotate]
        cases hmode : f.rotate_mode <;> simp [hmode] at hn ⊢
    · simp only [hn] at h
      simp only [Bool.false_eq_true, if_false, Option.some.injEq, Prod.mk.injEq] at h
      rw [← h.1]; simpa using hn

theorem check_rotate_files_settles (now : tm) (files : List qdlog_file_t) :
    ∀ (fs : FS) (files1 : List qdlog_file_t) (fs1 : FS),
      check_rotate_files now files fs = some (files1, fs1) →
      ∀ f ∈ files1, need_rotate f now = false := by
  induction files with
  | nil =>
    intro fs files1 fs1 h
    simp only [check_rotate_files, Option.some.injEq, Prod.mk.injEq] at h
    rw [← h.1]; simp
  | cons f rest ih =>
    intro fs files1 fs1 h
    simp only [check_rotate_files] at h
    cases h1 : check_and_rotate now f fs with
    | none => simp [h1] at h
    | some r1 =>
      obtain ⟨f1, fsa⟩ := r1
      simp only [h1] at h
      cases h2 : check_rotate_files now rest fsa with
      | none => simp [h2] at h
      | some r2 =>
        obtain ⟨rest1, fsb⟩ := r2
        simp only [h2, Option.some.injEq, Prod.mk.injEq] at h
        rw [← h.1]
        intro g hg
        rcases List.mem_cons.1 hg with hg | hg
        · rw [hg]; exact check_and_rotate_settles now f f1 fs fsa h1
        · exact ih fsa rest1 fsb h2 g hg

theorem check_rotate_files_not_due (now : tm) (files : List qdlog_file_t) (fs : FS)
    (h : ∀ f ∈ files, need_rotate f now = false) :
    check_rotate_files now files fs = some (files, fs) := by
  induction files with
  | nil => rfl
  | cons f rest ih =>
    simp only [check_rotate_files]
    rw [check_and_rotate_not_due now f fs (h f (List.mem_cons_self _ _))]
    simp only
    rw [ih (fun g hg => h g (List.mem_cons_of_mem _ hg))]

/-- C10: when a call of `qdlog_check_rotate` at time `now` has returned, no
sink is due for rotation at `now` any more, and a second call at the same
`now` returns the same logger and the same file system: it rotates nothing
and changes neither a sink nor a file. -/
theorem qdlog_check_rotate_idempotent (now : tm) (logger logger1 : qdlog_logger) (fs fs1 : FS)
    (h : qdlog_check_rotate now logger fs = some (logger1, fs1)) :
    qdlog_check_rotate now logger1 fs1 = some (logger1, fs1)
    ∧ ∀ f ∈ logger1.files, ¬ shouldRotate f now := by
  unfold qdlog_check_rotate at h
  cases h1 : check_rotate_files now logger.files fs with
  | none => simp [h1] at h
  | some r =>
    obtain ⟨files1, fsa⟩ := r
    simp only [h1, Option.some.injEq, Prod.mk.injEq] at h
    obtain ⟨hl, hfs⟩ := h
    subst hl; subst hfs
    have hs := check_rotate_files_settles now logger.files fs files1 fsa h1
    constructor
    · unfold qdlog_check_rotate
      simp only
      rw [check_rotate_files_not_due now files1 fsa hs]
    · intro f hf hdue
      have := hs f hf
      rw [← need_rotate_iff] at hdue
      simp [this] at hdue

/-! ## Capacity of the sink collection -/

theorem check_rotate_files_length (now : tm) (files : List qdlog_file_t) :
    ∀ (fs : FS) (files1 : List qdlog_file_t) (fs1 : FS),
      check_rotate_files now files fs = some (files1, fs1) → files1.length = files.length := by
  induction files with
  | nil =>
    intro fs files1 fs1 h
    simp only [check_rotate_files, Option.some.injEq, Prod.mk.injEq] at h
    rw [← h.1]
  | cons f rest ih =>
    intro fs files1 fs1 h
    simp only [check_rotate_files] at h
    cases h1 : check_and_rotate now f fs with
    | none => simp [h1] at h
    | some r1 =>
      obtain ⟨f1, fsa⟩ := r1
      simp only [h1] at h
      cases h2 : check_rotate_files now rest fsa with
      | none => simp [h2] at h
      | some r2 =>
        obtain ⟨rest1, fsb⟩ := r2
        simp only [h2, Option.some.injEq, Prod.mk.injEq] at h
        rw [← h.1]
        simp [ih fsa rest1 fsb h2]

theorem write_files_length (now : tm) (format : qdlog_format_t) (level : qdlog_level_t)
    (message : List Nat) (pairs : List (Option (List Nat) × Option (List Nat)))
    (files : List qdlog_file_t) :
    ∀ fs : FS, (write_files now format level message pairs files fs).1.length = files.length := by
  induction files with
  | nil => intro fs; rfl
  | cons f rest ih =>
    intro fs
    simp only [write_files]
    cases f.file <;> simp [ih]

theorem qdlog_check_rotate_count (now : tm) (logger logger1 : qdlog_logger) (fs fs1 : FS)
    (h : qdlog_check_rotate now logger fs = some (logger1, fs1)) :
    logger1.file_count = logger.file_count := by
  unfold qdlog_check_rotate at h
  cases h1 : check_rotate_files now logger.files fs with
  | none => simp [h1] at h
  | some r =>
    obtain ⟨files1, fsa⟩ := r
    simp only [h1, Option.some.injEq, Prod.mk.injEq] at h
    rw [← h.1]
    exact check_rotate_files_length now logger.files fs files1 fsa h1

theorem qdlog_log_kv_count (now : tm) (logger : qdlog_logger) (w : World)
    (level : qdlog_level_t) (message : Option (List Nat))
    (pairs : List (Option (List Nat) × Option (List Nat))) (s : qdlog_logger × World)
    (h : qdlog_log_kv now logger w level message pairs = some s) :
    s.1.file_count = logger.file_count := by
  unfold qdlog_log_kv at h
  cases message with
  | none => simp only [Option.some.injEq] at h; rw [← h]
  | some msg =>
    simp only at h
    split_ifs at h with hl
    · simp only [Option.some.injEq] at h; rw [← h]
    · cases h1 : qdlog_check_rotate now logger w.fs with
      | none => simp [h1] at h
      | some r =>
        obtain ⟨logger1, fsa⟩ := r
        simp only [h1, Option.some.injEq] at h
        rw [← h]
        simp only [qdlog_logger.file_count, write_files_length]
        exact qdlog_check_rotate_count now logger logger1 w.fs fsa h1

theorem qdlog_add_file_rotate_full (now : tm) (strdup_ok : Bool) (logger : qdlog_logger)
    (fs : FS) (path : Option (List Nat)) (mode : qdlog_rotate_t) (max_size max_files : Int)
    (h : logger.file_count ≥ MAX_FILE_OUTPUTS) :
    qdlog_add_file_rotate now strdup_ok logger fs path mode max_size max_files
      = (QDLOG_ERR_INVALID, logger, fs) := by
  unfold qdlog_add_file_rotate
  cases path with
  | none => rfl
  | some p => simp [h]

theorem qdlog_add_file_rotate_count (now : tm) (strdup_ok : Bool) (logger : qdlog_logger)
    (fs : FS) (path : Option (List Nat)) (mode : qdlog_rotate_t) (max_size max_files : Int)
    (h : logger.file_count ≤ MAX_FILE_OUTPUTS) :
    (qdlog_add_file_rotate now strdup_ok logger fs path mode max_size max_files).2.1.file_count
      ≤ MAX_FILE_OUTPUTS := by
  unfold qdlog_add_file_rotate
  cases path with
  | none => exact h
  | some p =>
    simp only
    by_cases hc : logger.file_count ≥ MAX_FILE_OUTPUTS
    · simp only [hc, if_true]; exact h
    · simp only [hc, if_false]
      generalize (if mode = .DAILY ∨ mode = .HOURLY then get_time_rotated_path 1024 p mode now
        else snprintf 1024 p) = ap
      rcases hfo : fopen ap fs with ⟨_ | file, fs1⟩
      · exact h
      · simp only
        cases strdup_ok
        · exact h
        · simp only [Bool.true_eq_false, if_false]
          simp only [qdlog_logger.file_count, List.length_append, List.length_singleton] at hc ⊢
          omega

theorem step_count (op : Op) (s s1 : qdlog_logger × World)
    (hs : s.1.file_count ≤ MAX_FILE_OUTPUTS) (h : op.step s = some s1) :
    s1.1.file_count ≤ MAX_FILE_OUTPUTS := by
  cases op with
  | set_level level => simp only [Op.step, Option.some.injEq] at h; rw [← h]; exact hs
  | set_format format => simp only [Op.step, Option.some.injEq] at h; rw [← h]; exact hs
  | enable_stdout => simp only [Op.step, Option.some.injEq] at h; rw [← h]; exact hs
  | disable_stdout => simp only [Op.step, Option.some.injEq] at h; rw [← h]; exact hs
  | add_file now ok path =>
    simp only [Op.step, Option.some.injEq] at h; rw [← h]
    exact qdlog_add_file_rotate_count now ok s.1 s.2.fs path .NONE 0 0 hs
  | add_file_rotate now ok path mode max_size max_files =>
    simp only [Op.step, Option.some.injEq] at h; rw [← h]
    exact qdlog_add_file_rotate_count now ok s.1 s.2.fs path mode max_size max_files hs
  | log now level message =>
    simp only [Op.step, qdlog_log] at h
    rw [qdlog_log_kv_count now s.1 s.2 level message [] s1 h]; exact hs
  | log_kv now level message pairs =>
    simp only [Op.step] at h
    rw [qdlog_log_kv_count now s.1 s.2 level message pairs s1 h]; exact hs
  | flush => simp only [Op.step, qdlog_flush, Option.some.injEq] at h; rw [← h]; exact hs
  | check_rotate now =>
    simp only [Op.step] at h
    cases h1 : qdlog_check_rotate now s.1 s.2.fs with
    | none => simp [h1] at h
    | some r =>
      obtain ⟨logger1, fsa⟩ := r
      simp only [h1, Option.some.injEq] at h
      rw [← h]
      simp only
      rw [qdlog_check_rotate_count now s.1 logger1 s.2.fs fsa h1]; exact hs

theorem run_count (ops : List Op) :
    ∀ s s1 : qdlog_logger × World, s.1.file_count ≤ MAX_FILE_OUTPUTS → run ops s = some s1 →
      s1.1.file_count ≤ MAX_FILE_OUTPUTS := by
  induction ops with
  | nil => intro s s1 hs h; simp only [run, Option.some.injEq] at h; rw [← h]; exact hs
  | cons op ops ih =>
    intro s s1 hs h
    simp only [run] at h
    cases h1 : op.step s with
    | none => simp [h1] at h
    | some s2 =>
      simp only [h1] at h
      exact ih s2 s1 (step_count op s s2 hs h1) h

/-- C9: with 8 sinks registered, `qdlog_add_file_rotate` and `qdlog_add_file`
return `QDLOG_ERR_INVALID` = 4 for every path and mode and give back the
logger and the file system they received (no file opened, sinks and count as
before); and after every sequence of calls on a new logger the number of
sinks is at most 8. -/
theorem add_file_at_capacity (now : tm) (strdup_ok : Bool) (logger : qdlog_logger) (fs : FS)
    (path : Option (List Nat)) (mode : qdlog_rotate_t) (max_size max_files : Int)
    (h : logger.file_count = 8) :
    qdlog_add_file_rotate now strdup_ok logger fs path mode max_size max_files = (4, logger, fs)
    ∧ qdlog_add_file now strdup_ok logger fs path = (4, logger, fs)
    ∧ ∀ (ops : List Op) (w : World) (s : qdlog_logger × World),
        run ops (qdlog_new, w) = some s → s.1.file_count ≤ 8 := by
  refine ⟨?_, ?_, ?_⟩
  · exact qdlog_add_file_rotate_full now strdup_ok logger fs path mode max_size max_files
      (by rw [h]; decide)
  · exact qdlog_add_file_rotate_full now strdup_ok logger fs path .NONE 0 0 (by rw [h]; decide)
  · intro ops w s hr
    exact run_count ops (qdlog_new, w) s (Nat.zero_le _) hr

/-! ## Registration with a null or an empty path -/

theorem fopen_nil (fs : FS) : fopen [] fs = (none, fs) := by
  simp [fopen]

/-- C8 (fails as stated): on a new logger and an empty file system, the empty
path in mode NONE is answered with `QDLOG_ERR_FILE` = 3, and in mode DAILY
the call returns `QDLOG_OK` = 0, registers a sink and creates the file
`.19700101`. -/
theorem add_file_rotate_empty_path_counterexample :
    (qdlog_add_file_rotate tm0 true qdlog_new emptyFS (some []) .NONE 0 0).1 = 3
    ∧ (qdlog_add_file_rotate tm0 true qdlog_new emptyFS (some []) .DAILY 0 0).1 = 0
    ∧ (qdlog_add_file_rotate tm0 true qdlog_new emptyFS (some []) .DAILY 0 0).2.1.file_count = 1
    ∧ (qdlog_add_file_rotate tm0 true qdlog_new emptyFS (some []) .DAILY 0 0).2.2.names
        (ascii ".19700101") = some 0 := by
  refine ⟨by decide, by decide, by decide, by decide⟩

/-- C8 (amended): below capacity and for every rotation mode, a null path is
answered with `QDLOG_ERR_INVALID` = 4, logger and file system given back as
they were (no file opened or created, no sink registered).  The empty path is
not rejected as an argument: its result is never 4; in mode NONE or SIZE
the open of the empty name fails, the result is `QDLOG_ERR_FILE` = 3 and
logger and file system are given back as they were; in mode DAILY or HOURLY
the path made of the date suffix alone is opened and, if that succeeds, a sink
is registered. -/
theorem add_file_rotate_null_path (now : tm) (strdup_ok : Bool) (logger : qdlog_logger)
    (fs : FS) (mode : qdlog_rotate_t) (max_size max_files : Int)
    (h : logger.file_count < MAX_FILE_OUTPUTS) :
    qdlog_add_file_rotate now strdup_ok logger fs none mode max_size max_files = (4, logger, fs)
    ∧ (qdlog_add_file_rotate now strdup_ok logger fs (some []) mode max_size max_files).1 ≠ 4
    ∧ (mode = .NONE ∨ mode = .SIZE →
        qdlog_add_file_rotate now strdup_ok logger fs (some []) mode max_size max_files
          = (3, logger, fs))
    ∧ (mode = .DAILY ∨ mode = .HOURLY →
        qdlog_add_file_rotate now strdup_ok logger fs (some []) mode max_size max_files
          = match fopen (get_time_rotated_path 1024 [] mode now) fs with
            | (none, _) => (3, logger, fs)
            | (some file, fs1) =>
              if strdup_ok = false then (2, logger, fs1)
              else
                (0, { logger with
                        files := logger.files ++
                          [{ file := some file, path := [], rotate_mode := mode
                             max_size := max_size, max_files := max_files
                             current_size := get_file_size (get_time_rotated_path 1024 [] mode now) fs1
                             last_rotate_day := now.tm_yday
                             last_rotate_hour := now.tm_hour }] }, fs1)) := by
  have hc : ¬ logger.file_count ≥ MAX_FILE_OUTPUTS := by omega
  refine ⟨rfl, ?_, ?_, ?_⟩
  rotate_left 2
  · intro hm
    unfold qdlog_add_file_rotate
    simp only [hc, if_false, hm, if_true]
    rfl
  · unfold qdlog_add_file_rotate
    simp only [hc, if_false]
    generalize (if mode = .DAILY ∨ mode = .HOURLY then get_time_rotated_path 1024 [] mode now
      else snprintf 1024 []) = ap
    rcases hfo : fopen ap fs with ⟨_ | file, fs1⟩
    · simp [QDLOG_ERR_FILE]
    · cases strdup_ok <;> simp [QDLOG_ERR_ALLOC, QDLOG_OK]
  · intro hm
    unfold qdlog_add_file_rotate
    have hm2 : ¬ (mode = .DAILY ∨ mode = .HOURLY) := by
      rcases hm with hm | hm <;> simp [hm]
    simp only [hc, if_false, hm2]
    have : snprintf 1024 ([] : List Nat) = [] := rfl
    rw [this, fopen_nil]
    rfl

/-- Witness of `add_file_rotate_null_path`: a new logger has no sink. -/
theorem add_file_rotate_null_path_witness :
    qdlog_new.file_count < MAX_FILE_OUTPUTS
    ∧ qdlog_add_file_rotate tm0 true qdlog_new emptyFS none .SIZE 10 2
        = (4, qdlog_new, emptyFS) :=
  ⟨by decide, (add_file_rotate_null_path tm0 true qdlog_new emptyFS .SIZE 10 2 (by decide)).1⟩

/-! ## Level filter and emission -/

theorem write_files_fs (now : tm) (format : qdlog_format_t) (level : qdlog_level_t)
    (message : List Nat) (pairs : List (Option (List Nat) × Option (List Nat)))
    (files : List qdlog_file_t) :
    ∀ fs : FS,
      (write_files now format level message pairs files fs).2.names = fs.names
      ∧ (write_files now format level message pairs files fs).2.next = fs.next
      ∧ (write_files now format level message pairs files fs).2.openable = fs.openable
      ∧ ∀ i, (write_files now format level message pairs files fs).2.data i
          = fs.data i ++ (List.replicate (sinks_on i files)
              (write_log_entry now format level message pairs).1).flatten := by
  induction files with
  | nil => intro fs; simp [write_files, sinks_on]
  | cons f rest ih =>
    intro fs
    simp only [write_files]
    cases hf : f.file with
    | none =>
      simp only
      obtain ⟨h1, h2, h3, h4⟩ := ih fs
      refine ⟨h1, h2, h3, ?_⟩
      intro i
      rw [h4 i]
      simp [sinks_on, List.countP_cons, hf]
    | some h =>
      simp only
      obtain ⟨h1, h2, h3, h4⟩ :=
        ih (fwrite h (write_log_entry now format level message pairs).1 fs)
      refine ⟨h1, h2, h3, ?_⟩
      intro i
      rw [h4 i]
      by_cases hi : i = h
      · subst hi
        simp [sinks_on, List.countP_cons, hf, fwrite, List.replicate_succ, List.append_assoc]
      · have : ¬ h = i := fun e => hi e.symm
        simp [sinks_on, List.countP_cons, hf, fwrite, hi, this]

theorem write_files_sinks (now : tm) (format : qdlog_format_t) (level : qdlog_level_t)
    (message : List Nat) (pairs : List (Option (List Nat) × Option (List Nat)))
    (files : List qdlog_file_t) :
    ∀ fs : FS,
      (write_files now format level message pairs files fs).1
        = files.map (fun f =>
            if f.file.isSome then
              { f with current_size :=
                  f.current_size + (write_log_entry now format level message pairs).2 }
            else f) := by
  induction files with
  | nil => intro fs; rfl
  | cons f rest ih =>
    intro fs
    simp only [write_files]
    cases hf : f.file with
    | none => simp [ih, hf]
    | some h => simp [ih, hf]

theorem check_rotate_config (now : tm) (logger logger1 : qdlog_logger) (fs fs1 : FS)
    (h : qdlog_check_rotate now logger fs = some (logger1, fs1)) :
    logger1.level = logger.level ∧ logger1.format = logger.format
    ∧ logger1.stdout_enabled = logger.stdout_enabled := by
  unfold qdlog_check_rotate at h
  cases h1 : check_rotate_files now logger.files fs with
  | none => simp [h1] at h
  | some r =>
    obtain ⟨files1, fsa⟩ := r
    simp only [h1, Option.some.injEq, Prod.mk.injEq] at h
    rw [← h.1]
    exact ⟨rfl, rfl, rfl⟩

/-- C1 (fails as stated): with minimum level OFF a record logged at level OFF
is emitted; here it reaches `stdout`. -/
theorem log_off_at_off_counterexample :
    offLogger.level = .OFF
    ∧ (qdlog_log tm0 offLogger emptyWorld .OFF (some (ascii "x"))).map (fun s => s.2.out)
        = some (ascii "1970-01-01T00:00:00 [OFF  ] x\n") := by
  refine ⟨rfl, by decide⟩

/-- C1 (amended): a call of `qdlog_log_kv` with a message whose level is
below the minimum level returns the logger and the world as they were (no
rotation check, no byte to `stdout` or to a file, `current_size` and stamps
kept); so minimum level OFF suppresses every record of level DEBUG..ERROR.
A call whose level is at least the minimum level (a record of level OFF under
minimum level OFF included) emits, once its rotation check has returned: the
rendered line is appended to `stdout` when enabled and to the file of every
sink that has a stream after the check, and nothing else is written.
`qdlog_log` is `qdlog_log_kv` without pairs. -/
theorem qdlog_log_kv_filter (now : tm) (logger : qdlog_logger) (w : World)
    (level : qdlog_level_t) (msg : List Nat)
    (pairs : List (Option (List Nat) × Option (List Nat))) :
    (level.toNat < logger.level.toNat →
      qdlog_log_kv now logger w level (some msg) pairs = some (logger, w))
    ∧ (logger.level = .OFF → level ≠ .OFF →
      qdlog_log_kv now logger w level (some msg) pairs = some (logger, w))
    ∧ (logger.level.toNat ≤ level.toNat →
      ∀ logger1 fs1, qdlog_check_rotate now logger w.fs = some (logger1, fs1) →
        ∃ s, qdlog_log_kv now logger w level (some msg) pairs = some s
          ∧ s.2.out = (if logger.stdout_enabled then
              w.out ++ (write_log_entry now logger.format level msg pairs).1 else w.out)
          ∧ (∀ i, s.2.fs.data i = fs1.data i ++ (List.replicate (sinks_on i logger1.files)
              (write_log_entry now logger.format level msg pairs).1).flatten)
          ∧ s.2.fs.names = fs1.names
          ∧ s.1.files.map (fun f => f.file) = logger1.files.map (fun f => f.file))
    ∧ qdlog_log now logger w level (some msg) = qdlog_log_kv now logger w level (some msg) [] := by
  have hlow : level.toNat < logger.level.toNat →
      qdlog_log_kv now logger w level (some msg) pairs = some (logger, w) := by
    intro h
    simp [qdlog_log_kv, h]
  refine ⟨hlow, ?_, ?_, rfl⟩
  · intro hoff hne
    apply hlow
    rw [hoff]
    cases level <;> simp [qdlog_level_t.toNat] at hne ⊢
  · intro hge logger1 fs1 hrot
    have hnot : ¬ level.toNat < logger.level.toNat := by omega
    obtain ⟨_, hfmt, hout⟩ := check_rotate_config now logger logger1 w.fs fs1 hrot
    refine ⟨({ logger1 with
        files := (write_files now logger1.format level msg pairs logger1.files fs1).1 },
      { fs := (write_files now logger1.format level msg pairs logger1.files fs1).2
        out := if logger1.stdout_enabled then
          w.out ++ (write_log_entry now logger1.format level msg pairs).1 else w.out }),
      ?_, ?_, ?_, ?_, ?_⟩
    · simp only [qdlog_log_kv, hnot, if_false, hrot]
    · simp only [hout, hfmt]
    · intro i
      simp only [hfmt]
      exact (write_files_fs now logger.format level msg pairs logger1.files fs1).2.2.2 i
    · exact (write_files_fs now logger1.format level msg pairs logger1.files fs1).1
    · simp only [write_files_sinks, List.map_map]
      apply List.map_congr_left
      intro f _
      simp only [Function.comp]
      split_ifs <;> rfl

/-- Witness of `qdlog_log_kv_filter`: a record at the minimum level of a new
logger reaches `stdout`. -/
theorem qdlog_log_kv_filter_witness :
    ∃ s, qdlog_log_kv tm0 qdlog_new emptyWorld .INFO (some (ascii "x")) [] = some s
      ∧ s.2.out = ascii "1970-01-01T00:00:00 [INFO ] x\n" := by
  obtain ⟨s, h1, h2, _⟩ :=
    (qdlog_log_kv_filter tm0 qdlog_new emptyWorld .INFO (ascii "x") []).2.2.1
      (by decide) qdlog_new emptyFS rfl
  exact ⟨s, h1, by rw [h2]; decide⟩

/-! ## The byte count returned by `write_log_entry` -/

theorem write_log_entry_text_count (now : tm) (level : qdlog_level_t) (message : List Nat)
    (pairs : List (Option (List Nat) × Option (List Nat))) :
    (write_log_entry now .TEXT level message pairs).2
      = ((write_log_entry now .TEXT level message pairs).1.length : Int) := by
  simp [write_log_entry]
  ring

theorem write_log_entry_json_count (now : tm) (level : qdlog_level_t) (message : List Nat)
    (pairs : List (Option (List Nat) × Option (List Nat))) :
    (write_log_entry now .JSON level message pairs).2
        + ((write_json_string message).length + (json_pairs pairs).length : Nat)
      = ((write_log_entry now .JSON level message pairs).1.length : Int) := by
  simp [write_log_entry]
  ring

/-- C2 (the code misses it in JSON format): the count returned by
`write_log_entry` is the number of bytes written in TEXT format, but in JSON
format it leaves out the escaped message and all pairs; logging "disk low" at
WARN in JSON format appends 63 bytes to the file of the sink and adds 53 to
its `current_size`. -/
theorem json_count_misses_strings :
    (∀ now level message pairs,
      (write_log_entry now .TEXT level message pairs).2
        = ((write_log_entry now .TEXT level message pairs).1.length : Int))
    ∧ (∀ now level message pairs,
      (write_log_entry now .JSON level message pairs).2
          + ((write_json_string message).length + (json_pairs pairs).length : Nat)
        = ((write_log_entry now .JSON level message pairs).1.length : Int))
    ∧ (qdlog_log_kv tm0 jsonLogger { fs := oneFileFS (ascii "a") [], out := [] } .WARN
          (some (ascii "disk low")) []).map
        (fun s => (s.1.files.map (fun f => f.current_size), (s.2.fs.data 0).length))
        = some ([53], 63) := by
  refine ⟨write_log_entry_text_count, write_log_entry_json_count, by decide⟩

/-- Witness of `qdlog_check_rotate_idempotent`: a DAILY sink stamped on day 0
is rotated by a check on day 1, and a second check on day 1 changes
nothing. -/
theorem qdlog_check_rotate_idempotent_witness :
    qdlog_check_rotate tm1 dailyLogger (oneFileFS (ascii "a") [])
      = some ({ dailyLogger with
                  files := [(do_rotate tm1 (sink0 (ascii "a") .DAILY 0 0 0)
                    (oneFileFS (ascii "a") [])).1] },
              (do_rotate tm1 (sink0 (ascii "a") .DAILY 0 0 0) (oneFileFS (ascii "a") [])).2)
    ∧ qdlog_check_rotate tm1
        { dailyLogger with
            files := [(do_rotate tm1 (sink0 (ascii "a") .DAILY 0 0 0)
              (oneFileFS (ascii "a") [])).1] }
        (do_rotate tm1 (sink0 (ascii "a") .DAILY 0 0 0) (oneFileFS (ascii "a") [])).2
      = some ({ dailyLogger with
                  files := [(do_rotate tm1 (sink0 (ascii "a") .DAILY 0 0 0)
                    (oneFileFS (ascii "a") [])).1] },
              (do_rotate tm1 (sink0 (ascii "a") .DAILY 0 0 0) (oneFileFS (ascii "a") [])).2) :=
  ⟨rfl, (qdlog_check_rotate_idempotent tm1 dailyLogger _ (oneFileFS (ascii "a") []) _ rfl).1⟩

/-- Witness of `add_file_at_capacity`: a logger with 8 sinks refuses a ninth. -/
theorem add_file_at_capacity_witness :
    fullLogger.file_count = 8
    ∧ qdlog_add_file_rotate tm0 true fullLogger emptyFS (some (ascii "b")) .SIZE 100 2
        = (4, fullLogger, emptyFS) :=
  ⟨rfl, (add_file_at_capacity tm0 true fullLogger emptyFS (some (ascii "b")) .SIZE 100 2 rfl).1⟩

/-! ## Decimal numerals and backup names -/

theorem natDigits_fuel (b : Nat) (hb : 2 ≤ b) (f : Nat) :
    ∀ (n g : Nat), n < f → n < g → natDigits b f n = natDigits b g n := by
  induction f with
  | zero => intro n g h; omega
  | succ f ih =>
    intro n g hf hg
    obtain ⟨g, rfl⟩ : ∃ k, g = k + 1 := ⟨g - 1, by omega⟩
    simp only [natDigits]
    split_ifs with hlt
    · rfl
    · have hdiv : n / b < n := Nat.div_lt_self (by omega) (by omega)
      rw [ih (n / b) g (by omega) (by omega)]

theorem fmt_u_unfold (b : Nat) (hb : 2 ≤ b) (n : Nat) :
    fmt_u b n = if n < b then [digitChar n] else fmt_u b (n / b) ++ [digitChar (n % b)] := by
  unfold fmt_u
  rw [natDigits]
  split_ifs with hlt
  · rfl
  · have hdiv : n / b < n := Nat.div_lt_self (by omega) (by omega)
    rw [natDigits_fuel b hb n (n / b) (n / b + 1) (by omega) (by omega)]

theorem undec_fmt_u (n : Nat) : undec (fmt_u 10 n) = n := by
  induction n using Nat.strong_induction_on with
  | _ n ih =>
    rw [fmt_u_unfold 10 (by omega)]
    split_ifs with hlt
    · simp [undec, digitChar, hlt]
    · have hdiv : n / 10 < n := Nat.div_lt_self (by omega) (by omega)
      have hmod : n % 10 < 10 := Nat.mod_lt _ (by omega)
      have := ih (n / 10) hdiv
      unfold undec at this ⊢
      rw [List.foldl_append, this]
      simp [digitChar, hmod]
      omega

theorem fmt_u_injective (a b : Nat) (h : fmt_u 10 a = fmt_u 10 b) : a = b := by
  have := congrArg undec h
  rwa [undec_fmt_u, undec_fmt_u] at this

theorem fmt_u_length_pos (n : Nat) : 0 < (fmt_u 10 n).length := by
  rw [fmt_u_unfold 10 (by omega)]
  split_ifs <;> simp

theorem fmt_u_length_mono (a b : Nat) (h : a ≤ b) :
    (fmt_u 10 a).length ≤ (fmt_u 10 b).length := by
  induction b using Nat.strong_induction_on generalizing a with
  | _ b ih =>
    rw [fmt_u_unfold 10 (by omega) a, fmt_u_unfold 10 (by omega) b]
    by_cases ha : a < 10
    · simp only [ha, if_true]
      split_ifs <;> simp
    · have hb : ¬ b < 10 := by omega
      simp only [ha, hb, if_false, List.length_append, List.length_singleton]
      have hdiv : b / 10 < b := Nat.div_lt_self (by omega) (by omega)
      have := ih (b / 10) hdiv (a / 10) (Nat.div_le_div_right h)
      omega

theorem fmt_lld_natCast (j : Nat) : fmt_lld (j : Int) = fmt_u 10 j := by
  have h : ¬ ((j : Int) < 0) := by omega
  simp [fmt_lld, fmt_d, zero_pad, h]

theorem backup_path_injective (base : List Nat) (i j : Nat)
    (h : backup_path base i = backup_path base j) : i = j := by
  unfold backup_path at h
  exact fmt_u_injective i j (List.append_cancel_left h)

theorem backup_path_ne_base (base : List Nat) (j : Nat) : backup_path base j ≠ base := by
  intro h
  have := congrArg List.length h
  simp [backup_path] at this

theorem backup_path_length_mono (base : List Nat) (i j : Nat) (h : i ≤ j) :
    (backup_path base i).length ≤ (backup_path base j).length := by
  have := fmt_u_length_mono i j h
  simp [backup_path]
  omega

theorem numbered_path_eq (base : List Nat) (j : Nat)
    (hfit : (backup_path base j).length ≤ 1023) :
    numbered_path base (j : Int) = backup_path base j := by
  unfold numbered_path snprintf
  rw [fmt_lld_natCast]
  exact List.take_of_length_le hfit

theorem dot_one_path_eq (base : List Nat) (hfit : (backup_path base 1).length ≤ 1023) :
    snprintf 1024 (base ++ ascii ".1") = backup_path base 1 := by
  have : base ++ ascii ".1" = backup_path base 1 := by
    simp [backup_path, ascii]
    rfl
  rw [this]
  exact List.take_of_length_le hfit

/-! ## File-system calls -/

theorem rename_names (old new : List Nat) (fs : FS) (hwf : fs.wf) (hne : old ≠ new)
    (p : List Nat) :
    (rename old new fs).names p
      = if fs.names old = none then fs.names p
        else if p = new then fs.names old
        else if p = old then none
        else fs.names p := by
  unfold rename
  cases ho : fs.names old with
  | none => simp
  | some i =>
    have hn : fs.names new ≠ some i := fun hn => hne (hwf.1 old new i ho hn)
    simp [hn]

theorem rename_frame (old new : List Nat) (fs : FS) :
    (rename old new fs).data = fs.data ∧ (rename old new fs).next = fs.next
    ∧ (rename old new fs).openable = fs.openable := by
  unfold rename
  cases fs.names old with
  | none => exact ⟨rfl, rfl, rfl⟩
  | some i =>
    simp only
    split_ifs
    · exact ⟨rfl, rfl, rfl⟩
    · exact ⟨rfl, rfl, rfl⟩

theorem rename_wf (old new : List Nat) (fs : FS) (hwf : fs.wf) : (rename old new fs).wf := by
  by_cases hne : old = new
  · subst hne
    unfold rename
    cases ho : fs.names old with
    | none => exact hwf
    | some i => simp only [if_true]; exact hwf
  · have hn := rename_names old new fs hwf hne
    have hfr := rename_frame old new fs
    cases ho : fs.names old with
    | none =>
      have : rename old new fs = fs := by simp [rename, ho]
      rw [this]; exact hwf
    | some i =>
      simp only [ho, reduceCtorEq, if_false] at hn
      refine ⟨?_, ?_⟩
      · intro p q k hp hq
        rw [hn] at hp hq
        by_cases hpn : p = new
        · by_cases hqn : q = new
          · rw [hpn, hqn]
          · simp only [hpn, if_true, Option.some.injEq] at hp
            simp only [hqn, if_false] at hq
            by_cases hqo : q = old
            · simp [hqo] at hq
            · simp only [hqo, if_false] at hq
              rw [← hp] at hq
              exact absurd (hwf.1 q old i hq ho) hqo
        · simp only [hpn, if_false] at hp
          by_cases hpo : p = old
          · simp [hpo] at hp
          · simp only [hpo, if_false] at hp
            by_cases hqn : q = new
            · simp only [hqn, if_true, Option.some.injEq] at hq
              rw [← hq] at hp
              exact absurd (hwf.1 p old i hp ho) hpo
            · simp only [hqn, if_false] at hq
              by_cases hqo : q = old
              · simp [hqo] at hq
              · simp only [hqo, if_false] at hq
                exact hwf.1 p q k hp hq
      · intro p k hp
        rw [hfr.2.1]
        rw [hn] at hp
        by_cases hpn : p = new
        · simp only [hpn, if_true, Option.some.injEq] at hp
          rw [← hp]; exact hwf.2 old i ho
        · simp only [hpn, if_false] at hp
          by_cases hpo : p = old
          · simp [hpo] at hp
          · simp only [hpo, if_false] at hp
            exact hwf.2 p k hp

theorem unlink_wf (path : List Nat) (fs : FS) (hwf : fs.wf) : (unlink path fs).wf := by
  refine ⟨?_, ?_⟩
  · intro p q k hp hq
    simp only [unlink] at hp hq
    by_cases h1 : p = path
    · simp [h1] at hp
    · by_cases h2 : q = path
      · simp [h2] at hq
      · simp only [h1, h2, if_false] at hp hq
        exact hwf.1 p q k hp hq
  · intro p k hp
    simp only [unlink] at hp ⊢
    by_cases h1 : p = path
    · simp [h1] at hp
    · simp only [h1, if_false] at hp
      exact hwf.2 p k hp

theorem fwrite_wf (h : Nat) (bytes : List Nat) (fs : FS) (hwf : fs.wf) :
    (fwrite h bytes fs).wf := hwf

theorem fopen_wf (path : List Nat) (fs : FS) (hwf : fs.wf) : (fopen path fs).2.wf := by
  unfold fopen
  split_ifs with h
  · exact hwf
  · cases hn : fs.names path with
    | some i => exact hwf
    | none =>
      simp only
      refine ⟨?_, ?_⟩
      · intro p q k hp hq
        simp only at hp hq
        by_cases h1 : p = path
        · by_cases h2 : q = path
          · rw [h1, h2]
          · simp only [h1, if_true, Option.some.injEq, h2, if_false] at hp hq
            have := hwf.2 q k hq
            omega
        · by_cases h2 : q = path
          · simp only [h1, if_false, h2, if_true, Option.some.injEq] at hp hq
            have := hwf.2 p k hp
            omega
          · simp only [h1, h2, if_false] at hp hq
            exact hwf.1 p q k hp hq
      · intro p k hp
        simp only at hp ⊢
        by_cases h1 : p = path
        · simp only [h1, if_true, Option.some.injEq] at hp
          omega
        · simp only [h1, if_false] at hp
          have := hwf.2 p k hp
          omega

/-- A successful or failed `fopen` of a path without file. -/
theorem fopen_missing (path : List Nat) (fs : FS) (hn : fs.names path = none) :
    fopen path fs
      = if path ≠ [] ∧ fs.openable path = true then
          (some fs.next,
            { fs with
              names := fun p => if p = path then some fs.next else fs.names p
              data := fun i => if i = fs.next then [] else fs.data i
              next := fs.next + 1 })
        else (none, fs) := by
  unfold fopen
  by_cases h1 : path = []
  · simp [h1]
  · cases h2 : fs.openable path <;> simp [h1, h2, hn]

/-! ## The renaming loop of `rotate_files` -/

theorem rotate_loop_frame (base : List Nat) (n : Nat) :
    ∀ fs : FS, (rotate_loop base n fs).data = fs.data ∧ (rotate_loop base n fs).next = fs.next
      ∧ (rotate_loop base n fs).openable = fs.openable := by
  induction n with
  | zero => intro fs; exact ⟨rfl, rfl, rfl⟩
  | succ n ih =>
    intro fs
    simp only [rotate_loop]
    obtain ⟨h1, h2, h3⟩ := ih (rename (numbered_path base ((n + 1 : Nat) : Int))
      (numbered_path base (((n + 1 : Nat) : Int) + 1)) fs)
    obtain ⟨g1, g2, g3⟩ := rename_frame (numbered_path base ((n + 1 : Nat) : Int))
      (numbered_path base (((n + 1 : Nat) : Int) + 1)) fs
    exact ⟨h1.trans g1, h2.trans g2, h3.trans g3⟩

theorem rotate_loop_wf (base : List Nat) (n : Nat) :
    ∀ fs : FS, fs.wf → (rotate_loop base n fs).wf := by
  induction n with
  | zero => intro fs h; exact h
  | succ n ih =>
    intro fs h
    simp only [rotate_loop]
    exact ih _ (rename_wf _ _ fs h)

/-- The loop started at `n` on backups that fit in the buffer, the name
`base.(n+1)` being free: `base.j` becomes `base.(j+1)` for `j = 1..n`, `base.1`
is free afterwards and no other name changes. -/
theorem rotate_loop_names (base : List Nat) (n : Nat) :
    ∀ fs : FS, fs.wf → (backup_path base (n + 1)).length ≤ 1023 →
      fs.names (backup_path base (n + 1)) = none →
      (∀ j, 1 ≤ j → j ≤ n →
        (rotate_loop base n fs).names (backup_path base (j + 1)) = fs.names (backup_path base j))
      ∧ (rotate_loop base n fs).names (backup_path base 1) = none
      ∧ (∀ p, (∀ j, 1 ≤ j → j ≤ n + 1 → p ≠ backup_path base j) →
          (rotate_loop base n fs).names p = fs.names p) := by
  induction n with
  | zero =>
    intro fs _ _ hfree
    refine ⟨?_, hfree, ?_⟩
    · intro j h1 h2; omega
    · intro p _; rfl
  | succ n ih =>
    intro fs hwf hfit hfree
    have hfit1 : (backup_path base (n + 1)).length ≤ 1023 :=
      le_trans (backup_path_length_mono base (n + 1) (n + 2) (by omega)) hfit
    have hp1 : numbered_path base ((n + 1 : Nat) : Int) = backup_path base (n + 1) :=
      numbered_path_eq base (n + 1) hfit1
    have hp2 : numbered_path base (((n + 1 : Nat) : Int) + 1) = backup_path base (n + 2) := by
      have : (((n + 1 : Nat) : Int) + 1) = ((n + 2 : Nat) : Int) := by push_cast; ring
      rw [this]
      exact numbered_path_eq base (n + 2) hfit
    have hne : backup_path base (n + 1) ≠ backup_path base (n + 2) := by
      intro h
      have := backup_path_injective base _ _ h
      omega
    simp only [rotate_loop, hp1, hp2]
    have hrn := rename_names (backup_path base (n + 1)) (backup_path base (n + 2)) fs hwf hne
    have hwf1 := rename_wf (backup_path base (n + 1)) (backup_path base (n + 2)) fs hwf
    have hfree1 : (rename (backup_path base (n + 1)) (backup_path base (n + 2)) fs).names
        (backup_path base (n + 1)) = none := by
      rw [hrn]
      cases ho : fs.names (backup_path base (n + 1)) with
      | none => simp [ho]
      | some i => simp [hne]
    obtain ⟨ih1, ih2, ih3⟩ := ih _ hwf1 hfit1 hfree1
    refine ⟨?_, ih2, ?_⟩
    · intro j h1 h2
      by_cases hj : j = n + 1
      · subst hj
        rw [ih3 (backup_path base (n + 1 + 1))]
        · rw [hrn]
          cases ho : fs.names (backup_path base (n + 1)) with
          | none => simpa using hfree
          | some i => simp
        · intro k hk1 hk2 h
          have := backup_path_injective base _ _ h
          omega
      · rw [ih1 j h1 (by omega), hrn]
        have hj1 : backup_path base j ≠ backup_path base (n + 2) := by
          intro h
          have := backup_path_injective base _ _ h
          omega
        have hj2 : backup_path base j ≠ backup_path base (n + 1) := by
          intro h
          have := backup_path_injective base _ _ h
          omega
        simp [hj1, hj2]
    · intro p hp
      rw [ih3 p (fun j h1 h2 => hp j h1 (by omega)), hrn]
      have hq1 : p ≠ backup_path base (n + 2) := hp (n + 2) (by omega) (by omega)
      have hq2 : p ≠ backup_path base (n + 1) := hp (n + 1) (by omega) (by omega)
      simp [hq1, hq2]

/-- Function `rotate_files` with a bound of `N > 0` backups whose names fit
in the buffer: `base.N` is dropped, `base.j` becomes `base.(j+1)` for
`j = 1..N-1`, `base` becomes `base.1`, and nothing else changes. -/
theorem rotate_files_names (base : List Nat) (N : Nat) (fs : FS) (hN : 0 < N)
    (hfit : (backup_path base N).length ≤ 1023) (hwf : fs.wf) :
    (rotate_files base (N : Int) fs).wf
    ∧ (rotate_files base (N : Int) fs).data = fs.data
    ∧ (rotate_files base (N : Int) fs).next = fs.next
    ∧ (rotate_files base (N : Int) fs).openable = fs.openable
    ∧ (rotate_files base (N : Int) fs).names base = none
    ∧ (rotate_files base (N : Int) fs).names (backup_path base 1) = fs.names base
    ∧ (∀ j, 1 ≤ j → j < N →
        (rotate_files base (N : Int) fs).names (backup_path base (j + 1))
          = fs.names (backup_path base j))
    ∧ (∀ p, p ≠ base → (∀ j, 1 ≤ j → j ≤ N → p ≠ backup_path base j) →
        (rotate_files base (N : Int) fs).names p = fs.names p) := by
  obtain ⟨n, rfl⟩ : ∃ n, N = n + 1 := ⟨N - 1, by omega⟩
  have hpos : ((n + 1 : Nat) : Int) > 0 := by omega
  have hstart : (((n + 1 : Nat) : Int) - 1).toNat = n := by omega
  have hfit1 : (backup_path base 1).length ≤ 1023 :=
    le_trans (backup_path_length_mono base 1 (n + 1) (by omega)) hfit
  have hpN := numbered_path_eq base (n + 1) hfit
  have hp1 := dot_one_path_eq base hfit1
  unfold rotate_files
  simp only [hpos, if_true, hstart, hpN, hp1]
  set fs1 := unlink (backup_path base (n + 1)) fs with hfs1
  have hwf1 : fs1.wf := unlink_wf _ fs hwf
  have hfree : fs1.names (backup_path base (n + 1)) = none := by simp [hfs1, unlink]
  obtain ⟨l1, l2, l3⟩ := rotate_loop_names base n fs1 hwf1 hfit hfree
  obtain ⟨f1, f2, f3⟩ := rotate_loop_frame base n fs1
  have hwf2 := rotate_loop_wf base n fs1 hwf1
  set fs2 := rotate_loop base n fs1 with hfs2
  have hb1 : base ≠ backup_path base 1 := fun h => backup_path_ne_base base 1 h.symm
  have hrn := rename_names base (backup_path base 1) fs2 hwf2 hb1
  obtain ⟨g1, g2, g3⟩ := rename_frame base (backup_path base 1) fs2
  have hbase2 : fs2.names base = fs.names base := by
    rw [l3 base (fun j _ _ h => backup_path_ne_base base j h.symm)]
    simp [hfs1, unlink, (backup_path_ne_base base (n + 1)).symm]
  refine ⟨rename_wf _ _ fs2 hwf2, ?_, ?_, ?_, ?_, ?_, ?_, ?_⟩
  · rw [g1, f1]; rfl
  · rw [g2, f2]; rfl
  · rw [g3, f3]; rfl
  · rw [hrn]
    cases ho : fs2.names base with
    | none => simp [ho]
    | some i => simp [hb1]
  · rw [hrn, hbase2]
    cases ho : fs.names base with
    | none => simpa using l2
    | some i => simp
  · intro j hj1 hj2
    have hq1 : backup_path base (j + 1) ≠ backup_path base 1 := by
      intro h
      have := backup_path_injective base _ _ h
      omega
    have hq2 : backup_path base (j + 1) ≠ base := backup_path_ne_base base (j + 1)
    rw [hrn, l1 j hj1 (by omega)]
    have hq3 : backup_path base j ≠ backup_path base (n + 1) := by
      intro h
      have := backup_path_injective base _ _ h
      omega
    simp [hq1, hq2, hfs1, unlink, hq3]
  · intro p hpb hp
    have hq1 : p ≠ backup_path base 1 := hp 1 (by omega) (by omega)
    rw [hrn, l3 p (fun j h1 h2 => hp j h1 h2)]
    have hq3 : p ≠ backup_path base (n + 1) := hp (n + 1) (by omega) (by omega)
    simp [hq1, hpb, hfs1, unlink, hq3]

/-! ## A SIZE sink realises the rolling log of the specification -/

theorem RollingLog.check_config (M : Int) (reopen : Bool) (a : RollingLog) :
    (a.check M reopen).level = a.level ∧ (a.check M reopen).format = a.format := by
  by_cases h : M > 0 ∧ a.size ≥ M
  · cases hc : a.cur <;> simp [RollingLog.check, h, hc]
  · simp [RollingLog.check, h]

theorem check_and_rotate_size_inv (base : List Nat) (N : Nat) (M : Int) (reopen : Bool)
    (now : tm) (f : qdlog_file_t) (fs : FS) (a : RollingLog) (hN : 0 < N)
    (hfit : (backup_path base N).length ≤ 1023)
    (h : SinkInv base N M reopen f fs a.cur a.size a.hist) :
    ∃ f1 fs1, check_and_rotate now f fs = some (f1, fs1)
      ∧ SinkInv base N M reopen f1 fs1 (a.check M reopen).cur (a.check M reopen).size
          (a.check M reopen).hist := by
  obtain ⟨hmode, hpath, hmf, hms, hsize, hwf, hre, hcur, hbk⟩ := h
  have hnone : f.rotate_mode ≠ .NONE := by rw [hmode]; decide
  by_cases hdue : M > 0 ∧ a.size ≥ M
  · -- rotation is due
    have hneed : need_rotate f now = true := by
      simp [need_rotate, hmode, hms, hsize, hdue.1, hdue.2]
    cases hc : a.cur with
    | none =>
      rw [hc] at hcur
      obtain ⟨_, _, hz, _⟩ := hcur
      omega
    | some c =>
      rw [hc] at hcur
      obtain ⟨h, hfile, hbase, hdata⟩ := hcur
      obtain ⟨r1, r2, r3, r4, r5, r6, r7, r8⟩ := rotate_files_names base N fs hN hfit hwf
      have hlt : h < fs.next := hwf.2 base h hbase
      have hchk : a.check M reopen
          = { a with cur := if reopen then some [] else none, size := 0, hist := c :: a.hist } := by
        simp [RollingLog.check, hdue.1, hdue.2, hc]
      have hopen := fopen_missing base (rotate_files base (N : Int) fs) r5
      have hre2 : decide (base ≠ [] ∧ (rotate_files base (N : Int) fs).openable base = true)
          = reopen := by rw [r4]; exact hre
      refine ⟨(do_rotate now f fs).1, (do_rotate now f fs).2, ?_, ?_⟩
      · simp [check_and_rotate, hnone, hneed, hfile]
      · have hdo : do_rotate now f fs
            = ({ f with
                  file := (fopen base (rotate_files base (N : Int) fs)).1
                  current_size := 0
                  last_rotate_day := now.tm_yday
                  last_rotate_hour := now.tm_hour },
                (fopen base (rotate_files base (N : Int) fs)).2) := by
          simp [do_rotate, hmode, hpath, hmf]
        rw [hdo, hchk]
        -- the backups after renaming, before the reopen
        have hbk3 : ∀ j, 1 ≤ j →
            ((rotate_files base (N : Int) fs).names (backup_path base j)).map fs.data
              = if j ≤ N then (c :: a.hist)[j - 1]? else none := by
          intro j hj
          by_cases hj1 : j = 1
          · subst hj1
            rw [r6, hbase]
            have h1N : 1 ≤ N := hN
            simp [hdata, h1N]
          · obtain ⟨k, rfl⟩ : ∃ k, j = k + 1 := ⟨j - 1, by omega⟩
            have hk : 1 ≤ k := by omega
            by_cases hkN : k < N
            · rw [r7 k hk hkN]
              have := hbk k hk
              simp only [FS.content] at this
              rw [this]
              have h1 : k ≤ N := by omega
              have h2 : k + 1 ≤ N := by omega
              obtain ⟨m, rfl⟩ : ∃ m, k = m + 1 := ⟨k - 1, by omega⟩
              simp [h1, h2]
            · rw [r8 (backup_path base (k + 1)) (backup_path_ne_base base (k + 1))]
              · have := hbk (k + 1) (by omega)
                simp only [FS.content] at this
                rw [this]
                have h2 : ¬ k + 1 ≤ N := by omega
                simp [h2]
              · intro i hi1 hi2 heq
                have := backup_path_injective base _ _ heq
                omega
        have hltb : ∀ j i, (rotate_files base (N : Int) fs).names (backup_path base j) = some i →
            i < fs.next := by
          intro j i hji
          have := r1.2 _ _ hji
          rwa [r3] at this
        cases hro : reopen with
        | false =>
          have hcond : ¬ (base ≠ [] ∧ (rotate_files base (N : Int) fs).openable base = true) := by
            intro hcon
            rw [hro] at hre2
            simp [hcon] at hre2
          have hop : fopen base (rotate_files base (N : Int) fs)
              = (none, rotate_files base (N : Int) fs) := by rw [hopen, if_neg hcond]
          rw [hop]
          refine ⟨hmode, hpath, hmf, hms, rfl, r1, ?_, ?_, ?_⟩
          · exact hre2.trans hro
          · exact ⟨rfl, r5, rfl, hdue.1⟩
          · intro j hj
            simp only [FS.content, r2]
            exact hbk3 j hj
        | true =>
          have hcond : base ≠ [] ∧ (rotate_files base (N : Int) fs).openable base = true := by
            rw [hro] at hre2
            simpa using hre2
          have hop := hopen
          rw [if_pos hcond] at hop
          have hwf4 := fopen_wf base (rotate_files base (N : Int) fs) r1
          rw [hop] at hwf4 ⊢
          refine ⟨hmode, hpath, hmf, hms, rfl, hwf4, ?_, ?_, ?_⟩
          · exact hre2.trans hro
          · exact ⟨(rotate_files base (N : Int) fs).next, rfl, by simp, by simp⟩
          · intro j hj
            have hjb : backup_path base j ≠ base := backup_path_ne_base base j
            simp only [FS.content, hjb, if_false, r3, r2]
            rw [← hbk3 j hj]
            cases hnj : (rotate_files base (N : Int) fs).names (backup_path base j) with
            | none => rfl
            | some i =>
              have := hltb j i hnj
              have hne : i ≠ fs.next := by omega
              simp [hne]
  · -- no rotation
    have hneed : need_rotate f now = false := by
      simp only [need_rotate, hmode, hms, hsize]
      simpa using hdue
    have hchk : a.check M reopen = a := by
      simp only [RollingLog.check, hdue, if_false]
    refine ⟨f, fs, check_and_rotate_not_due now f fs hneed, ?_⟩
    rw [hchk]
    exact ⟨hmode, hpath, hmf, hms, hsize, hwf, hre, hcur, hbk⟩

theorem write_size_inv (base : List Nat) (N : Nat) (M : Int) (reopen : Bool)
    (now : tm) (format : qdlog_format_t) (level : qdlog_level_t) (msg : List Nat)
    (pairs : List (Option (List Nat) × Option (List Nat)))
    (f : qdlog_file_t) (fs : FS) (cur : Option (List Nat)) (size : Int)
    (hist : List (List Nat)) (h : SinkInv base N M reopen f fs cur size hist) :
    ∃ f2, (write_files now format level msg pairs [f] fs).1 = [f2]
      ∧ SinkInv base N M reopen f2 (write_files now format level msg pairs [f] fs).2
          (cur.map (fun c => c ++ (write_log_entry now format level msg pairs).1))
          (if cur.isSome then size + (write_log_entry now format level msg pairs).2 else size)
          hist := by
  obtain ⟨hmode, hpath, hmf, hms, hsize, hwf, hre, hcur, hbk⟩ := h
  cases cur with
  | none =>
    obtain ⟨hfile, hbase, hz, hM⟩ := hcur
    refine ⟨f, by simp [write_files, hfile], ?_⟩
    simp only [write_files, hfile, Option.map_none']
    exact ⟨hmode, hpath, hmf, hms, hsize, hwf, hre, ⟨hfile, hbase, hz, hM⟩, hbk⟩
  | some c =>
    obtain ⟨h, hfile, hbase, hdata⟩ := hcur
    refine ⟨{ f with current_size := f.current_size
                + (write_log_entry now format level msg pairs).2 },
      by simp [write_files, hfile], ?_⟩
    simp only [write_files, hfile, Option.map_some']
    refine ⟨hmode, hpath, hmf, hms, by simp [hsize], hwf, hre, ?_, ?_⟩
    · exact ⟨h, rfl, hbase, by simp [fwrite, hdata]⟩
    · intro j hj
      rw [← hbk j hj]
      simp only [FS.content, fwrite]
      cases hnj : fs.names (backup_path base j) with
      | none => rfl
      | some i =>
        have hne : i ≠ h := by
          intro e
          rw [e] at hnj
          exact backup_path_ne_base base j (hwf.1 _ _ h hnj hbase)
        simp [hne]

theorem check_rotate_single (now : tm) (f f1 : qdlog_file_t) (fs fs1 : FS)
    (logger : qdlog_logger) (hl : logger.files = [f])
    (h : check_and_rotate now f fs = some (f1, fs1)) :
    qdlog_check_rotate now logger fs = some ({ logger with files := [f1] }, fs1) := by
  simp [qdlog_check_rotate, hl, check_rotate_files, h]

theorem emit_inv (base : List Nat) (N : Nat) (M : Int) (reopen : Bool) (hN : 0 < N)
    (hfit : (backup_path base N).length ≤ 1023) (now : tm) (level : qdlog_level_t)
    (msg : List Nat) (pairs : List (Option (List Nat) × Option (List Nat)))
    (s : qdlog_logger × World) (a : RollingLog) (h : LoggerInv base N M reopen s a) :
    ∃ s1, qdlog_log_kv now s.1 s.2 level (some msg) pairs = some s1
      ∧ LoggerInv base N M reopen s1 (a.emit M reopen now level msg pairs) := by
  obtain ⟨hlv, hfm, f, hfiles, hsink⟩ := h
  by_cases hlow : level.toNat < a.level.toNat
  · refine ⟨s, ?_, ?_⟩
    · simp [qdlog_log_kv, hlv, hlow]
    · simp only [RollingLog.emit, hlow, if_true]
      exact ⟨hlv, hfm, f, hfiles, hsink⟩
  · obtain ⟨f1, fs1, hchk, hinv1⟩ :=
      check_and_rotate_size_inv base N M reopen now f s.2.fs a hN hfit hsink
    have hrot := check_rotate_single now f f1 s.2.fs fs1 s.1 hfiles hchk
    obtain ⟨hcl, hcf⟩ := RollingLog.check_config M reopen a
    obtain ⟨f2, hw1, hinv2⟩ := write_size_inv base N M reopen now s.1.format level msg pairs
      f1 fs1 _ _ _ hinv1
    have hlow2 : ¬ level.toNat < s.1.level.toNat := by rw [hlv]; exact hlow
    refine ⟨({ s.1 with files := (write_files now s.1.format level msg pairs [f1] fs1).1 },
      { fs := (write_files now s.1.format level msg pairs [f1] fs1).2
        out := if s.1.stdout_enabled then
          s.2.out ++ (write_log_entry now s.1.format level msg pairs).1 else s.2.out }), ?_, ?_⟩
    · simp only [qdlog_log_kv, hlow2, if_false, hrot]
    · simp only [RollingLog.emit, hlow, if_false]
      refine ⟨?_, ?_, f2, hw1, ?_⟩
      · simp only
        cases (a.check M reopen).cur <;> simp [hlv, hcl]
      · simp only
        cases (a.check M reopen).cur <;> simp [hfm, hcf]
      · simp only
        rw [hfm] at hinv2 ⊢
        rw [hcf]
        cases hc : (a.check M reopen).cur with
        | none => simpa [hc] using hinv2
        | some c => simpa [hc] using hinv2

theorem step_inv (base : List Nat) (N : Nat) (M : Int) (reopen : Bool) (hN : 0 < N)
    (hfit : (backup_path base N).length ≤ 1023) (op : Op) (hop : op.adds_sink = false)
    (s : qdlog_logger × World) (a : RollingLog) (h : LoggerInv base N M reopen s a) :
    ∃ s1, op.step s = some s1 ∧ LoggerInv base N M reopen s1 (a.step M reopen op) := by
  cases op with
  | set_level level =>
    obtain ⟨hlv, hfm, hrest⟩ := h
    exact ⟨_, rfl, rfl, hfm, hrest⟩
  | set_format format =>
    obtain ⟨hlv, hfm, hrest⟩ := h
    exact ⟨_, rfl, hlv, rfl, hrest⟩
  | enable_stdout => exact ⟨_, rfl, h⟩
  | disable_stdout => exact ⟨_, rfl, h⟩
  | add_file now ok path => simp [Op.adds_sink] at hop
  | add_file_rotate now ok path mode max_size max_files => simp [Op.adds_sink] at hop
  | log now level message =>
    cases message with
    | none => exact ⟨s, rfl, h⟩
    | some msg => exact emit_inv base N M reopen hN hfit now level msg [] s a h
  | log_kv now level message pairs =>
    cases message with
    | none => exact ⟨s, rfl, h⟩
    | some msg => exact emit_inv base N M reopen hN hfit now level msg pairs s a h
  | flush => exact ⟨s, rfl, h⟩
  | check_rotate now =>
    obtain ⟨hlv, hfm, f, hfiles, hsink⟩ := h
    obtain ⟨f1, fs1, hchk, hinv1⟩ :=
      check_and_rotate_size_inv base N M reopen now f s.2.fs a hN hfit hsink
    have hrot := check_rotate_single now f f1 s.2.fs fs1 s.1 hfiles hchk
    obtain ⟨hcl, hcf⟩ := RollingLog.check_config M reopen a
    refine ⟨({ s.1 with files := [f1] }, { s.2 with fs := fs1 }), ?_, ?_⟩
    · simp only [Op.step, hrot]
    · exact ⟨hlv.trans hcl.symm, hfm.trans hcf.symm, f1, rfl, hinv1⟩

theorem run_inv (base : List Nat) (N : Nat) (M : Int) (reopen : Bool) (hN : 0 < N)
    (hfit : (backup_path base N).length ≤ 1023) (ops : List Op) :
    ∀ (s : qdlog_logger × World) (a : RollingLog), (∀ op ∈ ops, op.adds_sink = false) →
      LoggerInv base N M reopen s a →
      ∃ s1, run ops s = some s1 ∧ LoggerInv base N M reopen s1 (a.run M reopen ops) := by
  induction ops with
  | nil => intro s a _ h; exact ⟨s, rfl, h⟩
  | cons op ops ih =>
    intro s a hops h
    obtain ⟨s1, hs1, hinv1⟩ :=
      step_inv base N M reopen hN hfit op (hops op (List.mem_cons_self _ _)) s a h
    obtain ⟨s2, hs2, hinv2⟩ := ih s1 _ (fun o ho => hops o (List.mem_cons_of_mem _ ho)) hinv1
    exact ⟨s2, by simp [run, hs1, hs2], hinv2⟩

/-! ## Size rotation keeps a window of backups -/

set_option maxRecDepth 100000 in
/-- C6 (fails as stated): for a base path of 1023 bytes the names `base.1`
and `base.2` do not fit in the path buffer and are cut back to `base` itself;
one rotation of a sink with `max_files = 2` then unlinks the active file,
archives nothing (no `base.1` exists afterwards) and starts a new empty
`base`. -/
theorem size_rotation_long_path_counterexample :
    longPath.length = 1023
    ∧ need_rotate (sink0 longPath .SIZE 1 2 1) tm0 = true
    ∧ (check_and_rotate tm0 (sink0 longPath .SIZE 1 2 1) (oneFileFS longPath [120])).map
        (fun r => (r.2.content (backup_path longPath 1), r.2.content longPath))
      = some (none, some []) := by
  refine ⟨by decide, by decide, by decide⟩

/-- C6 (amended): take a logger whose only sink is a SIZE sink on `base` with
`max_files = N > 0`, the name `base.N` fitting in the 1023 bytes of the path
buffer, the stream open on the file `base`, no backup `base.j` present, in a
file system without hard links.  Then every sequence of calls that registers
no sink returns, and afterwards the files are those of the rolling log of the
specification: `base` holds what was written since the last rotation (it is
absent if the reopen failed), and for every `j >= 1` the backup `base.j` holds
the content the active file had `j` rotations ago when `j <= N`, and does not
exist when `j` exceeds `N` or the number of rotations. -/
theorem size_rotation_keeps_window (base : List Nat) (N : Nat) (ops : List Op)
    (logger : qdlog_logger) (w : World) (f : qdlog_file_t) (h : Nat)
    (hN : 0 < N) (hfit : (backup_path base N).length ≤ 1023)
    (hops : ∀ op ∈ ops, op.adds_sink = false)
    (hfiles : logger.files = [f]) (hmode : f.rotate_mode = .SIZE) (hpath : f.path = base)
    (hmf : f.max_files = (N : Int)) (hfile : f.file = some h)
    (hbase : w.fs.names base = some h) (hwf : w.fs.wf)
    (hnone : ∀ j, 1 ≤ j → w.fs.names (backup_path base j) = none) :
    ∃ s, run ops (logger, w) = some s
      ∧ s.2.fs.content base
          = (RollingLog.run f.max_size (decide (base ≠ [] ∧ w.fs.openable base = true)) ops
              ⟨some (w.fs.data h), f.current_size, [], logger.level, logger.format⟩).cur
      ∧ (∀ j, 1 ≤ j → s.2.fs.content (backup_path base j)
          = if j ≤ N then
              (RollingLog.run f.max_size (decide (base ≠ [] ∧ w.fs.openable base = true)) ops
                ⟨some (w.fs.data h), f.current_size, [], logger.level, logger.format⟩).hist[j - 1]?
            else none)
      ∧ (∀ j, 1 ≤ j → ((s.2.fs.names (backup_path base j)).isSome ↔
          j ≤ min N
            (RollingLog.run f.max_size (decide (base ≠ [] ∧ w.fs.openable base = true)) ops
              ⟨some (w.fs.data h), f.current_size, [], logger.level, logger.format⟩).hist.length))
    := by
  have hinit : LoggerInv base N f.max_size (decide (base ≠ [] ∧ w.fs.openable base = true))
      (logger, w) ⟨some (w.fs.data h), f.current_size, [], logger.level, logger.format⟩ := by
    refine ⟨rfl, rfl, f, hfiles, hmode, hpath, hmf, rfl, rfl, hwf, rfl, ⟨h, hfile, hbase, rfl⟩, ?_⟩
    intro j hj
    simp [FS.content, hnone j hj]
  obtain ⟨s, hs, hlv, hfm, f1, hf1, hinv⟩ := run_inv base N f.max_size _ hN hfit ops _ _ hops hinit
  obtain ⟨_, _, _, _, _, _, _, hcur, hbk⟩ := hinv
  refine ⟨s, hs, ?_, hbk, ?_⟩
  · generalize (RollingLog.run f.max_size (decide (base ≠ [] ∧ w.fs.openable base = true)) ops
      ⟨some (w.fs.data h), f.current_size, [], logger.level, logger.format⟩).cur = c at hcur
    cases c with
    | none => simp [FS.content, hcur.2.1]
    | some c =>
      obtain ⟨h1, _, hb1, hd1⟩ := hcur
      simp [FS.content, hb1, hd1]
  · intro j hj
    have := hbk j hj
    simp only [FS.content] at this
    generalize (RollingLog.run f.max_size (decide (base ≠ [] ∧ w.fs.openable base = true)) ops
      ⟨some (w.fs.data h), f.current_size, [], logger.level, logger.format⟩).hist = hist at this ⊢
    by_cases hjN : j ≤ N
    · simp only [hjN, if_true] at this
      have h2 : (s.2.fs.names (backup_path base j)).isSome = (hist[j - 1]?).isSome := by
        rw [← this]; simp
      rw [h2]
      simp only [le_min_iff, hjN, true_and]
      rw [Option.isSome_iff_exists]
      constructor
      · rintro ⟨x, hx⟩
        have := (List.getElem?_eq_some_iff.1 hx).1
        omega
      · intro hl
        exact ⟨hist[j - 1], List.getElem?_eq_getElem (by omega)⟩
    · simp only [hjN, if_false, Option.map_eq_none'] at this
      simp [this, hjN]

theorem oneFileFS_wf (path c : List Nat) : (oneFileFS path c).wf := by
  refine ⟨?_, ?_⟩
  · intro p q i hp hq
    simp only [oneFileFS] at hp hq
    by_cases h1 : p = path
    · by_cases h2 : q = path
      · rw [h1, h2]
      · simp [h2] at hq
    · simp [h1] at hp
  · intro p i hp
    simp only [oneFileFS] at hp ⊢
    by_cases h1 : p = path
    · simp only [h1, if_true, Option.some.injEq] at hp
      omega
    · simp [h1] at hp

/-- Witness of `size_rotation_keeps_window`: `max_files = 2`, a threshold of
one byte and four records give three rotations; `a.1` and `a.2` hold the third
and the second record, `a.3` does not exist and `a` holds the fourth record. -/
theorem size_rotation_keeps_window_witness :
    ∃ s, run fourRecords (oneSinkLogger (sink0 (ascii "a") .SIZE 1 2 0),
          { fs := oneFileFS (ascii "a") [], out := [] }) = some s
      ∧ s.2.fs.content (ascii "a") = some (infoLine "r4")
      ∧ s.2.fs.content (ascii "a.1") = some (infoLine "r3")
      ∧ s.2.fs.content (ascii "a.2") = some (infoLine "r2")
      ∧ s.2.fs.content (ascii "a.3") = none := by
  obtain ⟨s, hs, hc, hb, _⟩ :=
    size_rotation_keeps_window (ascii "a") 2 fourRecords
      (oneSinkLogger (sink0 (ascii "a") .SIZE 1 2 0))
      { fs := oneFileFS (ascii "a") [], out := [] } (sink0 (ascii "a") .SIZE 1 2 0) 0
      (by decide) (by decide) (by decide) rfl rfl rfl rfl rfl rfl (oneFileFS_wf _ _)
      (fun j _ => by simp [oneFileFS, backup_path_ne_base])
  refine ⟨s, hs, ?_, ?_, ?_, ?_⟩
  · rw [hc]; decide
  · have := hb 1 (by decide)
    rw [show backup_path (ascii "a") 1 = ascii "a.1" by decide] at this
    rw [this]; decide
  · have := hb 2 (by decide)
    rw [show backup_path (ascii "a") 2 = ascii "a.2" by decide] at this
    rw [this]; decide
  · have := hb 3 (by decide)
    rw [show backup_path (ascii "a") 3 = ascii "a.3" by decide] at this
    rw [this]; decide

/-! ## Rotation without bound on the number of backups -/

/-- With `max_files <= 0` the loop of `rotate_files` starts at 99: the file
named `base.99` takes the name `base.100`, and the file that had this name
before has no name at all afterwards. -/
theorem rotate_files_unbounded_overwrites (base : List Nat) (max_files : Int) (fs : FS)
    (x y : Nat) (hmf : max_files ≤ 0) (hfit : (backup_path base 100).length ≤ 1023)
    (hwf : fs.wf) (h99 : fs.names (backup_path base 99) = some x)
    (h100 : fs.names (backup_path base 100) = some y) :
    (rotate_files base max_files fs).names (backup_path base 100) = some x
    ∧ ∀ p, (rotate_files base max_files fs).names p ≠ some y := by
  have hpos : ¬ max_files > 0 := by omega
  have hfit99 : (backup_path base 99).length ≤ 1023 :=
    le_trans (backup_path_length_mono base 99 100 (by omega)) hfit
  have hfit1 : (backup_path base 1).length ≤ 1023 :=
    le_trans (backup_path_length_mono base 1 100 (by omega)) hfit
  have hp1 := dot_one_path_eq base hfit1
  have hne : backup_path base 99 ≠ backup_path base 100 := by
    intro h
    have := backup_path_injective base _ _ h
    omega
  have hq99 : numbered_path base ((98 + 1 : Nat) : Int) = backup_path base 99 :=
    numbered_path_eq base 99 hfit99
  have hq100 : numbered_path base (((98 + 1 : Nat) : Int) + 1) = backup_path base 100 :=
    numbered_path_eq base 100 hfit
  unfold rotate_files
  simp only [hpos, if_false, hp1]
  have h99n : (99 : Int).toNat = 98 + 1 := by decide
  rw [h99n, rotate_loop, hq99, hq100]
  set fs1 := rename (backup_path base 99) (backup_path base 100) fs with hfs1
  have hrn1 := rename_names (backup_path base 99) (backup_path base 100) fs hwf hne
  have hwf1 : fs1.wf := rename_wf _ _ fs hwf
  have hfree : fs1.names (backup_path base (98 + 1)) = none := by
    rw [hfs1, hrn1]; simp [h99, hne]
  obtain ⟨l1, l2, l3⟩ := rotate_loop_names base 98 fs1 hwf1 hfit99 hfree
  have hwf2 := rotate_loop_wf base 98 fs1 hwf1
  set fs2 := rotate_loop base 98 fs1 with hfs2
  have hb1 : base ≠ backup_path base 1 := fun h => backup_path_ne_base base 1 h.symm
  have hrn := rename_names base (backup_path base 1) fs2 hwf2 hb1
  have hy : ∀ p, fs.names p = some y → p = backup_path base 100 :=
    fun p hp => hwf.1 p _ y hp h100
  have hxy : x ≠ y := by
    intro e
    rw [e] at h99
    exact hne (hy _ h99)
  -- no name of the directory after the loop leads to `y`
  have h2 : ∀ p, fs2.names p ≠ some y := by
    intro p hp
    by_cases hex : ∃ j, 1 ≤ j ∧ j ≤ 98 + 1 ∧ p = backup_path base j
    · obtain ⟨j, hj1, hj2, rfl⟩ := hex
      by_cases hj : j = 1
      · subst hj; rw [l2] at hp; simp at hp
      · obtain ⟨k, rfl⟩ : ∃ k, j = k + 1 := ⟨j - 1, by omega⟩
        rw [l1 k (by omega) (by omega), hfs1, hrn1] at hp
        have hk1 : backup_path base k ≠ backup_path base 100 := by
          intro h
          have := backup_path_injective base _ _ h
          omega
        have hk2 : backup_path base k ≠ backup_path base 99 := by
          intro h
          have := backup_path_injective base _ _ h
          omega
        simp only [h99, reduceCtorEq, if_false, hk1, hk2] at hp
        exact hk1 (hy _ hp)
    · have hp' : ∀ j, 1 ≤ j → j ≤ 98 + 1 → p ≠ backup_path base j :=
        fun j h1 h2 e => hex ⟨j, h1, h2, e⟩
      rw [l3 p hp', hfs1, hrn1] at hp
      have hp99 : p ≠ backup_path base 99 := hp' 99 (by omega) (by omega)
      simp only [h99, reduceCtorEq, if_false, hp99] at hp
      by_cases hp100 : p = backup_path base 100
      · simp only [hp100, if_true, Option.some.injEq] at hp
        exact hxy hp
      · simp only [hp100, if_false] at hp
        exact hp100 (hy _ hp)
  refine ⟨?_, ?_⟩
  · rw [hrn]
    have hq1 : backup_path base 100 ≠ backup_path base 1 := by
      intro h
      have := backup_path_injective base _ _ h
      omega
    have hq2 : backup_path base 100 ≠ base := backup_path_ne_base base 100
    have hq3 : fs2.names (backup_path base 100) = some x := by
      rw [l3 (backup_path base 100), hfs1, hrn1]
      · simp [h99]
      · intro j h1 h2 h
        have := backup_path_injective base _ _ h
        omega
    simp only [hq1, hq2, if_false, hq3]
    split_ifs <;> rfl
  · intro p hp
    rw [hrn] at hp
    split_ifs at hp
    · exact h2 p hp
    · exact h2 base hp
    · exact h2 p hp

theorem backupsFS_wf : backupsFS.wf := by
  refine ⟨?_, ?_⟩
  · intro p q i hp hq
    simp only [backupsFS] at hp hq
    split_ifs at hp hq <;>
      first
      | (exfalso; simp only [Option.some.injEq, reduceCtorEq] at hp hq; omega)
      | simp_all
  · intro p i hp
    simp only [backupsFS] at hp ⊢
    split_ifs at hp <;> (simp only [Option.some.injEq] at hp; omega)

set_option maxRecDepth 100000 in
/-- C7 (the code misses it): a SIZE sink on `a` with `max_files = 0` whose
backups `a.99` and `a.100` exist is rotated: `a.100` then holds the former
content of `a.99`, no `a.101` exists, and the former content of `a.100` is in
no file any more. -/
theorem unbounded_rotation_loses_backup :
    backupsFS.content (ascii "a.100") = some (ascii "old100")
    ∧ need_rotate (sink0 (ascii "a") .SIZE 1 0 1) tm0 = true
    ∧ (check_and_rotate tm0 (sink0 (ascii "a") .SIZE 1 0 1) backupsFS).map
        (fun r => (r.2.content (ascii "a.100"), r.2.content (ascii "a.101"),
          r.2.content (ascii "a.1"), r.2.content (ascii "a")))
      = some (some (ascii "old99"), none, some (ascii "new"), some [])
    ∧ ∀ r, check_and_rotate tm0 (sink0 (ascii "a") .SIZE 1 0 1) backupsFS = some r →
        ∀ p, r.2.names p ≠ some 2 := by
  refine ⟨by decide, by decide, by decide, ?_⟩
  intro r hr p
  have hr2 : r = do_rotate tm0 (sink0 (ascii "a") .SIZE 1 0 1) backupsFS := by
    have : check_and_rotate tm0 (sink0 (ascii "a") .SIZE 1 0 1) backupsFS
        = some (do_rotate tm0 (sink0 (ascii "a") .SIZE 1 0 1) backupsFS) := rfl
    rw [this] at hr
    exact (Option.some.inj hr).symm
  obtain ⟨_, hall⟩ := rotate_files_unbounded_overwrites (ascii "a") 0 backupsFS 1 2 (by decide)
    (by decide) backupsFS_wf (by decide) (by decide)
  have hnb : (rotate_files (ascii "a") 0 backupsFS).names (ascii "a") = none := by decide
  have hop := fopen_missing (ascii "a") (rotate_files (ascii "a") 0 backupsFS) hnb
  have hnext : (rotate_files (ascii "a") 0 backupsFS).next = 3 := by decide
  rw [hr2]
  have hdo : (do_rotate tm0 (sink0 (ascii "a") .SIZE 1 0 1) backupsFS).2
      = (fopen (ascii "a") (rotate_files (ascii "a") 0 backupsFS)).2 := rfl
  rw [hdo, hop]
  split_ifs
  · simp only [hnext]
    split_ifs
    · simp
    · exact hall p
  · exact hall p

/-! ## JSON lines: unescaping and parsing -/

theorem hex4_low (c : Nat) (h : c < 32) :
    hex4 48 48 (digitChar (c / 16)) (digitChar (c % 16)) = some c := by
  interval_cases c <;> rfl

theorem json_string_body_cons_plain (c : Nat) (rest : List Nat) (h1 : c ≠ 34) (h2 : c ≠ 92)
    (h3 : 32 ≤ c) :
    json_string_body (c :: rest)
      = (json_string_body rest).map (fun r => (c :: r.1, r.2)) := by
  have h4 : ¬ c < 32 := by omega
  rw [json_string_body.eq_def]
  simp only [h1, h2, h4, if_false]
  cases json_string_body rest <;> rfl

theorem json_string_body_escape (e x : Nat) (rest : List Nat) (he : e ≠ 117)
    (hx : simple_escape e = some x) :
    json_string_body (92 :: e :: rest)
      = (json_string_body rest).map (fun r => (x :: r.1, r.2)) := by
  rw [json_string_body.eq_def]
  simp only [show (92 : Nat) ≠ 34 by decide, if_false, if_true, he, hx]
  cases json_string_body rest <;> rfl

theorem json_string_body_u (c : Nat) (rest : List Nat) (h : c < 32) :
    json_string_body (92 :: 117 :: 48 :: 48 :: digitChar (c / 16) :: digitChar (c % 16) :: rest)
      = (json_string_body rest).map (fun r => (c :: r.1, r.2)) := by
  rw [json_string_body.eq_def]
  have hu : utf8_encode c = some [c] := by
    have : c < 128 := by omega
    simp [utf8_encode, this]
  simp only [show (92 : Nat) ≠ 34 by decide, if_false, if_true, hex4_low c h, hu]
  cases json_string_body rest <;> rfl

/-- Unescaping what `write_json_string` wrote after the opening quote gives
back the string and stops right after the closing quote. -/
theorem json_string_body_write (s rest : List Nat) :
    json_string_body (write_json_chars s ++ 34 :: rest) = some (s, rest) := by
  induction s with
  | nil => rw [json_string_body.eq_def]; simp [write_json_chars]
  | cons c p ih =>
    simp only [write_json_chars, write_json_char_eq_spec, List.append_assoc]
    unfold json_escape_spec
    split_ifs with h1 h2 h3 h4 h5 h6
    · subst h1
      show json_string_body (92 :: 34 :: (write_json_chars p ++ 34 :: rest)) = _
      rw [json_string_body_escape 34 34 _ (by decide) (by decide), ih]; rfl
    · subst h2
      show json_string_body (92 :: 92 :: (write_json_chars p ++ 34 :: rest)) = _
      rw [json_string_body_escape 92 92 _ (by decide) (by decide), ih]; rfl
    · subst h3
      show json_string_body (92 :: 110 :: (write_json_chars p ++ 34 :: rest)) = _
      rw [json_string_body_escape 110 10 _ (by decide) (by decide), ih]; rfl
    · subst h4
      show json_string_body (92 :: 114 :: (write_json_chars p ++ 34 :: rest)) = _
      rw [json_string_body_escape 114 13 _ (by decide) (by decide), ih]; rfl
    · subst h5
      show json_string_body (92 :: 116 :: (write_json_chars p ++ 34 :: rest)) = _
      rw [json_string_body_escape 116 9 _ (by decide) (by decide), ih]; rfl
    · show json_string_body (92 :: 117 :: 48 :: 48 :: digitChar (c / 16) :: digitChar (c % 16)
        :: (write_json_chars p ++ 34 :: rest)) = _
      rw [json_string_body_u c _ h6, ih]; rfl
    · show json_string_body (c :: (write_json_chars p ++ 34 :: rest)) = _
      rw [json_string_body_cons_plain c _ h1 h2 (by omega), ih]; rfl

theorem json_unescape_write (s : List Nat) : json_unescape (write_json_chars s) = some s := by
  unfold json_unescape
  rw [json_string_body_write]

/-- A byte that needs no escape. -/
theorem write_json_chars_plain (s : List Nat) (h : ∀ b ∈ s, 32 ≤ b ∧ b ≠ 34 ∧ b ≠ 92) :
    write_json_chars s = s := by
  induction s with
  | nil => rfl
  | cons c p ih =>
    have hc := h c (List.mem_cons_self _ _)
    have hp := ih (fun b hb => h b (List.mem_cons_of_mem _ hb))
    have h1 : c ≠ 10 := by omega
    have h2 : c ≠ 13 := by omega
    have h3 : c ≠ 9 := by omega
    have h4 : ¬ c < 32 := by omega
    simp [write_json_chars, write_json_char, hc.2.1, hc.2.2, h1, h2, h3, h4, hp]

theorem natDigits_dec_range (f : Nat) :
    ∀ n, ∀ b ∈ natDigits 10 f n, 48 ≤ b ∧ b ≤ 57 := by
  induction f with
  | zero => intro n b hb; simp [natDigits] at hb
  | succ f ih =>
    intro n b hb
    rw [natDigits] at hb
    split_ifs at hb with hlt
    · simp only [List.mem_singleton] at hb
      subst hb
      simp only [digitChar, hlt, if_true]
      omega
    · simp only [List.mem_append, List.mem_singleton] at hb
      rcases hb with hb | hb
      · exact ih _ b hb
      · subst hb
        have : n % 10 < 10 := Nat.mod_lt _ (by omega)
        simp only [digitChar, this, if_true]
        omega

theorem fmt_d_range (w : Nat) (n : Int) : ∀ b ∈ fmt_d w n, b = 45 ∨ (48 ≤ b ∧ b ≤ 57) := by
  intro b hb
  unfold fmt_d zero_pad fmt_u at hb
  split_ifs at hb
  · simp only [List.mem_cons, List.mem_append, List.mem_replicate] at hb
    rcases hb with hb | hb | hb
    · exact Or.inl hb
    · right; omega
    · exact Or.inr (natDigits_dec_range _ _ b hb)
  · simp only [List.mem_append, List.mem_replicate] at hb
    rcases hb with hb | hb
    · right; omega
    · exact Or.inr (natDigits_dec_range _ _ b hb)

theorem timestamp_range (now : tm) :
    ∀ b ∈ timestamp now, b = 45 ∨ b = 84 ∨ (48 ≤ b ∧ b ≤ 58) := by
  intro b hb
  unfold timestamp at hb
  simp only [List.mem_append, List.mem_singleton] at hb
  have key : ∀ w n, b ∈ fmt_d w n → b = 45 ∨ b = 84 ∨ (48 ≤ b ∧ b ≤ 58) := by
    intro w n h
    rcases fmt_d_range w n b h with h | h
    · exact Or.inl h
    · right; right; omega
  rcases hb with ((((((((((h | h) | h) | h) | h) | h) | h) | h) | h) | h) | h)
  all_goals first | exact key _ _ h | (subst h; simp)

theorem write_json_string_timestamp (now : tm) :
    write_json_string (timestamp now) = [34] ++ timestamp now ++ [34] := by
  unfold write_json_string
  rw [write_json_chars_plain]
  intro b hb
  rcases timestamp_range now b hb with h | h | h <;> omega

theorem write_json_string_level (level : qdlog_level_t) :
    write_json_string (level_names_lower level) = [34] ++ level_names_lower level ++ [34] := by
  cases level <;> rfl

theorem json_head_time_eq (now : tm) :
    json_head_time now
      = 123 :: (write_json_string (ascii "time") ++ 58 :: (write_json_string (timestamp now)
          ++ [44])) := by
  rw [write_json_string_timestamp]
  simp [json_head_time, ascii, write_json_string, write_json_chars, write_json_char]

theorem json_head_level_eq (level : qdlog_level_t) :
    json_head_level level
      = write_json_string (ascii "level") ++ 58 :: (write_json_string (level_names_lower level)
          ++ 44 :: (write_json_string (ascii "msg") ++ [58])) := by
  rw [write_json_string_level]
  simp [json_head_level, ascii, write_json_string, write_json_chars, write_json_char]

theorem parse_members_cons (fuel : Nat) (k v rest : List Nat) :
    parse_members (fuel + 1) (write_json_string k ++ 58 :: (write_json_string v ++ 44 :: rest))
      = (parse_members fuel rest).map (fun r => ((k, v) :: r.1, r.2)) := by
  have h1 : write_json_string k ++ 58 :: (write_json_string v ++ 44 :: rest)
      = 34 :: (write_json_chars k ++ 34 :: 58 :: 34 :: (write_json_chars v ++ 34 :: 44 :: rest)) := by
    simp [write_json_string]
  rw [h1, parse_members.eq_def]
  simp only [json_string_body_write]
  cases parse_members fuel rest <;> rfl

theorem parse_members_last (fuel : Nat) (k v rest : List Nat) :
    parse_members (fuel + 1) (write_json_string k ++ 58 :: (write_json_string v ++ 125 :: rest))
      = some ([(k, v)], rest) := by
  have h1 : write_json_string k ++ 58 :: (write_json_string v ++ 125 :: rest)
      = 34 :: (write_json_chars k ++ 34 :: 58 :: 34 :: (write_json_chars v ++ 34 :: 125 :: rest)) := by
    simp [write_json_string]
  rw [h1, parse_members.eq_def]
  simp only [json_string_body_write]

theorem parse_members_pairs (pairs : List (Option (List Nat) × Option (List Nat))) :
    ∀ (k v : List Nat) (fuel : Nat), (present_pairs pairs).length < fuel →
      parse_members fuel (write_json_string k ++ 58 :: (write_json_string v
          ++ (json_pairs pairs ++ [125, 10])))
        = some ((k, v) :: present_pairs pairs, [10]) := by
  induction pairs with
  | nil =>
    intro k v fuel hf
    obtain ⟨g, rfl⟩ : ∃ g, fuel = g + 1 := ⟨fuel - 1, by simp [present_pairs] at hf; omega⟩
    simp only [json_pairs, List.nil_append, present_pairs]
    exact parse_members_last g k v [10]
  | cons p rest ih =>
    intro k v fuel hf
    obtain ⟨pk, pv⟩ := p
    cases pk with
    | none => simpa [json_pairs, present_pairs] using ih k v fuel (by simpa [present_pairs] using hf)
    | some k1 =>
      cases pv with
      | none =>
        simpa [json_pairs, present_pairs] using ih k v fuel (by simpa [present_pairs] using hf)
      | some v1 =>
        simp only [present_pairs, List.length_cons] at hf
        obtain ⟨g, rfl⟩ : ∃ g, fuel = g + 1 := ⟨fuel - 1, by omega⟩
        have h1 : write_json_string k ++ 58 :: (write_json_string v
            ++ (json_pairs ((some k1, some v1) :: rest) ++ [125, 10]))
            = write_json_string k ++ 58 :: (write_json_string v ++ 44 ::
                (write_json_string k1 ++ 58 :: (write_json_string v1
                  ++ (json_pairs rest ++ [125, 10])))) := by
          simp [json_pairs]
        rw [h1, parse_members_cons, ih k1 v1 g (by omega)]
        rfl

theorem json_pairs_length (pairs : List (Option (List Nat) × Option (List Nat))) :
    (present_pairs pairs).length ≤ (json_pairs pairs).length := by
  induction pairs with
  | nil => simp [present_pairs, json_pairs]
  | cons p rest ih =>
    obtain ⟨pk, pv⟩ := p
    cases pk with
    | none => simpa [json_pairs, present_pairs] using ih
    | some k1 =>
      cases pv with
      | none => simpa [json_pairs, present_pairs] using ih
      | some v1 =>
        simp only [present_pairs, json_pairs, List.length_cons, List.length_append]
        omega

/-- The line of the JSON branch of `write_log_entry`, member by member. -/
theorem json_line_eq (now : tm) (level : qdlog_level_t) (msg : List Nat)
    (pairs : List (Option (List Nat) × Option (List Nat))) :
    (write_log_entry now .JSON level msg pairs).1
      = 123 :: (write_json_string (ascii "time") ++ 58 :: (write_json_string (timestamp now)
          ++ 44 :: (write_json_string (ascii "level") ++ 58 ::
            (write_json_string (level_names_lower level) ++ 44 ::
              (write_json_string (ascii "msg") ++ 58 :: (write_json_string msg
                ++ (json_pairs pairs ++ [125, 10]))))))) := by
  simp only [write_log_entry, json_head_time_eq, json_head_level_eq]
  simp [ascii]

/-- Parsing the JSON line gives the members `time`, `level`, `msg` and the
pairs that have a key and a value, in this order, with the original
strings. -/
theorem parse_json_line_write (now : tm) (level : qdlog_level_t) (msg : List Nat)
    (pairs : List (Option (List Nat) × Option (List Nat))) :
    parse_json_line (write_log_entry now .JSON level msg pairs).1
      = some ((ascii "time", timestamp now) :: (ascii "level", level_names_lower level)
          :: (ascii "msg", msg) :: present_pairs pairs) := by
  rw [json_line_eq]
  simp only [parse_json_line]
  have hlen := json_pairs_length pairs
  generalize hfuel : (write_json_string (ascii "time") ++ 58 :: (write_json_string (timestamp now)
          ++ 44 :: (write_json_string (ascii "level") ++ 58 ::
            (write_json_string (level_names_lower level) ++ 44 ::
              (write_json_string (ascii "msg") ++ 58 :: (write_json_string msg
                ++ (json_pairs pairs ++ [125, 10]))))))).length = fuel
  have hf : (present_pairs pairs).length + 3 ≤ fuel := by
    rw [← hfuel]
    simp only [List.length_append, List.length_cons, write_json_string, List.length_nil]
    omega
  obtain ⟨g, rfl⟩ : ∃ g, fuel = g + 2 + 1 := ⟨fuel - 3, by omega⟩
  rw [parse_members_cons, parse_members_cons, parse_members_pairs pairs _ _ (g + 1) (by omega)]
  rfl

/-! ## UTF-8 well-formedness of the JSON line -/

theorem utf8_step_lo (st : Option (Nat × Nat × Nat)) (b n lo hi : Nat)
    (h : utf8_step st b = some (n, lo, hi)) : 128 ≤ lo := by
  unfold utf8_step at h
  split at h
  · simp at h
  · split_ifs at h <;> simp only [Option.some.injEq, Prod.mk.injEq, reduceCtorEq] at h <;> omega
  · split_ifs at h
    simp only [Option.some.injEq, Prod.mk.injEq] at h
    omega

theorem utf8_step_ascii (st : Option (Nat × Nat × Nat)) (b : Nat) (hb : b < 128)
    (hst : ∀ n lo hi, st = some (n, lo, hi) → 128 ≤ lo) :
    utf8_step st b = if st = some (0, 128, 191) then some (0, 128, 191)
      else match st with
        | some (0, _, _) => some (0, 128, 191)
        | _ => none := by
  unfold utf8_step
  split
  · simp
  · simp [hb]
  · rename_i n lo hi
    have := hst _ _ _ rfl
    have h2 : ¬ (lo ≤ b ∧ b ≤ hi) := by omega
    simp [h2]

theorem utf8_ascii_start (l : List Nat) (h : ∀ b ∈ l, b < 128) :
    l.foldl utf8_step (some (0, 128, 191)) = some (0, 128, 191) := by
  induction l with
  | nil => rfl
  | cons c p ih =>
    have hc := h c (List.mem_cons_self _ _)
    simp only [List.foldl_cons]
    have : utf8_step (some (0, 128, 191)) c = some (0, 128, 191) := by
      simp [utf8_step, hc]
    rw [this]
    exact ih (fun b hb => h b (List.mem_cons_of_mem _ hb))

theorem utf8_none (l : List Nat) : l.foldl utf8_step none = none := by
  induction l with
  | nil => rfl
  | cons c p ih => simpa [utf8_step] using ih

/-- An ASCII byte and a non-empty run of ASCII bytes move the recogniser to
the same state. -/
theorem utf8_ascii_run (st : Option (Nat × Nat × Nat)) (c : Nat) (l : List Nat)
    (hc : c < 128) (hl : ∀ b ∈ l, b < 128) (hne : l ≠ [])
    (hst : ∀ n lo hi, st = some (n, lo, hi) → 128 ≤ lo) :
    l.foldl utf8_step st = utf8_step st c := by
  obtain ⟨d, p, rfl⟩ : ∃ d p, l = d :: p := by
    cases l with
    | nil => exact absurd rfl hne
    | cons d p => exact ⟨d, p, rfl⟩
  have hd := hl d (List.mem_cons_self _ _)
  have hp : ∀ b ∈ p, b < 128 := fun b hb => hl b (List.mem_cons_of_mem _ hb)
  simp only [List.foldl_cons]
  rw [utf8_step_ascii st d hd hst, utf8_step_ascii st c hc hst]
  split_ifs
  · exact utf8_ascii_start p hp
  · split
    · exact utf8_ascii_start p hp
    · exact utf8_none p

theorem write_json_char_ascii (c : Nat) (hc : c < 128) :
    (∀ b ∈ write_json_char c, b < 128) ∧ write_json_char c ≠ [] := by
  rw [write_json_char_eq_spec]
  unfold json_escape_spec
  have h1 : digitChar (c / 16) < 128 := by unfold digitChar; split_ifs <;> omega
  have h2 : digitChar (c % 16) < 128 := by unfold digitChar; split_ifs <;> omega
  split_ifs <;> refine ⟨?_, by simp [ascii]⟩ <;> intro b hb <;> simp [ascii] at hb <;> omega

theorem utf8_write_json_char (st : Option (Nat × Nat × Nat)) (c : Nat)
    (hst : ∀ n lo hi, st = some (n, lo, hi) → 128 ≤ lo) :
    (write_json_char c).foldl utf8_step st = utf8_step st c := by
  by_cases hc : c < 128
  · obtain ⟨h1, h2⟩ := write_json_char_ascii c hc
    exact utf8_ascii_run st c _ hc h1 h2 hst
  · have : write_json_char c = [c] := by
      unfold write_json_char
      have e1 : c ≠ 34 := by omega
      have e2 : c ≠ 92 := by omega
      have e3 : c ≠ 10 := by omega
      have e4 : c ≠ 13 := by omega
      have e5 : c ≠ 9 := by omega
      have e6 : ¬ c < 32 := by omega
      simp [e1, e2, e3, e4, e5, e6]
    rw [this]; rfl

theorem utf8_write_json_chars (s : List Nat) :
    ∀ st : Option (Nat × Nat × Nat), (∀ n lo hi, st = some (n, lo, hi) → 128 ≤ lo) →
      (write_json_chars s).foldl utf8_step st = s.foldl utf8_step st := by
  induction s with
  | nil => intro st _; rfl
  | cons c p ih =>
    intro st hst
    simp only [write_json_chars, List.foldl_append, List.foldl_cons]
    rw [utf8_write_json_char st c hst]
    exact ih _ (fun n lo hi h => utf8_step_lo st c n lo hi h)

theorem utf8_write_json_string (s : List Nat) (h : validUTF8 s = true) :
    (write_json_string s).foldl utf8_step (some (0, 128, 191)) = some (0, 128, 191) := by
  simp only [validUTF8, decide_eq_true_eq] at h
  simp only [write_json_string, List.foldl_append, List.foldl_cons, List.foldl_nil]
  have h34 : utf8_step (some (0, 128, 191)) 34 = some (0, 128, 191) := rfl
  rw [h34, utf8_write_json_chars s _ (by intro n lo hi e; simp at e; omega), h, h34]

theorem utf8_json_pairs (pairs : List (Option (List Nat) × Option (List Nat)))
    (h : ∀ p ∈ present_pairs pairs, validUTF8 p.1 = true ∧ validUTF8 p.2 = true) :
    (json_pairs pairs).foldl utf8_step (some (0, 128, 191)) = some (0, 128, 191) := by
  induction pairs with
  | nil => rfl
  | cons p rest ih =>
    obtain ⟨pk, pv⟩ := p
    cases pk with
    | none => exact ih (by simpa [present_pairs] using h)
    | some k =>
      cases pv with
      | none => exact ih (by simpa [present_pairs] using h)
      | some v =>
        have hk := h (k, v) (by simp [present_pairs])
        have hr := ih (fun q hq => h q (by simp [present_pairs, hq]))
        simp only [json_pairs, List.foldl_append, List.foldl_cons, List.foldl_nil]
        have h44 : utf8_step (some (0, 128, 191)) 44 = some (0, 128, 191) := rfl
        have h58 : utf8_step (some (0, 128, 191)) 58 = some (0, 128, 191) := rfl
        rw [h44, utf8_write_json_string k hk.1, h58, utf8_write_json_string v hk.2, hr]

theorem utf8_json_line (now : tm) (level : qdlog_level_t) (msg : List Nat)
    (pairs : List (Option (List Nat) × Option (List Nat))) (hm : validUTF8 msg = true)
    (hp : ∀ p ∈ present_pairs pairs, validUTF8 p.1 = true ∧ validUTF8 p.2 = true) :
    validUTF8 (write_log_entry now .JSON level msg pairs).1 = true := by
  have ht : (json_head_time now).foldl utf8_step (some (0, 128, 191)) = some (0, 128, 191) := by
    apply utf8_ascii_start
    intro b hb
    simp only [json_head_time, List.mem_append] at hb
    rcases hb with (hb | hb) | hb
    · simp [ascii] at hb; omega
    · rcases timestamp_range now b hb with h | h | h <;> omega
    · simp [ascii] at hb; omega
  have hl : (json_head_level level).foldl utf8_step (some (0, 128, 191))
      = some (0, 128, 191) := by
    cases level <;> rfl
  simp only [validUTF8, decide_eq_true_eq, write_log_entry, List.foldl_append]
  rw [ht, hl, utf8_write_json_string msg hm, utf8_json_pairs pairs hp]
  rfl

theorem utf8_step_idle (st : Option (Nat × Nat × Nat)) (b lo hi : Nat)
    (h : utf8_step st b = some (0, lo, hi)) : lo = 128 ∧ hi = 191 := by
  unfold utf8_step at h
  split at h
  · simp at h
  · split_ifs at h <;> simp at h
    omega
  · split_ifs at h
    simp only [Option.some.injEq, Prod.mk.injEq] at h
    omega

theorem utf8_run_idle (s : List Nat) (lo hi : Nat)
    (h : s.foldl utf8_step (some (0, 128, 191)) = some (0, lo, hi)) : lo = 128 ∧ hi = 191 := by
  rcases List.eq_nil_or_concat s with rfl | ⟨p, c, rfl⟩
  · simp at h
    omega
  · simp only [List.concat_eq_append, List.foldl_append, List.foldl_cons, List.foldl_nil] at h
    exact utf8_step_idle _ c lo hi h

theorem utf8_run_lo (s : List Nat) (n lo hi : Nat)
    (h : s.foldl utf8_step (some (0, 128, 191)) = some (n, lo, hi)) : 128 ≤ lo := by
  rcases List.eq_nil_or_concat s with rfl | ⟨p, c, rfl⟩
  · simp at h
    omega
  · simp only [List.concat_eq_append, List.foldl_append, List.foldl_cons, List.foldl_nil] at h
    exact utf8_step_lo _ c n lo hi h

/-- A string written by `write_json_chars` and closed by a quote inside
well-formed UTF-8 is well-formed itself, and so is what follows. -/
theorem utf8_of_write_json_chars (s rest : List Nat)
    (h : (write_json_chars s ++ 34 :: rest).foldl utf8_step (some (0, 128, 191))
      = some (0, 128, 191)) :
    validUTF8 s = true ∧ rest.foldl utf8_step (some (0, 128, 191)) = some (0, 128, 191) := by
  simp only [List.foldl_append, List.foldl_cons] at h
  rw [utf8_write_json_chars s _ (by intro n lo hi e; simp at e; omega)] at h
  have hgood := utf8_run_lo s
  rw [utf8_step_ascii _ 34 (by decide) hgood] at h
  by_cases hst : s.foldl utf8_step (some (0, 128, 191)) = some (0, 128, 191)
  · simp only [hst, if_true] at h
    exact ⟨by simp [validUTF8, hst], h⟩
  · simp only [hst, if_false] at h
    exfalso
    cases hs : s.foldl utf8_step (some (0, 128, 191)) with
    | none => rw [hs] at h; simp only at h; rw [utf8_none] at h; simp at h
    | some t =>
      obtain ⟨n, lo, hi⟩ := t
      cases n with
      | zero =>
        obtain ⟨h1, h2⟩ := utf8_run_idle s lo hi hs
        subst h1; subst h2
        exact hst hs
      | succ m => rw [hs] at h; simp only at h; rw [utf8_none] at h; simp at h

theorem utf8_of_write_json_string (s rest : List Nat)
    (h : (write_json_string s ++ rest).foldl utf8_step (some (0, 128, 191))
      = some (0, 128, 191)) :
    validUTF8 s = true ∧ rest.foldl utf8_step (some (0, 128, 191)) = some (0, 128, 191) := by
  have e : write_json_string s ++ rest = 34 :: (write_json_chars s ++ 34 :: rest) := by
    simp [write_json_string]
  rw [e, List.foldl_cons] at h
  have h34 : utf8_step (some (0, 128, 191)) 34 = some (0, 128, 191) := rfl
  rw [h34] at h
  exact utf8_of_write_json_chars s rest h

theorem utf8_of_json_pairs (pairs : List (Option (List Nat) × Option (List Nat)))
    (rest : List Nat)
    (h : (json_pairs pairs ++ rest).foldl utf8_step (some (0, 128, 191)) = some (0, 128, 191)) :
    ∀ p ∈ present_pairs pairs, validUTF8 p.1 = true ∧ validUTF8 p.2 = true := by
  induction pairs with
  | nil => intro p hp; simp [present_pairs] at hp
  | cons q qs ih =>
    obtain ⟨pk, pv⟩ := q
    cases pk with
    | none => exact ih (by simpa [json_pairs] using h)
    | some k =>
      cases pv with
      | none => exact ih (by simpa [json_pairs] using h)
      | some v =>
        have e : json_pairs ((some k, some v) :: qs) ++ rest
            = 44 :: (write_json_string k ++ 58 :: (write_json_string v ++ (json_pairs qs ++ rest))) := by
          simp [json_pairs]
        rw [e, List.foldl_cons] at h
        have h44 : utf8_step (some (0, 128, 191)) 44 = some (0, 128, 191) := rfl
        have h58 : utf8_step (some (0, 128, 191)) 58 = some (0, 128, 191) := rfl
        rw [h44] at h
        obtain ⟨hk, h2⟩ := utf8_of_write_json_string k _ h
        rw [List.foldl_cons, h58] at h2
        obtain ⟨hv, h3⟩ := utf8_of_write_json_string v _ h2
        intro p hp
        simp only [present_pairs, List.mem_cons] at hp
        rcases hp with hp | hp
        · rw [hp]; exact ⟨hk, hv⟩
        · exact ih h3 p hp

/-- The JSON line is well-formed UTF-8 only if the message and the keys and
values written are. -/
theorem utf8_of_json_line (now : tm) (level : qdlog_level_t) (msg : List Nat)
    (pairs : List (Option (List Nat) × Option (List Nat)))
    (h : validUTF8 (write_log_entry now .JSON level msg pairs).1 = true) :
    validUTF8 msg = true
    ∧ ∀ p ∈ present_pairs pairs, validUTF8 p.1 = true ∧ validUTF8 p.2 = true := by
  have ht : (json_head_time now).foldl utf8_step (some (0, 128, 191)) = some (0, 128, 191) := by
    apply utf8_ascii_start
    intro b hb
    simp only [json_head_time, List.mem_append] at hb
    rcases hb with (hb | hb) | hb
    · simp [ascii] at hb; omega
    · rcases timestamp_range now b hb with h | h | h <;> omega
    · simp [ascii] at hb; omega
  have hl : (json_head_level level).foldl utf8_step (some (0, 128, 191))
      = some (0, 128, 191) := by
    cases level <;> rfl
  simp only [validUTF8, decide_eq_true_eq, write_log_entry, List.foldl_append] at h
  rw [ht, hl, ← List.foldl_append, ← List.foldl_append] at h
  obtain ⟨hm, h2⟩ := utf8_of_write_json_string msg _ h
  exact ⟨hm, utf8_of_json_pairs pairs _ h2⟩

/-- C3 (fails as stated): a message made of the single byte 0xFF gives a line
that has the shape of a JSON object but is not well-formed UTF-8, so it is
not a valid JSON text. -/
theorem json_line_invalid_utf8_counterexample :
    (parse_json_line (write_log_entry tm0 .JSON .INFO [255] []).1).isSome = true
    ∧ validUTF8 (write_log_entry tm0 .JSON .INFO [255] []).1 = false
    ∧ valid_json_line (write_log_entry tm0 .JSON .INFO [255] []).1 = false := by
  refine ⟨by decide, by decide, by decide⟩

/-- C3 (amended): for every message and every list of pairs, the line of the
JSON format parses, byte for byte, as one compact JSON object followed by a
newline, whose members are `time`, `level`, `msg` and every pair that has a key
and a value, in this order, and unescaping gives back the original message,
keys and values; unescaping after `write_json_string` is the identity.  The
line is a valid JSON text (well-formed UTF-8 as well) exactly when the message
and the keys and values written are well-formed UTF-8; bytes from 0x80 on are
passed through as they are. -/
theorem json_line_roundtrip (now : tm) (level : qdlog_level_t) (msg : List Nat)
    (pairs : List (Option (List Nat) × Option (List Nat))) :
    parse_json_line (write_log_entry now .JSON level msg pairs).1
      = some ((ascii "time", timestamp now) :: (ascii "level", level_names_lower level)
          :: (ascii "msg", msg) :: present_pairs pairs)
    ∧ (∀ s rest, json_string_body ((write_json_string s).tail ++ rest) = some (s, rest))
    ∧ (∀ s, json_unescape (write_json_chars s) = some s)
    ∧ (valid_json_line (write_log_entry now .JSON level msg pairs).1 = true ↔
        validUTF8 msg = true
          ∧ ∀ p ∈ present_pairs pairs, validUTF8 p.1 = true ∧ validUTF8 p.2 = true) := by
  refine ⟨parse_json_line_write now level msg pairs, ?_, json_unescape_write, ?_⟩
  · intro s rest
    have : (write_json_string s).tail ++ rest = write_json_chars s ++ 34 :: rest := by
      simp [write_json_string]
    rw [this, json_string_body_write]
  · simp only [valid_json_line, parse_json_line_write, Option.isSome_some, Bool.true_and]
    exact ⟨utf8_of_json_line now level msg pairs,
      fun h => utf8_json_line now level msg pairs h.1 h.2⟩

/-- Witness of `json_line_roundtrip`: the record "disk low" of the
specification with its two pairs is a valid JSON line. -/
theorem json_line_roundtrip_witness :
    parse_json_line (write_log_entry tm0 .JSON .WARN (ascii "disk low")
        [(some (ascii "disk"), some (ascii "/dev/sda1")), (some (ascii "pct"), some (ascii "95"))]).1
      = some [(ascii "time", ascii "1970-01-01T00:00:00"), (ascii "level", ascii "warn"),
          (ascii "msg", ascii "disk low"), (ascii "disk", ascii "/dev/sda1"),
          (ascii "pct", ascii "95")]
    ∧ valid_json_line (write_log_entry tm0 .JSON .WARN (ascii "disk low")
        [(some (ascii "disk"), some (ascii "/dev/sda1")), (some (ascii "pct"), some (ascii "95"))]).1
      = true :=
  ⟨(json_line_roundtrip tm0 .WARN (ascii "disk low")
      [(some (ascii "disk"), some (ascii "/dev/sda1")), (some (ascii "pct"), some (ascii "95"))]).1,
    (json_line_roundtrip tm0 .WARN (ascii "disk low")
      [(some (ascii "disk"), some (ascii "/dev/sda1")),
        (some (ascii "pct"), some (ascii "95"))]).2.2.2.2 ⟨by decide, by decide⟩⟩

/-! ## The rotation check returns when every sink has a stream -/

theorem check_and_rotate_total (now : tm) (f : qdlog_file_t) (fs : FS) (h : f.file ≠ none) :
    ∃ r, check_and_rotate now f fs = some r := by
  unfold check_and_rotate
  split_ifs
  · exact ⟨_, rfl⟩
  · cases hf : f.file with
    | none => exact absurd hf h
    | some i => exact ⟨_, rfl⟩
  · exact ⟨_, rfl⟩

theorem check_rotate_files_total (now : tm) (files : List qdlog_file_t) :
    ∀ fs : FS, (∀ f ∈ files, f.file ≠ none) → ∃ r, check_rotate_files now files fs = some r := by
  induction files with
  | nil => intro fs _; exact ⟨_, rfl⟩
  | cons f rest ih =>
    intro fs h
    obtain ⟨r1, h1⟩ := check_and_rotate_total now f fs (h f (List.mem_cons_self _ _))
    obtain ⟨r2, h2⟩ := ih r1.2 (fun g hg => h g (List.mem_cons_of_mem _ hg))
    exact ⟨(r1.1 :: r2.1, r2.2), by simp [check_rotate_files, h1, h2]⟩

/-- A logger whose sinks all have a stream gets through `qdlog_check_rotate`
and through `qdlog_log_kv`. -/
theorem qdlog_check_rotate_total (now : tm) (logger : qdlog_logger) (w : World)
    (level : qdlog_level_t) (message : Option (List Nat))
    (pairs : List (Option (List Nat) × Option (List Nat)))
    (h : ∀ f ∈ logger.files, f.file ≠ none) :
    (∃ r, qdlog_check_rotate now logger w.fs = some r)
    ∧ ∃ s, qdlog_log_kv now logger w level message pairs = some s := by
  obtain ⟨r, hr⟩ := check_rotate_files_total now logger.files w.fs h
  have h1 : qdlog_check_rotate now logger w.fs
      = some ({ logger with files := r.1 }, r.2) := by
    simp [qdlog_check_rotate, hr]
  refine ⟨⟨_, h1⟩, ?_⟩
  unfold qdlog_log_kv
  cases message with
  | none => exact ⟨_, rfl⟩
  | some msg =>
    simp only
    split_ifs
    · exact ⟨_, rfl⟩
    · rw [h1]; exact ⟨_, rfl⟩

/-! ## Layout of the TEXT line -/

theorem fmt_u_lt_10 (k : Nat) (h : k < 10) : fmt_u 10 k = [48 + k] := by
  rw [fmt_u_unfold 10 (by omega)]
  simp [h, digitChar]

theorem fmt_u_lt_100 (k : Nat) (h1 : 10 ≤ k) (h2 : k < 100) :
    fmt_u 10 k = [48 + k / 10, 48 + k % 10] := by
  rw [fmt_u_unfold 10 (by omega)]
  have : ¬ k < 10 := by omega
  have hm : k % 10 < 10 := Nat.mod_lt _ (by omega)
  simp only [this, if_false]
  rw [fmt_u_lt_10 (k / 10) (by omega)]
  simp [digitChar, hm]

theorem fmt_u_lt_1000 (k : Nat) (h1 : 100 ≤ k) (h2 : k < 1000) :
    fmt_u 10 k = [48 + k / 100, 48 + k / 10 % 10, 48 + k % 10] := by
  rw [fmt_u_unfold 10 (by omega)]
  have : ¬ k < 10 := by omega
  have hm : k % 10 < 10 := Nat.mod_lt _ (by omega)
  simp only [this, if_false]
  rw [fmt_u_lt_100 (k / 10) (by omega) (by omega)]
  have : k / 10 / 10 = k / 100 := by omega
  simp [digitChar, hm, this]

theorem fmt_u_lt_10000 (k : Nat) (h1 : 1000 ≤ k) (h2 : k < 10000) :
    fmt_u 10 k = [48 + k / 1000, 48 + k / 100 % 10, 48 + k / 10 % 10, 48 + k % 10] := by
  rw [fmt_u_unfold 10 (by omega)]
  have : ¬ k < 10 := by omega
  have hm : k % 10 < 10 := Nat.mod_lt _ (by omega)
  simp only [this, if_false]
  rw [fmt_u_lt_1000 (k / 10) (by omega) (by omega)]
  have e1 : k / 10 / 100 = k / 1000 := by omega
  have e2 : k / 10 / 10 = k / 100 := by omega
  simp [digitChar, hm, e1, e2]

theorem fmt_d_2_eq (n : Int) (h0 : 0 ≤ n) (h1 : n ≤ 99) : fmt_d 2 n = digits2 n := by
  have hn : ¬ n < 0 := by omega
  simp only [fmt_d, hn, if_false, digits2, zero_pad]
  by_cases h : n.toNat < 10
  · rw [fmt_u_lt_10 _ h]
    have : n.toNat / 10 = 0 := by omega
    have e : n.toNat % 10 = n.toNat := by omega
    simp [this, e, List.replicate]
  · rw [fmt_u_lt_100 _ (by omega) (by omega)]
    simp

theorem fmt_d_4_eq (n : Int) (h0 : 0 ≤ n) (h1 : n ≤ 9999) : fmt_d 4 n = digits4 n := by
  have hn : ¬ n < 0 := by omega
  simp only [fmt_d, hn, if_false, digits4, zero_pad]
  by_cases ha : n.toNat < 10
  · rw [fmt_u_lt_10 _ ha]
    have e1 : n.toNat / 1000 = 0 := by omega
    have e2 : n.toNat / 100 = 0 := by omega
    have e3 : n.toNat / 10 = 0 := by omega
    have e4 : n.toNat % 10 = n.toNat := by omega
    simp [e1, e2, e3, e4, List.replicate]
  · by_cases hb : n.toNat < 100
    · rw [fmt_u_lt_100 _ (by omega) hb]
      have e1 : n.toNat / 1000 = 0 := by omega
      have e2 : n.toNat / 100 = 0 := by omega
      have e3 : n.toNat / 10 % 10 = n.toNat / 10 := by omega
      simp [e1, e2, e3, List.replicate]
    · by_cases hc : n.toNat < 1000
      · rw [fmt_u_lt_1000 _ (by omega) hc]
        have e1 : n.toNat / 1000 = 0 := by omega
        have e2 : n.toNat / 100 % 10 = n.toNat / 100 := by omega
        simp [e1, e2, List.replicate]
      · rw [fmt_u_lt_10000 _ (by omega) (by omega)]
        simp

theorem timestamp_eq_spec (now : tm) (h : now.calendar) : timestamp now = timestamp_spec now := by
  obtain ⟨s0, s1, m0, m1, h0, h1, d0, d1, o0, o1, y0, y1, _, _⟩ := h
  unfold timestamp timestamp_spec
  rw [fmt_d_4_eq _ y0 y1, fmt_d_2_eq _ (by omega) (by omega), fmt_d_2_eq _ (by omega) (by omega),
    fmt_d_2_eq _ h0 (by omega), fmt_d_2_eq _ m0 (by omega), fmt_d_2_eq _ s0 (by omega)]
  rfl

theorem text_pairs_eq (pairs : List (Option (List Nat) × Option (List Nat))) :
    text_pairs pairs = ((present_pairs pairs).map text_pair).flatten := by
  induction pairs with
  | nil => rfl
  | cons p rest ih =>
    obtain ⟨pk, pv⟩ := p
    cases pk with
    | none => simpa [text_pairs, present_pairs] using ih
    | some k =>
      cases pv with
      | none => simpa [text_pairs, present_pairs] using ih
      | some v => simp [text_pairs, present_pairs, text_pair, ascii, ih]

theorem present_pairs_some (pairs : List (List Nat × List Nat)) :
    present_pairs (pairs.map (fun p => (some p.1, some p.2))) = pairs := by
  induction pairs with
  | nil => rfl
  | cons p rest ih => simp [present_pairs, ih]

/-- C11: at a calendar time, for every level, message and list of key/value
pairs, the TEXT rendering is the timestamp `YYYY-MM-DDTHH:MM:SS` of 19
zero-padded characters, a space, `[`, the upper-case level name in a field of
exactly 5 characters, `]`, a space, the message as it is, then for every pair
in input order a space and `key=value` as they are, then one newline. -/
theorem text_line_layout (now : tm) (level : qdlog_level_t) (msg : List Nat)
    (pairs : List (List Nat × List Nat)) (hcal : now.calendar) :
    (write_log_entry now .TEXT level msg (pairs.map (fun p => (some p.1, some p.2)))).1
      = text_line_spec now level msg pairs
    ∧ (timestamp_spec now).length = 19
    ∧ (level_field level).length = 5
    ∧ level_field level = fmt_left_s 5 (level_names level)
    ∧ (∀ b ∈ timestamp_spec now, b = 45 ∨ b = 84 ∨ (48 ≤ b ∧ b ≤ 58)) := by
  have hl : fmt_left_s 5 (level_names level) = level_field level := by
    cases level <;> rfl
  refine ⟨?_, by simp [timestamp_spec, digits4, digits2, ascii], by cases level <;> rfl,
    hl.symm, ?_⟩
  · simp only [write_log_entry, text_head, text_line_spec, text_pairs_eq, present_pairs_some,
      timestamp_eq_spec now hcal, hl]
  · rw [← timestamp_eq_spec now hcal]
    exact timestamp_range now

/-- Witness of `text_line_layout`: an INFO record with one pair at midnight of
1 January 1970. -/
theorem text_line_layout_witness :
    (write_log_entry tm0 .TEXT .INFO (ascii "hello")
        [(some (ascii "k"), some (ascii "v w"))]).1
      = ascii "1970-01-01T00:00:00 [INFO ] hello k=v w\n" := by
  have h := (text_line_layout tm0 .INFO (ascii "hello") [(ascii "k", ascii "v w")]
    (by unfold tm.calendar; decide)).1
  rw [show ([(ascii "k", ascii "v w")] : List (List Nat × List Nat)).map
      (fun p => (some p.1, some p.2)) = [(some (ascii "k"), some (ascii "v w"))] from rfl] at h
  rw [h]
  decide

/-! ## Layout of the JSON line -/

theorem json_pairs_eq (pairs : List (Option (List Nat) × Option (List Nat))) :
    json_pairs pairs = ((present_pairs pairs).map json_pair).flatten := by
  induction pairs with
  | nil => rfl
  | cons p rest ih =>
    obtain ⟨pk, pv⟩ := p
    cases pk with
    | none => simpa [json_pairs, present_pairs] using ih
    | some k =>
      cases pv with
      | none => simpa [json_pairs, present_pairs] using ih
      | some v => simp [json_pairs, present_pairs, json_pair, ascii, ih]

theorem level_names_lower_eq (level : qdlog_level_t) :
    level_names_lower level = (level_names level).map to_lower := by
  cases level <;> decide

/-- C12: for every level, message and list of key/value pairs, the JSON
rendering is the compact object with the keys `time`, `level` (the lower-case
level name) and `msg` in this order, then the pairs in call order, every key
and value being the escaped JSON string that `write_json_string` writes, closed
by a brace and one newline.  The record "disk low" of the specification at
level WARN gives the line of its scenario. -/
theorem json_line_layout (now : tm) (level : qdlog_level_t) (msg : List Nat)
    (pairs : List (List Nat × List Nat)) :
    (write_log_entry now .JSON level msg (pairs.map (fun p => (some p.1, some p.2)))).1
      = json_line_spec now level msg pairs
    ∧ json_line_spec now level msg pairs
      = ascii "\x7b" ++ write_json_string (ascii "time") ++ ascii ":"
          ++ write_json_string (timestamp now)
          ++ json_pair (ascii "level", (level_names level).map to_lower)
          ++ json_pair (ascii "msg", msg) ++ (pairs.map json_pair).flatten ++ ascii "\x7d\n"
    ∧ (write_log_entry tm0 .JSON .WARN (ascii "disk low")
        [(some (ascii "disk"), some (ascii "/dev/sda1")), (some (ascii "pct"), some (ascii "95"))]).1
      = ascii ("\x7b\"time\":\"1970-01-01T00:00:00\",\"level\":\"warn\",\"msg\":\"disk low\","
          ++ "\"disk\":\"/dev/sda1\",\"pct\":\"95\"\x7d\n") := by
  refine ⟨?_, ?_, by decide⟩
  · simp only [write_log_entry, json_head_time, json_head_level, json_line_spec, json_pairs_eq,
      present_pairs_some, level_names_lower_eq]
    simp [ascii]
  · simp only [json_line_spec, json_pair, write_json_string_timestamp,
      ← level_names_lower_eq, write_json_string_level]
    simp [ascii, write_json_string, write_json_chars, write_json_char]

/-! ## Pairs with a null key or value -/

theorem present_pairs_drop_null (pairs : List (Option (List Nat) × Option (List Nat))) :
    present_pairs (drop_null_pairs pairs) = present_pairs pairs := by
  induction pairs with
  | nil => rfl
  | cons p rest ih =>
    obtain ⟨pk, pv⟩ := p
    cases pk with
    | none => simpa [drop_null_pairs, present_pairs] using ih
    | some k =>
      cases pv with
      | none => simpa [drop_null_pairs, present_pairs] using ih
      | some v =>
        simp only [drop_null_pairs, present_pairs] at ih ⊢
        simp [List.filter_cons, present_pairs, ih]

theorem write_log_entry_drop_null (now : tm) (format : qdlog_format_t) (level : qdlog_level_t)
    (msg : List Nat) (pairs : List (Option (List Nat) × Option (List Nat))) :
    write_log_entry now format level msg (drop_null_pairs pairs)
      = write_log_entry now format level msg pairs := by
  cases format with
  | TEXT => simp only [write_log_entry, text_pairs_eq, present_pairs_drop_null]
  | JSON => simp only [write_log_entry, json_pairs_eq, present_pairs_drop_null]

theorem write_files_congr (now : tm) (format : qdlog_format_t) (level : qdlog_level_t)
    (msg : List Nat) (pairs pairs1 : List (Option (List Nat) × Option (List Nat)))
    (h : write_log_entry now format level msg pairs1 = write_log_entry now format level msg pairs)
    (files : List qdlog_file_t) :
    ∀ fs, write_files now format level msg pairs1 files fs
      = write_files now format level msg pairs files fs := by
  induction files with
  | nil => intro fs; rfl
  | cons f rest ih =>
    intro fs
    simp only [write_files, h, ih]

/-- C13: in TEXT and in JSON format the rendered line and the returned count
are those of the same pair list without the pairs that have a null key or a
null value (the other pairs in their order), and so is the whole effect of
`qdlog_log_kv`: the record is emitted all the same, with the same result. -/
theorem null_pairs_skipped (now : tm) (format : qdlog_format_t) (level : qdlog_level_t)
    (msg : List Nat) (pairs : List (Option (List Nat) × Option (List Nat)))
    (logger : qdlog_logger) (w : World) :
    write_log_entry now format level msg pairs
      = write_log_entry now format level msg (drop_null_pairs pairs)
    ∧ qdlog_log_kv now logger w level (some msg) pairs
      = qdlog_log_kv now logger w level (some msg) (drop_null_pairs pairs)
    ∧ (drop_null_pairs pairs).Sublist pairs
    ∧ (∀ p ∈ drop_null_pairs pairs, p.1.isSome = true ∧ p.2.isSome = true)
    ∧ (∀ p ∈ pairs, p.1.isSome = true → p.2.isSome = true → p ∈ drop_null_pairs pairs) := by
  refine ⟨(write_log_entry_drop_null now format level msg pairs).symm, ?_,
    List.filter_sublist _, ?_, ?_⟩
  · unfold qdlog_log_kv
    simp only
    split_ifs
    · rfl
    · cases hr : qdlog_check_rotate now logger w.fs with
      | none => rfl
      | some r =>
        obtain ⟨logger1, fs1⟩ := r
        simp only
        rw [write_log_entry_drop_null,
          write_files_congr now logger1.format level msg pairs (drop_null_pairs pairs)
            (write_log_entry_drop_null now logger1.format level msg pairs)]
  · intro p hp
    simpa [drop_null_pairs] using (List.mem_filter.1 hp).2
  · intro p hp h1 h2
    exact List.mem_filter.2 ⟨hp, by simp [h1, h2]⟩

/-! ## What the calls leave of a registered sink -/

theorem check_and_rotate_config (now : tm) (f f1 : qdlog_file_t) (fs fs1 : FS)
    (h : check_and_rotate now f fs = some (f1, fs1)) : sink_config f1 = sink_config f := by
  unfold check_and_rotate at h
  split_ifs at h with h1 h2
  · simp only [Option.some.injEq, Prod.mk.injEq] at h; rw [← h.1]
  · cases hf : f.file with
    | none => simp [hf] at h
    | some i =>
      simp only [hf, Option.some.injEq] at h
      have e : f1 = (do_rotate now f fs).1 := by rw [h]
      rw [e]; rfl
  · simp only [Option.some.injEq, Prod.mk.injEq] at h; rw [← h.1]

theorem check_rotate_files_config (now : tm) (files : List qdlog_file_t) :
    ∀ (fs : FS) (files1 : List qdlog_file_t) (fs1 : FS),
      check_rotate_files now files fs = some (files1, fs1) →
      files1.map sink_config = files.map sink_config := by
  induction files with
  | nil =>
    intro fs files1 fs1 h
    simp only [check_rotate_files, Option.some.injEq, Prod.mk.injEq] at h
    rw [← h.1]
  | cons f rest ih =>
    intro fs files1 fs1 h
    simp only [check_rotate_files] at h
    cases h1 : check_and_rotate now f fs with
    | none => simp [h1] at h
    | some r1 =>
      obtain ⟨f1, fsa⟩ := r1
      simp only [h1] at h
      cases h2 : check_rotate_files now rest fsa with
      | none => simp [h2] at h
      | some r2 =>
        obtain ⟨rest1, fsb⟩ := r2
        simp only [h2, Option.some.injEq, Prod.mk.injEq] at h
        rw [← h.1]
        simp [check_and_rotate_config now f f1 fs fsa h1, ih fsa rest1 fsb h2]

theorem write_files_config (now : tm) (format : qdlog_format_t) (level : qdlog_level_t)
    (msg : List Nat) (pairs : List (Option (List Nat) × Option (List Nat)))
    (files : List qdlog_file_t) (fs : FS) :
    (write_files now format level msg pairs files fs).1.map sink_config
      = files.map sink_config := by
  rw [write_files_sinks, List.map_map]
  apply List.map_congr_left
  intro f _
  simp only [Function.comp]
  split_ifs <;> rfl

theorem qdlog_log_kv_config (now : tm) (logger : qdlog_logger) (w : World)
    (level : qdlog_level_t) (message : Option (List Nat))
    (pairs : List (Option (List Nat) × Option (List Nat))) (s : qdlog_logger × World)
    (h : qdlog_log_kv now logger w level message pairs = some s) :
    s.1.files.map sink_config = logger.files.map sink_config := by
  unfold qdlog_log_kv at h
  cases message with
  | none => simp only [Option.some.injEq] at h; rw [← h]
  | some msg =>
    simp only at h
    split_ifs at h with hl
    · simp only [Option.some.injEq] at h; rw [← h]
    · cases h1 : qdlog_check_rotate now logger w.fs with
      | none => simp [h1] at h
      | some r =>
        obtain ⟨logger1, fsa⟩ := r
        simp only [h1, Option.some.injEq] at h
        rw [← h]
        simp only [write_files_config]
        unfold qdlog_check_rotate at h1
        cases h2 : check_rotate_files now logger.files w.fs with
        | none => simp [h2] at h1
        | some r2 =>
          obtain ⟨files1, fsb⟩ := r2
          simp only [h2, Option.some.injEq, Prod.mk.injEq] at h1
          rw [← h1.1]
          exact check_rotate_files_config now logger.files w.fs files1 fsb h2

theorem qdlog_add_file_rotate_config (now : tm) (strdup_ok : Bool) (logger : qdlog_logger)
    (fs : FS) (path : Option (List Nat)) (mode : qdlog_rotate_t) (max_size max_files : Int) :
    logger.files <+:
      (qdlog_add_file_rotate now strdup_ok logger fs path mode max_size max_files).2.1.files := by
  unfold qdlog_add_file_rotate
  cases path with
  | none => exact List.prefix_refl _
  | some p =>
    simp only
    by_cases hc : logger.file_count ≥ MAX_FILE_OUTPUTS
    · simp only [hc, if_true]; exact List.prefix_refl _
    · simp only [hc, if_false]
      generalize (if mode = .DAILY ∨ mode = .HOURLY then get_time_rotated_path 1024 p mode now
        else snprintf 1024 p) = ap
      rcases hfo : fopen ap fs with ⟨_ | file, fs1⟩
      · exact List.prefix_refl _
      · simp only
        cases strdup_ok
        · exact List.prefix_refl _
        · simp only [Bool.true_eq_false, if_false]
          exact List.prefix_append _ _

theorem step_config (op : Op) (s s1 : qdlog_logger × World) (h : op.step s = some s1) :
    s.1.files.map sink_config <+: s1.1.files.map sink_config := by
  cases op with
  | set_level level =>
    simp only [Op.step, Option.some.injEq] at h
    rw [← h]
    exact List.prefix_refl _
  | set_format format =>
    simp only [Op.step, Option.some.injEq] at h
    rw [← h]
    exact List.prefix_refl _
  | enable_stdout =>
    simp only [Op.step, Option.some.injEq] at h
    rw [← h]
    exact List.prefix_refl _
  | disable_stdout =>
    simp only [Op.step, Option.some.injEq] at h
    rw [← h]
    exact List.prefix_refl _
  | add_file now ok path =>
    simp only [Op.step, Option.some.injEq] at h
    rw [← h]
    exact List.IsPrefix.map _ (qdlog_add_file_rotate_config now ok s.1 s.2.fs path .NONE 0 0)
  | add_file_rotate now ok path mode max_size max_files =>
    simp only [Op.step, Option.some.injEq] at h
    rw [← h]
    exact List.IsPrefix.map _
      (qdlog_add_file_rotate_config now ok s.1 s.2.fs path mode max_size max_files)
  | log now level message =>
    simp only [Op.step, qdlog_log] at h
    rw [qdlog_log_kv_config now s.1 s.2 level message [] s1 h]
  | log_kv now level message pairs =>
    simp only [Op.step] at h
    rw [qdlog_log_kv_config now s.1 s.2 level message pairs s1 h]
  | flush =>
    simp only [Op.step, qdlog_flush, Option.some.injEq] at h
    rw [← h]
  | check_rotate now =>
    simp only [Op.step] at h
    cases h1 : qdlog_check_rotate now s.1 s.2.fs with
    | none => simp [h1] at h
    | some r =>
      obtain ⟨logger1, fsa⟩ := r
      simp only [h1, Option.some.injEq] at h
      rw [← h]
      unfold qdlog_check_rotate at h1
      cases h2 : check_rotate_files now s.1.files s.2.fs with
      | none => simp [h2] at h1
      | some r2 =>
        obtain ⟨files1, fsb⟩ := r2
        simp only [h2, Option.some.injEq, Prod.mk.injEq] at h1
        rw [← h1.1]
        simp only
        rw [check_rotate_files_config now s.1.files s.2.fs files1 fsb h2]

theorem run_config (ops : List Op) :
    ∀ s s1 : qdlog_logger × World, run ops s = some s1 →
      s.1.files.map sink_config <+: s1.1.files.map sink_config := by
  induction ops with
  | nil =>
    intro s s1 h
    simp only [run, Option.some.injEq] at h
    rw [← h]
  | cons op ops ih =>
    intro s s1 h
    simp only [run] at h
    cases h1 : op.step s with
    | none => simp [h1] at h
    | some s2 =>
      simp only [h1] at h
      exact (step_config op s s2 h1).trans (ih s2 s1 h)

/-- C18: after every sequence of calls (setters, log calls, rotation checks,
flushes, registrations) the sinks registered before are still there, at the
same places, with the base path, rotation mode, `max_size` and `max_files` they
had; the rotation block of `check_and_rotate` changes the stream,
`current_size` and the two stamps and nothing else. -/
theorem sink_config_immutable (ops : List Op) (s s1 : qdlog_logger × World)
    (h : run ops s = some s1) :
    s.1.files.map sink_config <+: s1.1.files.map sink_config
    ∧ (∀ (i : Nat) (f : qdlog_file_t), s.1.files[i]? = some f →
        ∃ f1, s1.1.files[i]? = some f1 ∧ f1.path = f.path ∧ f1.rotate_mode = f.rotate_mode
          ∧ f1.max_size = f.max_size ∧ f1.max_files = f.max_files)
    ∧ (∀ (now : tm) (f : qdlog_file_t) (fs : FS), (do_rotate now f fs).1
        = { f with file := (do_rotate now f fs).1.file
                   current_size := 0
                   last_rotate_day := now.tm_yday
                   last_rotate_hour := now.tm_hour }) := by
  have hp := run_config ops s s1 h
  refine ⟨hp, ?_, fun now f fs => rfl⟩
  intro i f hi
  obtain ⟨t, ht⟩ := hp
  have hlt : i < s.1.files.length := (List.getElem?_eq_some_iff.1 hi).1
  have h1 : (s1.1.files.map sink_config)[i]? = some (sink_config f) := by
    rw [← ht, List.getElem?_append_left (by simpa using hlt)]
    simp [hi]
  rw [List.getElem?_map] at h1
  cases hf1 : s1.1.files[i]? with
  | none => simp [hf1] at h1
  | some f1 =>
    simp only [hf1, Option.map_some', Option.some.injEq, sink_config, Prod.mk.injEq] at h1
    exact ⟨f1, rfl, h1.1, h1.2.1, h1.2.2.1, h1.2.2.2⟩

/-- Witness of `sink_config_immutable`: a DAILY sink is rotated by a check on
the next day and keeps its configuration. -/
theorem sink_config_immutable_witness :
    run [.check_rotate tm1] (dailyLogger, { fs := oneFileFS (ascii "a") [], out := [] })
      = some ({ dailyLogger with
                  files := [(do_rotate tm1 (sink0 (ascii "a") .DAILY 0 0 0)
                    (oneFileFS (ascii "a") [])).1] },
              { fs := (do_rotate tm1 (sink0 (ascii "a") .DAILY 0 0 0)
                  (oneFileFS (ascii "a") [])).2, out := [] })
    ∧ [sink_config (sink0 (ascii "a") .DAILY 0 0 0)]
        <+: [sink_config (do_rotate tm1 (sink0 (ascii "a") .DAILY 0 0 0)
              (oneFileFS (ascii "a") [])).1] :=
  ⟨rfl, (sink_config_immutable [.check_rotate tm1]
    (dailyLogger, { fs := oneFileFS (ascii "a") [], out := [] }) _ rfl).1⟩

/-! ## A SIZE sink without stream -/

theorem check_rotate_files_getElem (now : tm) (files : List qdlog_file_t) :
    ∀ (fs : FS) (files1 : List qdlog_file_t) (fs1 : FS) (i : Nat) (f : qdlog_file_t),
      check_rotate_files now files fs = some (files1, fs1) → files[i]? = some f →
      need_rotate f now = false → files1[i]? = some f := by
  induction files with
  | nil => intro fs files1 fs1 i f _ hi; simp at hi
  | cons g rest ih =>
    intro fs files1 fs1 i f h hi hn
    simp only [check_rotate_files] at h
    cases h1 : check_and_rotate now g fs with
    | none => simp [h1] at h
    | some r1 =>
      obtain ⟨g1, fsa⟩ := r1
      simp only [h1] at h
      cases h2 : check_rotate_files now rest fsa with
      | none => simp [h2] at h
      | some r2 =>
        obtain ⟨rest1, fsb⟩ := r2
        simp only [h2, Option.some.injEq, Prod.mk.injEq] at h
        rw [← h.1]
        cases i with
        | zero =>
          simp only [List.getElem?_cons_zero, Option.some.injEq] at hi ⊢
          subst hi
          rw [check_and_rotate_not_due now g fs hn] at h1
          simp only [Option.some.injEq, Prod.mk.injEq] at h1
          exact h1.1.symm
        | succ j =>
          simp only [List.getElem?_cons_succ] at hi ⊢
          exact ih fsa rest1 fsb j f h2 hi hn

theorem write_files_getElem (now : tm) (format : qdlog_format_t) (level : qdlog_level_t)
    (msg : List Nat) (pairs : List (Option (List Nat) × Option (List Nat)))
    (files : List qdlog_file_t) (fs : FS) (i : Nat) (f : qdlog_file_t)
    (hi : files[i]? = some f) (hf : f.file = none) :
    (write_files now format level msg pairs files fs).1[i]? = some f := by
  rw [write_files_sinks, List.getElem?_map, hi]
  simp [hf]

theorem degraded_size_not_due (f : qdlog_file_t) (now : tm) (hmode : f.rotate_mode = .SIZE)
    (hsize : f.current_size = 0) (hpos : 0 < f.max_size) : need_rotate f now = false := by
  simp only [need_rotate, hmode, hsize]
  simp only [decide_eq_false_iff_not]
  omega

theorem qdlog_check_rotate_getElem (now : tm) (logger logger1 : qdlog_logger) (fs fs1 : FS)
    (i : Nat) (f : qdlog_file_t) (h : qdlog_check_rotate now logger fs = some (logger1, fs1))
    (hi : logger.files[i]? = some f) (hn : need_rotate f now = false) :
    logger1.files[i]? = some f := by
  unfold qdlog_check_rotate at h
  cases h2 : check_rotate_files now logger.files fs with
  | none => simp [h2] at h
  | some r2 =>
    obtain ⟨files1, fsb⟩ := r2
    simp only [h2, Option.some.injEq, Prod.mk.injEq] at h
    rw [← h.1]
    exact check_rotate_files_getElem now logger.files fs files1 fsb i f h2 hi hn

theorem qdlog_log_kv_getElem (now : tm) (logger : qdlog_logger) (w : World)
    (level : qdlog_level_t) (message : Option (List Nat))
    (pairs : List (Option (List Nat) × Option (List Nat))) (s : qdlog_logger × World)
    (i : Nat) (f : qdlog_file_t)
    (h : qdlog_log_kv now logger w level message pairs = some s)
    (hi : logger.files[i]? = some f) (hn : need_rotate f now = false) (hf : f.file = none) :
    s.1.files[i]? = some f := by
  unfold qdlog_log_kv at h
  cases message with
  | none => simp only [Option.some.injEq] at h; rw [← h]; exact hi
  | some msg =>
    simp only at h
    split_ifs at h with hl
    · simp only [Option.some.injEq] at h; rw [← h]; exact hi
    · cases h1 : qdlog_check_rotate now logger w.fs with
      | none => simp [h1] at h
      | some r =>
        obtain ⟨logger1, fsa⟩ := r
        simp only [h1, Option.some.injEq] at h
        rw [← h]
        exact write_files_getElem now logger1.format level msg pairs logger1.files fsa i f
          (qdlog_check_rotate_getElem now logger logger1 w.fs fsa i f h1 hi hn) hf

theorem prefix_getElem (l l1 : List qdlog_file_t) (h : l <+: l1) (i : Nat) (f : qdlog_file_t)
    (hi : l[i]? = some f) : l1[i]? = some f := by
  obtain ⟨t, rfl⟩ := h
  have hlt : i < l.length := (List.getElem?_eq_some_iff.1 hi).1
  rw [List.getElem?_append_left hlt]
  exact hi

theorem step_degraded (op : Op) (s s1 : qdlog_logger × World) (i : Nat) (f : qdlog_file_t)
    (h : op.step s = some s1) (hi : s.1.files[i]? = some f) (hmode : f.rotate_mode = .SIZE)
    (hfile : f.file = none) (hsize : f.current_size = 0) (hpos : 0 < f.max_size) :
    s1.1.files[i]? = some f := by
  have hn := fun now => degraded_size_not_due f now hmode hsize hpos
  cases op with
  | set_level level => simp only [Op.step, Option.some.injEq] at h; rw [← h]; exact hi
  | set_format format => simp only [Op.step, Option.some.injEq] at h; rw [← h]; exact hi
  | enable_stdout => simp only [Op.step, Option.some.injEq] at h; rw [← h]; exact hi
  | disable_stdout => simp only [Op.step, Option.some.injEq] at h; rw [← h]; exact hi
  | add_file now ok path =>
    simp only [Op.step, Option.some.injEq] at h
    rw [← h]
    exact prefix_getElem _ _ (qdlog_add_file_rotate_config now ok s.1 s.2.fs path .NONE 0 0) i f hi
  | add_file_rotate now ok path mode max_size max_files =>
    simp only [Op.step, Option.some.injEq] at h
    rw [← h]
    exact prefix_getElem _ _
      (qdlog_add_file_rotate_config now ok s.1 s.2.fs path mode max_size max_files) i f hi
  | log now level message =>
    simp only [Op.step, qdlog_log] at h
    exact qdlog_log_kv_getElem now s.1 s.2 level message [] s1 i f h hi (hn now) hfile
  | log_kv now level message pairs =>
    simp only [Op.step] at h
    exact qdlog_log_kv_getElem now s.1 s.2 level message pairs s1 i f h hi (hn now) hfile
  | flush => simp only [Op.step, qdlog_flush, Option.some.injEq] at h; rw [← h]; exact hi
  | check_rotate now =>
    simp only [Op.step] at h
    cases h1 : qdlog_check_rotate now s.1 s.2.fs with
    | none => simp [h1] at h
    | some r =>
      obtain ⟨logger1, fsa⟩ := r
      simp only [h1, Option.some.injEq] at h
      rw [← h]
      exact qdlog_check_rotate_getElem now s.1 logger1 s.2.fs fsa i f h1 hi (hn now)

theorem run_degraded (ops : List Op) :
    ∀ (s s1 : qdlog_logger × World) (i : Nat) (f : qdlog_file_t), run ops s = some s1 →
      s.1.files[i]? = some f → f.rotate_mode = .SIZE → f.file = none → f.current_size = 0 →
      0 < f.max_size → s1.1.files[i]? = some f := by
  induction ops with
  | nil =>
    intro s s1 i f h hi _ _ _ _
    simp only [run, Option.some.injEq] at h
    rw [← h]; exact hi
  | cons op ops ih =>
    intro s s1 i f h hi hmode hfile hsize hpos
    simp only [run] at h
    cases h1 : op.step s with
    | none => simp [h1] at h
    | some s2 =>
      simp only [h1] at h
      exact ih s2 s1 i f h (step_degraded op s s2 i f h1 hi hmode hfile hsize hpos)
        hmode hfile hsize hpos

/-- C19: a SIZE sink whose reopen failed in a rotation has no stream,
`current_size` 0 and a positive `max_size`; such a sink is never due for
rotation, and after every later sequence of calls it is exactly as it was:
never reopened, its `current_size` still 0, and every record passes it by
(the write loop leaves the sink and the files as they are). -/
theorem degraded_size_sink_stays (ops : List Op) (s s1 : qdlog_logger × World) (i : Nat)
    (f : qdlog_file_t) (h : run ops s = some s1) (hi : s.1.files[i]? = some f)
    (hmode : f.rotate_mode = .SIZE) (hfile : f.file = none) (hsize : f.current_size = 0)
    (hpos : 0 < f.max_size) :
    s1.1.files[i]? = some f
    ∧ (∀ now : tm, need_rotate f now = false ∧ check_and_rotate now f s.2.fs = some (f, s.2.fs))
    ∧ (∀ (now : tm) (format : qdlog_format_t) (level : qdlog_level_t) (msg : List Nat)
        (pairs : List (Option (List Nat) × Option (List Nat))) (fs : FS),
        write_files now format level msg pairs [f] fs = ([f], fs))
    ∧ (∀ (now : tm) (g : qdlog_file_t) (fs : FS), g.rotate_mode = .SIZE →
        need_rotate g now = true → (do_rotate now g fs).1.file = none →
        (do_rotate now g fs).1.rotate_mode = .SIZE ∧ (do_rotate now g fs).1.current_size = 0
          ∧ 0 < (do_rotate now g fs).1.max_size) := by
  refine ⟨run_degraded ops s s1 i f h hi hmode hfile hsize hpos, ?_, ?_, ?_⟩
  · intro now
    have hn := degraded_size_not_due f now hmode hsize hpos
    exact ⟨hn, check_and_rotate_not_due now f s.2.fs hn⟩
  · intro now format level msg pairs fs
    simp [write_files, hfile]
  · intro now g fs hg hdue _
    refine ⟨hg, rfl, ?_⟩
    simp only [need_rotate, hg, decide_eq_true_eq] at hdue
    exact hdue.1

/-- Witness of `degraded_size_sink_stays`: four records and a rotation check
leave a SIZE sink without stream as it was. -/
theorem degraded_size_sink_stays_witness :
    run (fourRecords ++ [Op.check_rotate tm1])
        (oneSinkLogger (degradedSink (ascii "a") 10 2), emptyWorld)
      = some (oneSinkLogger (degradedSink (ascii "a") 10 2), emptyWorld)
    ∧ (oneSinkLogger (degradedSink (ascii "a") 10 2)).files[0]?
      = some (degradedSink (ascii "a") 10 2) :=
  ⟨rfl, (degraded_size_sink_stays (fourRecords ++ [Op.check_rotate tm1])
    (oneSinkLogger (degradedSink (ascii "a") 10 2), emptyWorld)
    (oneSinkLogger (degradedSink (ascii "a") 10 2), emptyWorld) 0
    (degradedSink (ascii "a") 10 2) rfl rfl rfl rfl rfl (by decide)).1⟩

/-! ## Time-stamped files -/

theorem get_time_rotated_path_eq (base : List Nat) (mode : qdlog_rotate_t) (now : tm)
    (hmode : mode = .DAILY ∨ mode = .HOURLY) (hcal : now.calendar)
    (hfit : (stamped_path base mode now).length ≤ 1023) :
    get_time_rotated_path 1024 base mode now = stamped_path base mode now := by
  obtain ⟨s0, s1, m0, m1, h0, h1, d0, d1, o0, o1, y0, y1, _, _⟩ := hcal
  have e4 := fmt_d_4_eq (now.tm_year + 1900) y0 y1
  have e2a := fmt_d_2_eq (now.tm_mon + 1) (by omega) (by omega)
  have e2b := fmt_d_2_eq now.tm_mday (by omega) (by omega)
  have e2c := fmt_d_2_eq now.tm_hour h0 (by omega)
  rcases hmode with hm | hm
  · subst hm
    have : base ++ [46] ++ fmt_d 4 (now.tm_year + 1900) ++ fmt_d 2 (now.tm_mon + 1)
        ++ fmt_d 2 now.tm_mday = stamped_path base .DAILY now := by
      simp [stamped_path, time_suffix, e4, e2a, e2b, ascii]
    simp only [get_time_rotated_path, snprintf, this]
    exact List.take_of_length_le hfit
  · subst hm
    have : base ++ [46] ++ fmt_d 4 (now.tm_year + 1900) ++ fmt_d 2 (now.tm_mon + 1)
        ++ fmt_d 2 now.tm_mday ++ fmt_d 2 now.tm_hour = stamped_path base .HOURLY now := by
      simp [stamped_path, time_suffix, e4, e2a, e2b, e2c, ascii]
    simp only [get_time_rotated_path, snprintf, this]
    exact List.take_of_length_le hfit

theorem fopen_names_other (path p : List Nat) (fs : FS) (h : p ≠ path) :
    (fopen path fs).2.names p = fs.names p := by
  unfold fopen
  split_ifs
  · rfl
  · cases fs.names path with
    | some i => rfl
    | none => simp [h]

theorem fopen_names_keep (path p : List Nat) (fs : FS) (i : Nat) (h : fs.names p = some i) :
    (fopen path fs).2.names p = some i := by
  by_cases hp : p = path
  · subst hp
    unfold fopen
    split_ifs
    · exact h
    · simp [h]
  · rw [fopen_names_other path p fs hp]; exact h

theorem fopen_data_keep (path : List Nat) (fs : FS) (i : Nat) (h : i < fs.next) :
    (fopen path fs).2.data i = fs.data i := by
  unfold fopen
  split_ifs
  · rfl
  · cases fs.names path with
    | some k => rfl
    | none =>
      have : i ≠ fs.next := by omega
      simp [this]

theorem fopen_success (path : List Nat) (fs : FS) (h1 : path ≠ [])
    (h2 : fs.openable path = true) :
    ∃ k, (fopen path fs).1 = some k ∧ (fopen path fs).2.names path = some k := by
  unfold fopen
  have : ¬ (path = [] ∨ fs.openable path = false) := by simp [h1, h2]
  simp only [this, if_false]
  cases hn : fs.names path with
  | some i => exact ⟨i, rfl, hn⟩
  | none => exact ⟨fs.next, rfl, by simp⟩

theorem fopen_failure (path : List Nat) (fs : FS) (h : fs.openable path = false) :
    fopen path fs = (none, fs) := by
  simp [fopen, h]

theorem fopen_result_names (path : List Nat) (fs fs1 : FS) (k : Nat)
    (h : fopen path fs = (some k, fs1)) : fs1.names path = some k := by
  unfold fopen at h
  split_ifs at h
  · simp at h
  · cases hn : fs.names path with
    | some i =>
      simp only [hn, Prod.mk.injEq, Option.some.injEq] at h
      rw [← h.2, ← h.1]; exact hn
    | none =>
      simp only [hn, Prod.mk.injEq, Option.some.injEq] at h
      rw [← h.2, ← h.1]; simp

theorem time_suffix_length (mode : qdlog_rotate_t) (now : tm) :
    (mode = .DAILY → (time_suffix mode now).length = 8)
    ∧ (mode = .HOURLY → (time_suffix mode now).length = 10) := by
  constructor <;> intro h <;> subst h <;> simp [time_suffix, digits4, digits2]

theorem stamped_path_ne_base (base : List Nat) (mode : qdlog_rotate_t) (now : tm) :
    stamped_path base mode now ≠ base := by
  intro h
  have := congrArg List.length h
  simp [stamped_path, ascii] at this

set_option maxRecDepth 100000 in
/-- C14 (fails as stated): for a base path of 1023 bytes the stamped name does
not fit in the path buffer and is cut back to the base path itself; a DAILY
sink rotated on the next day gets its stream on the un-suffixed base path, and
no file with the stamped name exists afterwards. -/
theorem time_rotation_long_path_counterexample :
    need_rotate (sink0 longPath .DAILY 0 0 0) tm1 = true
    ∧ (check_and_rotate tm1 (sink0 longPath .DAILY 0 0 0) (oneFileFS longPath [120])).map
        (fun r => (r.1.file, r.2.names longPath, r.2.names (stamped_path longPath .DAILY tm1)))
      = some (some 0, some 0, none) := by
  refine ⟨by decide, by decide⟩

/-- C14 (amended): take a DAILY or HOURLY sink with a stream for which
rotation is due at the calendar time `now`, the stamped name
`base.YYYYMMDD` (`base.YYYYMMDDHH`) fitting in the 1023 bytes of the path
buffer.  Then `check_and_rotate` opens for append the file of that name, made
from the local date (and hour) of `now`, sets `current_size` to 0 and the two
stamps to the values of `now`, and changes nothing else: no other name is
created, removed or renamed (the un-suffixed base path is never opened), every
file keeps its name and its content.  If the open succeeds the new stream is on
the file of the stamped name. -/
theorem time_rotation_opens_stamped (now : tm) (f : qdlog_file_t) (fs : FS) (h : Nat)
    (hmode : f.rotate_mode = .DAILY ∨ f.rotate_mode = .HOURLY) (hdue : shouldRotate f now)
    (hfile : f.file = some h) (hcal : now.calendar)
    (hfit : (stamped_path f.path f.rotate_mode now).length ≤ 1023) :
    check_and_rotate now f fs
      = some ({ f with
                  file := (fopen (stamped_path f.path f.rotate_mode now) fs).1
                  current_size := 0
                  last_rotate_day := now.tm_yday
                  last_rotate_hour := now.tm_hour },
              (fopen (stamped_path f.path f.rotate_mode now) fs).2)
    ∧ stamped_path f.path f.rotate_mode now ≠ f.path
    ∧ (f.rotate_mode = .DAILY → (time_suffix f.rotate_mode now).length = 8)
    ∧ (f.rotate_mode = .HOURLY → (time_suffix f.rotate_mode now).length = 10)
    ∧ (∀ p, p ≠ stamped_path f.path f.rotate_mode now →
        (fopen (stamped_path f.path f.rotate_mode now) fs).2.names p = fs.names p)
    ∧ (∀ p i, fs.names p = some i →
        (fopen (stamped_path f.path f.rotate_mode now) fs).2.names p = some i)
    ∧ (∀ i, i < fs.next →
        (fopen (stamped_path f.path f.rotate_mode now) fs).2.data i = fs.data i)
    ∧ (fs.openable (stamped_path f.path f.rotate_mode now) = true →
        ∃ k, (fopen (stamped_path f.path f.rotate_mode now) fs).1 = some k
          ∧ (fopen (stamped_path f.path f.rotate_mode now) fs).2.names
              (stamped_path f.path f.rotate_mode now) = some k) := by
  have hne : stamped_path f.path f.rotate_mode now ≠ [] := by
    simp [stamped_path, ascii]
  have hneed : need_rotate f now = true := (need_rotate_iff f now).2 hdue
  have hnone : f.rotate_mode ≠ .NONE := by rcases hmode with h | h <;> simp [h]
  have hsize : f.rotate_mode ≠ .SIZE := by rcases hmode with h | h <;> simp [h]
  refine ⟨?_, stamped_path_ne_base _ _ _, (time_suffix_length _ now).1,
    (time_suffix_length _ now).2, fun p hp => fopen_names_other _ p fs hp,
    fun p i hp => fopen_names_keep _ p fs i hp, fun i hi => fopen_data_keep _ fs i hi,
    fun ho => fopen_success _ fs hne ho⟩
  simp only [check_and_rotate, hnone, if_false, hneed, if_true, hfile, do_rotate, hsize,
    get_time_rotated_path_eq f.path f.rotate_mode now hmode hcal hfit]

/-- Witness of `time_rotation_opens_stamped`: the DAILY sink registered on `a`
on 1 January 1970 (active file `a.19700101`) and checked on 2 January gets its
stream on the new file `a.19700102` with `current_size` 0; the file of the day
before keeps its name and `a` itself is never created. -/
theorem time_rotation_opens_stamped_witness :
    (qdlog_add_file_rotate tm0 true qdlog_new emptyFS (some (ascii "a")) .DAILY 0 0).2.1.files
      = [sink0 (ascii "a") .DAILY 0 0 0]
    ∧ stamped_path (ascii "a") .DAILY tm1 = ascii "a.19700102"
    ∧ (check_and_rotate tm1 (sink0 (ascii "a") .DAILY 0 0 0)
        (qdlog_add_file_rotate tm0 true qdlog_new emptyFS (some (ascii "a")) .DAILY 0 0).2.2).map
        (fun r => (r.1.file, r.1.current_size, r.1.last_rotate_day,
          r.2.names (ascii "a.19700102"), r.2.names (ascii "a.19700101"), r.2.names (ascii "a")))
      = some (some 1, 0, 1, some 1, some 0, none) := by
  refine ⟨rfl, by decide, ?_⟩
  rw [(time_rotation_opens_stamped tm1 (sink0 (ascii "a") .DAILY 0 0 0)
    (qdlog_add_file_rotate tm0 true qdlog_new emptyFS (some (ascii "a")) .DAILY 0 0).2.2 0
    (Or.inl rfl) (by simp [shouldRotate, sink0, tm1]) rfl (by unfold tm.calendar; decide)
    (by decide)).1]
  rfl

/-! ## Registration of a sink -/

theorem actual_path_eq (now : tm) (path : List Nat) (mode : qdlog_rotate_t)
    (hcal : now.calendar) (hfit : (sink_file_name path mode now).length ≤ 1023) :
    (if mode = .DAILY ∨ mode = .HOURLY then get_time_rotated_path 1024 path mode now
      else snprintf 1024 path) = sink_file_name path mode now := by
  unfold sink_file_name at *
  by_cases hm : mode = .DAILY ∨ mode = .HOURLY
  · simp only [hm, if_true] at hfit ⊢
    exact get_time_rotated_path_eq path mode now hm hcal hfit
  · simp only [hm, if_false] at hfit ⊢
    exact List.take_of_length_le hfit

theorem add_file_rotate_failure (now : tm) (ok : Bool) (logger : qdlog_logger) (fs : FS)
    (path : Option (List Nat)) (mode : qdlog_rotate_t) (max_size max_files : Int)
    (h : (qdlog_add_file_rotate now ok logger fs path mode max_size max_files).1 ≠ 0) :
    (qdlog_add_file_rotate now ok logger fs path mode max_size max_files).2.1 = logger := by
  unfold qdlog_add_file_rotate at h ⊢
  cases path with
  | none => rfl
  | some p =>
    simp only at h ⊢
    by_cases h1 : logger.file_count ≥ MAX_FILE_OUTPUTS
    · simp only [h1, if_true]
    · simp only [h1, if_false] at h ⊢
      revert h
      generalize (if mode = .DAILY ∨ mode = .HOURLY then
        get_time_rotated_path 1024 p mode now else snprintf 1024 p) = q
      generalize fopen q fs = r
      obtain ⟨r1, r2⟩ := r
      cases r1 with
      | none => intro _; rfl
      | some k =>
        cases ok with
        | false => intro _; rfl
        | true => intro h; exact absurd rfl h

set_option maxRecDepth 100000 in
/-- C17 (fails as stated): below capacity, with a non-null path and a
successful open, the call still returns 2 and registers nothing when `strdup`
fails; and for a path of 1025 bytes the call returns 0 with the stream on the
file named by the first 1023 bytes, no file of the given name existing. -/
theorem add_file_rotate_counterexample :
    qdlog_new.file_count < MAX_FILE_OUTPUTS
    ∧ (fopen (ascii "a") emptyFS).1 = some 0
    ∧ (qdlog_add_file_rotate tm0 false qdlog_new emptyFS (some (ascii "a")) .NONE 0 0).1 = 2
    ∧ (qdlog_add_file_rotate tm0 false qdlog_new emptyFS (some (ascii "a")) .NONE 0 0).2.1.files
        = []
    ∧ (qdlog_add_file_rotate tm0 true qdlog_new emptyFS (some (longPath ++ ascii "bc"))
        .NONE 0 0).1 = 0
    ∧ (qdlog_add_file_rotate tm0 true qdlog_new emptyFS (some (longPath ++ ascii "bc"))
        .NONE 0 0).2.1.files.map (fun f => f.file) = [some 0]
    ∧ (qdlog_add_file_rotate tm0 true qdlog_new emptyFS (some (longPath ++ ascii "bc"))
        .NONE 0 0).2.2.names longPath = some 0
    ∧ (qdlog_add_file_rotate tm0 true qdlog_new emptyFS (some (longPath ++ ascii "bc"))
        .NONE 0 0).2.2.names (longPath ++ ascii "bc") = none := by
  refine ⟨by decide, by decide, by decide, rfl, by decide, by decide, by decide, by decide⟩

/-- C17 (amended): when the logger is below capacity, the name of the active
file (the path itself for NONE and SIZE, the time-stamped path for DAILY and
HOURLY, at a calendar time) fits in the 1023 bytes of the path buffer, the open
of that name succeeds and `strdup` succeeds, `qdlog_add_file_rotate` returns 0
and appends exactly one sink after the existing ones, which stay as they are
and in their order: its base path is the given path, its stream is on the file
of that name, its `current_size` is the length of that file when it was opened
and its stamps are the day of the year and the hour of `now`.  On every
non-zero return the logger, its sinks and their number are unchanged. -/
theorem add_file_rotate_appends (now : tm) (logger : qdlog_logger) (fs fs1 : FS)
    (path : List Nat) (mode : qdlog_rotate_t) (max_size max_files : Int) (h : Nat)
    (hcap : logger.file_count < MAX_FILE_OUTPUTS) (hcal : now.calendar)
    (hfit : (sink_file_name path mode now).length ≤ 1023)
    (hopen : fopen (sink_file_name path mode now) fs = (some h, fs1)) :
    qdlog_add_file_rotate now true logger fs (some path) mode max_size max_files
      = (0, { logger with
                files := logger.files ++
                  [{ file := some h, path := path, rotate_mode := mode, max_size := max_size,
                     max_files := max_files, current_size := ((fs1.data h).length : Int),
                     last_rotate_day := now.tm_yday, last_rotate_hour := now.tm_hour }] }, fs1)
    ∧ (qdlog_add_file_rotate now true logger fs (some path) mode max_size
        max_files).2.1.file_count = logger.file_count + 1
    ∧ fs1.names (sink_file_name path mode now) = some h
    ∧ fs1.content (sink_file_name path mode now) = some (fs1.data h)
    ∧ (∀ (ok : Bool) (lg : qdlog_logger) (fs0 : FS) (p : Option (List Nat))
        (m : qdlog_rotate_t) (a b : Int),
        (qdlog_add_file_rotate now ok lg fs0 p m a b).1 ≠ 0 →
          (qdlog_add_file_rotate now ok lg fs0 p m a b).2.1 = lg) := by
  have hn := fopen_result_names _ fs fs1 h hopen
  have hcap1 : ¬ logger.file_count ≥ MAX_FILE_OUTPUTS := by omega
  have e : qdlog_add_file_rotate now true logger fs (some path) mode max_size max_files
      = (0, { logger with
                files := logger.files ++
                  [{ file := some h, path := path, rotate_mode := mode, max_size := max_size,
                     max_files := max_files, current_size := ((fs1.data h).length : Int),
                     last_rotate_day := now.tm_yday, last_rotate_hour := now.tm_hour }] }, fs1) := by
    unfold qdlog_add_file_rotate
    simp only [hcap1, if_false, actual_path_eq now path mode hcal hfit, hopen, get_file_size, hn]
    rfl
  refine ⟨e, ?_, hn, by simp [FS.content, hn], fun ok lg fs0 p m a b hne =>
    add_file_rotate_failure now ok lg fs0 p m a b hne⟩
  rw [e]
  simp [qdlog_logger.file_count]

/-- Witness of `add_file_rotate_appends`: a SIZE sink registered on the
existing file `a` of 3 bytes starts with `current_size` 3, and an HOURLY sink
registered on `a` at midnight of 1 January 1970 has the new file
`a.1970010100` as its active file. -/
theorem add_file_rotate_appends_witness :
    (qdlog_add_file_rotate tm0 true qdlog_new (oneFileFS (ascii "a") (ascii "xyz"))
        (some (ascii "a")) .SIZE 50 1).2.1.files = [sink0 (ascii "a") .SIZE 50 1 3]
    ∧ sink_file_name (ascii "a") .HOURLY tm0 = ascii "a.1970010100"
    ∧ (qdlog_add_file_rotate tm0 true qdlog_new (oneFileFS (ascii "a") (ascii "xyz"))
        (some (ascii "a")) .HOURLY 0 0).2.2.names (ascii "a.1970010100") = some 1 := by
  refine ⟨?_, by decide, by decide⟩
  rw [(add_file_rotate_appends tm0 qdlog_new (oneFileFS (ascii "a") (ascii "xyz"))
    (oneFileFS (ascii "a") (ascii "xyz")) (ascii "a") .SIZE 50 1 0 (by decide)
    (by unfold tm.calendar; decide) (by decide) rfl).1]
  rfl

/-! ## Rotation before the write -/

theorem zero_pad_length_ge (w : Nat) (ds : List Nat) : w ≤ (zero_pad w ds).length := by
  simp only [zero_pad, List.length_append, List.length_replicate]
  omega

theorem fmt_d_length_ge (w : Nat) (n : Int) : w ≤ (fmt_d w n).length := by
  unfold fmt_d
  split_ifs
  · have := zero_pad_length_ge (w - 1) (fmt_u 10 n.natAbs)
    simp only [List.length_cons]
    omega
  · exact zero_pad_length_ge w _

theorem timestamp_length_ge (now : tm) : 19 ≤ (timestamp now).length := by
  have h1 := fmt_d_length_ge 4 (now.tm_year + 1900)
  have h2 := fmt_d_length_ge 2 (now.tm_mon + 1)
  have h3 := fmt_d_length_ge 2 now.tm_mday
  have h4 := fmt_d_length_ge 2 now.tm_hour
  have h5 := fmt_d_length_ge 2 now.tm_min
  have h6 := fmt_d_length_ge 2 now.tm_sec
  simp only [timestamp, List.length_append, List.length_singleton]
  omega

theorem write_log_entry_min_length (now : tm) (format : qdlog_format_t) (level : qdlog_level_t)
    (msg : List Nat) (pairs : List (Option (List Nat) × Option (List Nat))) :
    29 ≤ (write_log_entry now format level msg pairs).1.length := by
  have h := timestamp_length_ge now
  cases format with
  | TEXT =>
    have h5 : 5 ≤ (fmt_left_s 5 (level_names level)).length := by
      simp only [fmt_left_s, List.length_append, List.length_replicate]
      omega
    simp only [write_log_entry, text_head, List.length_append]
    have e1 : (ascii " [").length = 2 := by decide
    have e2 : (ascii "] ").length = 2 := by decide
    have e3 : (ascii "\n").length = 1 := by decide
    omega
  | JSON =>
    simp only [write_log_entry, json_head_time, List.length_append]
    have e1 : (ascii "\x7b\"time\":\"").length = 9 := by decide
    have e2 : (ascii "\",").length = 2 := by decide
    omega

set_option maxRecDepth 100000 in
/-- C15 (fails as stated): in the scenario of the specification (SIZE sink on
`/tmp/app.log`, `max_size` 50, `max_files` 1, five INFO records `hello`) each
line has 34 bytes, the first rotation happens at the third call, after two
writes, and a second one at the fifth call, which deletes the first two lines;
no record of 15 bytes exists, every line has at least 29 bytes.  A record below
the minimum level does not rotate a sink whose counter has reached
`max_size`. -/
theorem size_rotation_scenario_counterexample :
    (run (helloOps.take 3) (qdlog_new, emptyWorld)).map
        (fun s => (s.1.files.map (fun f => f.current_size),
          s.2.fs.content (ascii "/tmp/app.log"), s.2.fs.content (ascii "/tmp/app.log.1")))
      = some ([68], some (ascii ("1970-01-01T00:00:01 [INFO ] hello\n"
          ++ "1970-01-01T00:00:02 [INFO ] hello\n")), none)
    ∧ (run (helloOps.take 4) (qdlog_new, emptyWorld)).map
        (fun s => (s.1.files.map (fun f => f.current_size),
          s.2.fs.content (ascii "/tmp/app.log"), s.2.fs.content (ascii "/tmp/app.log.1")))
      = some ([34], some (ascii "1970-01-01T00:00:03 [INFO ] hello\n"),
          some (ascii ("1970-01-01T00:00:01 [INFO ] hello\n"
            ++ "1970-01-01T00:00:02 [INFO ] hello\n")))
    ∧ (run helloOps (qdlog_new, emptyWorld)).map
        (fun s => (s.1.files.map (fun f => f.current_size),
          s.2.fs.content (ascii "/tmp/app.log"), s.2.fs.content (ascii "/tmp/app.log.1")))
      = some ([34], some (ascii "1970-01-01T00:00:05 [INFO ] hello\n"),
          some (ascii ("1970-01-01T00:00:03 [INFO ] hello\n"
            ++ "1970-01-01T00:00:04 [INFO ] hello\n")))
    ∧ (run (helloOps.take 3 ++ [Op.log (tmSec 3) .DEBUG (some (ascii "hello"))])
          (qdlog_new, emptyWorld)).map
        (fun s => (s.1.files.map (fun f => f.current_size),
          s.2.fs.content (ascii "/tmp/app.log"), s.2.fs.content (ascii "/tmp/app.log.1")))
      = some ([68], some (ascii ("1970-01-01T00:00:01 [INFO ] hello\n"
          ++ "1970-01-01T00:00:02 [INFO ] hello\n")), none)
    ∧ (∀ (now : tm) (format : qdlog_format_t) (level : qdlog_level_t) (msg : List Nat)
        (pairs : List (Option (List Nat) × Option (List Nat))),
        29 ≤ (write_log_entry now format level msg pairs).1.length) := by
  refine ⟨by decide, by decide, by decide, by decide, write_log_entry_min_length⟩

theorem check_rotate_files_getElem_some (now : tm) (files : List qdlog_file_t) :
    ∀ (fs : FS) (files1 : List qdlog_file_t) (fs1 : FS) (i : Nat) (f : qdlog_file_t),
      check_rotate_files now files fs = some (files1, fs1) → files[i]? = some f →
      ∃ (fsa fsb : FS) (f1 : qdlog_file_t),
        check_and_rotate now f fsa = some (f1, fsb) ∧ files1[i]? = some f1 := by
  induction files with
  | nil => intro fs files1 fs1 i f _ hi; simp at hi
  | cons g rest ih =>
    intro fs files1 fs1 i f h hi
    simp only [check_rotate_files] at h
    cases hc : check_and_rotate now g fs with
    | none => simp [hc] at h
    | some r =>
      obtain ⟨g1, fsg⟩ := r
      simp only [hc] at h
      cases hr : check_rotate_files now rest fsg with
      | none => simp [hr] at h
      | some r2 =>
        obtain ⟨rest1, fs2⟩ := r2
        simp only [hr, Option.some.injEq, Prod.mk.injEq] at h
        obtain ⟨h1, _⟩ := h
        subst h1
        cases i with
        | zero =>
          simp only [List.getElem?_cons_zero, Option.some.injEq] at hi
          subst hi
          exact ⟨fs, fsg, g1, hc, by simp⟩
        | succ j =>
          simp only [List.getElem?_cons_succ] at hi
          obtain ⟨fsa, fsb, f1, hf1, hj⟩ := ih fsg rest1 fs2 j f hr hi
          exact ⟨fsa, fsb, f1, hf1, by simpa using hj⟩

theorem check_rotate_files_format (now : tm) (logger l1 : qdlog_logger) (fs fs1 : FS)
    (h : qdlog_check_rotate now logger fs = some (l1, fs1)) :
    l1.format = logger.format ∧ l1.stdout_enabled = logger.stdout_enabled
      ∧ check_rotate_files now logger.files fs = some (l1.files, fs1) := by
  unfold qdlog_check_rotate at h
  cases hc : check_rotate_files now logger.files fs with
  | none => simp [hc] at h
  | some r =>
    obtain ⟨files, fs2⟩ := r
    simp only [hc, Option.some.injEq, Prod.mk.injEq] at h
    obtain ⟨h1, h2⟩ := h
    subst h1; subst h2
    exact ⟨rfl, rfl, rfl⟩

theorem size_check_iff (now : tm) (f : qdlog_file_t) (fs : FS) (h : Nat)
    (hmode : f.rotate_mode = .SIZE) (hpos : 0 < f.max_size) (hfile : f.file = some h) :
    check_and_rotate now f fs
      = some (if f.current_size ≥ f.max_size then do_rotate now f fs else (f, fs)) := by
  by_cases hd : f.current_size ≥ f.max_size
  · simp [check_and_rotate, need_rotate, hmode, hpos, hd, hfile]
  · simp [check_and_rotate, need_rotate, hmode, hpos, hd]

/-- C15 (amended): for a SIZE sink with `max_size > 0` and an open stream,
rotation is evaluated before the write it would affect.  A call of
`qdlog_log_kv` that is emitted (message present, level not below the minimum)
first runs `qdlog_check_rotate` over all sinks and only then writes; the check
rotates the sink iff its `current_size` before the call is at least
`max_size`, and a rotation resets the counter to 0 and reopens the base path
after `rotate_files`; the write appends the whole record to the stream each
sink holds after the check, as many times as sinks hold that stream, and
changes no name, so no record is split across files; the counter of the sink
then grows by the count of the record, which in TEXT format is its length in
bytes. -/
theorem size_rotation_before_write (now : tm) (logger : qdlog_logger) (w : World)
    (level : qdlog_level_t) (msg : List Nat)
    (pairs : List (Option (List Nat) × Option (List Nat))) (i : Nat) (f : qdlog_file_t)
    (h : Nat) (hlevel : ¬ level.toNat < logger.level.toNat)
    (hi : logger.files[i]? = some f) (hmode : f.rotate_mode = .SIZE) (hpos : 0 < f.max_size)
    (hfile : f.file = some h) :
    qdlog_log_kv now logger w level (some msg) pairs
      = (qdlog_check_rotate now logger w.fs).map (fun r =>
          ({ r.1 with files := (write_files now r.1.format level msg pairs r.1.files r.2).1 },
           { fs := (write_files now r.1.format level msg pairs r.1.files r.2).2,
             out := if r.1.stdout_enabled then
                 w.out ++ (write_log_entry now r.1.format level msg pairs).1
               else w.out }))
    ∧ (∀ fs : FS, check_and_rotate now f fs
        = some (if f.current_size ≥ f.max_size then do_rotate now f fs else (f, fs)))
    ∧ (∀ fs : FS, do_rotate now f fs
        = ({ f with
              file := (fopen f.path (rotate_files f.path f.max_files fs)).1
              current_size := 0
              last_rotate_day := now.tm_yday
              last_rotate_hour := now.tm_hour },
           (fopen f.path (rotate_files f.path f.max_files fs)).2))
    ∧ (∀ s1 : qdlog_logger × World, qdlog_log_kv now logger w level (some msg) pairs = some s1 →
        (f.current_size < f.max_size →
          s1.1.files[i]? = some { f with current_size :=
            f.current_size + (write_log_entry now logger.format level msg pairs).2 })
        ∧ (f.current_size ≥ f.max_size →
          ∃ fsa : FS, s1.1.files[i]? = some { (do_rotate now f fsa).1 with current_size :=
            if (do_rotate now f fsa).1.file.isSome then
              (write_log_entry now logger.format level msg pairs).2
            else 0 }))
    ∧ (∀ (format : qdlog_format_t) (files : List qdlog_file_t) (fs : FS),
        (write_files now format level msg pairs files fs).2.names = fs.names
        ∧ ∀ k, (write_files now format level msg pairs files fs).2.data k
            = fs.data k ++ (List.replicate (sinks_on k files)
                (write_log_entry now format level msg pairs).1).flatten)
    ∧ (write_log_entry now .TEXT level msg pairs).2
        = ((write_log_entry now .TEXT level msg pairs).1.length : Int) := by
  have hA : qdlog_log_kv now logger w level (some msg) pairs
      = (qdlog_check_rotate now logger w.fs).map (fun r =>
          ({ r.1 with files := (write_files now r.1.format level msg pairs r.1.files r.2).1 },
           { fs := (write_files now r.1.format level msg pairs r.1.files r.2).2,
             out := if r.1.stdout_enabled then
                 w.out ++ (write_log_entry now r.1.format level msg pairs).1
               else w.out })) := by
    unfold qdlog_log_kv
    simp only [hlevel, if_false]
    cases qdlog_check_rotate now logger w.fs with
    | none => rfl
    | some r => rfl
  refine ⟨hA, fun fs => size_check_iff now f fs h hmode hpos hfile, ?_, ?_,
    fun format files fs => ⟨(write_files_fs now format level msg pairs files fs).1,
      (write_files_fs now format level msg pairs files fs).2.2.2⟩,
    write_log_entry_text_count now level msg pairs⟩
  · intro fs
    simp only [do_rotate, hmode, if_true]
  · intro s1 hs
    rw [hA] at hs
    cases hc : qdlog_check_rotate now logger w.fs with
    | none => simp [hc] at hs
    | some r =>
      obtain ⟨l1, fs1⟩ := r
      simp only [hc, Option.map_some', Option.some.injEq] at hs
      obtain ⟨hfmt, _, hcf⟩ := check_rotate_files_format now logger l1 w.fs fs1 hc
      obtain ⟨fsa, fsb, f1, hf1, hl1⟩ :=
        check_rotate_files_getElem_some now logger.files w.fs l1.files fs1 i f hcf hi
      rw [size_check_iff now f fsa h hmode hpos hfile] at hf1
      have hfiles : s1.1.files = (write_files now l1.format level msg pairs l1.files fs1).1 := by
        rw [← hs]
      rw [hfiles, write_files_sinks, List.getElem?_map, hl1, hfmt]
      constructor
      · intro hlt
        have hd : ¬ f.current_size ≥ f.max_size := by omega
        simp only [hd, if_false, Option.some.injEq, Prod.mk.injEq] at hf1
        rw [← hf1.1]
        simp [hfile]
      · intro hge
        simp only [hge, if_true, Option.some.injEq] at hf1
        refine ⟨fsa, ?_⟩
        have e : f1 = (do_rotate now f fsa).1 := by rw [hf1]
        rw [e]
        have h0 : (do_rotate now f fsa).1.current_size = 0 := rfl
        generalize (do_rotate now f fsa).1 = g at h0
        obtain ⟨gfile, gpath, gmode, gmax, gfiles, gsize, gday, ghour⟩ := g
        simp only at h0
        subst h0
        cases gfile with
        | none => simp
        | some k => simp

set_option maxRecDepth 100000 in
/-- Witness of `size_rotation_before_write`: a SIZE sink on the new file `a`
with `max_size` 100 and `max_files` 1, and five TEXT records of 30 bytes.  After
four calls the counter is 120 and nothing has rotated; the fifth call rotates
before it writes: `a.1` holds the four lines written before it and `a` holds
the fifth. -/
theorem size_rotation_before_write_witness :
    (run (xOps.take 5) (qdlog_new, emptyWorld)).map (fun s => s.1.files)
      = some [sink0 (ascii "a") .SIZE 100 1 120]
    ∧ (run (xOps.take 5) (qdlog_new, emptyWorld)).map
        (fun s => (s.2.fs.content (ascii "a"), s.2.fs.content (ascii "a.1")))
      = some (some (ascii ("1970-01-01T00:00:01 [INFO ] x
" ++ "1970-01-01T00:00:02 [INFO ] x
"
          ++ "1970-01-01T00:00:03 [INFO ] x
" ++ "1970-01-01T00:00:04 [INFO ] x
")), none)
    ∧ (∀ fs : FS, check_and_rotate (tmSec 5) (sink0 (ascii "a") .SIZE 100 1 120) fs
        = some (do_rotate (tmSec 5) (sink0 (ascii "a") .SIZE 100 1 120) fs))
    ∧ (run xOps (qdlog_new, emptyWorld)).map
        (fun s => (s.1.files.map (fun f => f.current_size),
          s.2.fs.content (ascii "a"), s.2.fs.content (ascii "a.1")))
      = some ([30], some (ascii "1970-01-01T00:00:05 [INFO ] x
"),
          some (ascii ("1970-01-01T00:00:01 [INFO ] x
" ++ "1970-01-01T00:00:02 [INFO ] x
"
            ++ "1970-01-01T00:00:03 [INFO ] x
" ++ "1970-01-01T00:00:04 [INFO ] x
"))) := by
  refine ⟨rfl, by decide, ?_, by decide⟩
  exact (size_rotation_before_write (tmSec 5) (oneSinkLogger (sink0 (ascii "a") .SIZE 100 1 120))
    emptyWorld .INFO (ascii "x") [] 0 (sink0 (ascii "a") .SIZE 100 1 120) 0 (by decide) rfl rfl
    (by decide) rfl).2.1

/-! ## A time-rotated sink without stream -/

theorem check_and_rotate_degraded_due (now : tm) (f : qdlog_file_t) (fs : FS)
    (hf : f.file = none) (hd : need_rotate f now = true) : check_and_rotate now f fs = none := by
  have hm : f.rotate_mode ≠ .NONE := by
    intro h
    simp [need_rotate, h] at hd
  simp [check_and_rotate, hm, hd, hf]

theorem check_rotate_files_degraded_due (now : tm) (f : qdlog_file_t) (hf : f.file = none)
    (hd : need_rotate f now = true) (files : List qdlog_file_t) :
    ∀ fs : FS, f ∈ files → check_rotate_files now files fs = none := by
  induction files with
  | nil => intro fs hm; simp at hm
  | cons g rest ih =>
    intro fs hm
    simp only [check_rotate_files]
    cases hc : check_and_rotate now g fs with
    | none => rfl
    | some r =>
      obtain ⟨g1, fs1⟩ := r
      rcases List.mem_cons.1 hm with h | h
      · subst h
        rw [check_and_rotate_degraded_due now f fs hf hd] at hc
        simp at hc
      · simp only [ih fs1 h]

theorem qdlog_log_kv_degraded_due (now : tm) (logger : qdlog_logger) (w : World)
    (level : qdlog_level_t) (msg : List Nat)
    (pairs : List (Option (List Nat) × Option (List Nat))) (f : qdlog_file_t)
    (hm : f ∈ logger.files) (hf : f.file = none) (hd : need_rotate f now = true)
    (hlevel : ¬ level.toNat < logger.level.toNat) :
    qdlog_log_kv now logger w level (some msg) pairs = none := by
  simp [qdlog_log_kv, hlevel, qdlog_check_rotate,
    check_rotate_files_degraded_due now f hf hd logger.files w.fs hm]

set_option maxRecDepth 100000 in
/-- C16: a logger with `stdout` enabled, a DAILY sink on `a` and a sink without
rotation on `b`, on a file system where `a.19700102` cannot be opened.  The
first record of 2 January makes the reopen fail: the DAILY sink is left
without stream and with `current_size` 0, and the record reaches `stdout` and
`b`.  A second record of the same day is dropped for that sink and delivered to
`stdout` and `b`.  A record of 3 January finds the sink due again and reaches
`fclose` on its null stream: the call has no defined result, and neither has
`qdlog_check_rotate`.  In general a sink without stream for which rotation is
due leaves `check_and_rotate` and every emitted log call of its logger without
defined result. -/
theorem degraded_time_sink_undefined :
    (run (twoSinkOps ++ [Op.log tm1 .INFO (some (ascii "x"))])
        (qdlog_new, { fs := noReopenFS, out := [] })).map
      (fun s => (s.1.files.map (fun f => (f.file, f.current_size)), s.2.out,
        s.2.fs.content (ascii "b"), s.2.fs.names (ascii "a.19700102")))
      = some ([(none, 0), (some 1, 30)], ascii "1970-01-02T00:00:00 [INFO ] x\n",
          some (ascii "1970-01-02T00:00:00 [INFO ] x\n"), none)
    ∧ (run (twoSinkOps ++ [Op.log tm1 .INFO (some (ascii "x")),
          Op.log tm1 .INFO (some (ascii "y"))])
        (qdlog_new, { fs := noReopenFS, out := [] })).map
      (fun s => (s.1.files.map (fun f => (f.file, f.current_size)), s.2.out,
        s.2.fs.content (ascii "b"), s.2.fs.content (ascii "a.19700101")))
      = some ([(none, 0), (some 1, 60)],
          ascii ("1970-01-02T00:00:00 [INFO ] x\n" ++ "1970-01-02T00:00:00 [INFO ] y\n"),
          some (ascii ("1970-01-02T00:00:00 [INFO ] x\n" ++ "1970-01-02T00:00:00 [INFO ] y\n")),
          some [])
    ∧ (run (twoSinkOps ++ [Op.log tm1 .INFO (some (ascii "x")),
          Op.log tm1 .INFO (some (ascii "y")), Op.log tm2 .INFO (some (ascii "z"))])
        (qdlog_new, { fs := noReopenFS, out := [] })).isNone = true
    ∧ (run (twoSinkOps ++ [Op.log tm1 .INFO (some (ascii "x")), Op.check_rotate tm2])
        (qdlog_new, { fs := noReopenFS, out := [] })).isNone = true
    ∧ (∀ (now : tm) (f : qdlog_file_t) (fs : FS), f.file = none → need_rotate f now = true →
        check_and_rotate now f fs = none)
    ∧ (∀ (now : tm) (logger : qdlog_logger) (w : World) (level : qdlog_level_t) (msg : List Nat)
        (pairs : List (Option (List Nat) × Option (List Nat))) (f : qdlog_file_t),
        f ∈ logger.files → f.file = none → need_rotate f now = true →
        ¬ level.toNat < logger.level.toNat →
        qdlog_log_kv now logger w level (some msg) pairs = none) := by
  refine ⟨by decide, by decide, by decide, by decide, check_and_rotate_degraded_due,
    qdlog_log_kv_degraded_due⟩

/-! ## Time rotation across a year -/

theorem daily_same_yday_no_rotation (now : tm) (f : qdlog_file_t) (fs : FS)
    (hmode : f.rotate_mode = .DAILY) (hday : now.tm_yday = f.last_rotate_day) :
    check_and_rotate now f fs = some (f, fs) := by
  apply check_and_rotate_not_due
  simp [need_rotate, hmode, hday]

theorem hourly_same_stamps_no_rotation (now : tm) (f : qdlog_file_t) (fs : FS)
    (hmode : f.rotate_mode = .HOURLY) (hday : now.tm_yday = f.last_rotate_day)
    (hhour : now.tm_hour = f.last_rotate_hour) :
    check_and_rotate now f fs = some (f, fs) := by
  apply check_and_rotate_not_due
  simp [need_rotate, hmode, hday, hhour]

set_option maxRecDepth 100000 in
/-- C20: a DAILY sink registered on `a` at midnight of 1 January 1970 has the
active file `a.19700101`.  A record logged at midnight of 1 January 1971 does
not rotate it: the record is appended to `a.19700101`, and the file
`a.19710101` of the day on which it was logged is never created; the same
happens to an HOURLY sink, whose record of 1971 goes to `a.1970010100`.  In
general `check_and_rotate` leaves a DAILY sink as it is whenever the day of the
year of `now` equals the stamp, whatever the year, and an HOURLY sink whenever
day of the year and hour equal the stamps. -/
theorem time_rotation_misses_year :
    tmNextYear.calendar
    ∧ stamped_path (ascii "a") .DAILY tmNextYear = ascii "a.19710101"
    ∧ (run [Op.add_file_rotate tm0 true (some (ascii "a")) .DAILY 0 0,
          Op.log tmNextYear .INFO (some (ascii "x"))] (qdlog_new, emptyWorld)).map
      (fun s => (s.1.files.map (fun f => f.file), s.2.fs.names (ascii "a.19700101"),
        s.2.fs.content (ascii "a.19700101"), s.2.fs.names (ascii "a.19710101")))
      = some ([some 0], some 0, some (ascii "1971-01-01T00:00:00 [INFO ] x\n"), none)
    ∧ stamped_path (ascii "a") .HOURLY tmNextYear = ascii "a.1971010100"
    ∧ (run [Op.add_file_rotate tm0 true (some (ascii "a")) .HOURLY 0 0,
          Op.log tmNextYear .INFO (some (ascii "x"))] (qdlog_new, emptyWorld)).map
      (fun s => (s.1.files.map (fun f => f.file), s.2.fs.names (ascii "a.1970010100"),
        s.2.fs.content (ascii "a.1970010100"), s.2.fs.names (ascii "a.1971010100")))
      = some ([some 0], some 0, some (ascii "1971-01-01T00:00:00 [INFO ] x\n"), none)
    ∧ (∀ (now : tm) (f : qdlog_file_t) (fs : FS), f.rotate_mode = .DAILY →
        now.tm_yday = f.last_rotate_day → check_and_rotate now f fs = some (f, fs))
    ∧ (∀ (now : tm) (f : qdlog_file_t) (fs : FS), f.rotate_mode = .HOURLY →
        now.tm_yday = f.last_rotate_day → now.tm_hour = f.last_rotate_hour →
        check_and_rotate now f fs = some (f, fs)) := by
  refine ⟨by unfold tm.calendar; decide, by decide, by decide, by decide, by decide,
    daily_same_yday_no_rotation, hourly_same_stamps_no_rotation⟩

end Qdlog
